import Mathlib

/-!
Reverse-mapping btree operations of xfsprogs (libxfs/xfs_rmap.c).

A shallow embedding of `xfs_rmap_alloc` and `xfs_rmap_free`.  The rmap btree of
one allocation group is viewed as the list of its leaf records in tree order.
`xfs_agblock_t` and `xfs_extlen_t` are 32-bit unsigned, the owner is 64-bit
unsigned; they are natural numbers here and every C addition or subtraction on
them is reduced modulo `2^32` explicitly.
-/

namespace XfsRmap

/-! ## Machine arithmetic and constants -/

/-- Addition of two `__uint32_t` values as C computes it (wraps modulo 2^32). -/
def add32 (a b : Nat) : Nat := (a + b) % 4294967296

/-- Subtraction of two `__uint32_t` values as C computes it (wraps modulo 2^32). -/
def sub32 (a b : Nat) : Nat := (a % 4294967296 + 4294967296 - b % 4294967296) % 4294967296

/-- Modelled from the spec: the value of `XFS_RMAP_OWN_NULL` (`OWN_NULL = -1`, section 6), which
is defined in xfs_format.h, a header that is not among the sources; as a 64-bit unsigned owner
it is `2^64 - 1`. -/
def XFS_RMAP_OWN_NULL : Nat := 18446744073709551615

/-- Modelled from the spec: the value of `XFS_RMAP_OWN_UNKNOWN` (the sentinel just below
`OWN_NULL`, "owner check disabled"), defined in the absent header xfs_format.h; as a 64-bit
unsigned owner it is `2^64 - 2`. -/
def XFS_RMAP_OWN_UNKNOWN : Nat := 18446744073709551614

/-- Modelled from the spec: the value of `XFS_RMAP_OWN_MIN` (`OWN_MIN = -8`, the inclusive lower
end of the metadata band, section 6), defined in the absent header xfs_format.h; as a 64-bit
unsigned owner it is `2^64 - 8`. -/
def XFS_RMAP_OWN_MIN : Nat := 18446744073709551608

/-- Modelled from the spec: `MAX_EXTLEN`, the extent-size limit `2^21` of section 3; the code of
xfs_rmap.c names it only in a comment. -/
def MAX_EXTLEN : Nat := 2097152

/-- Modelled from the spec: the errno behind `CORRUPTED` (`EFSCORRUPTED`, which the absent
libxfs headers define as `EUCLEAN`, 117); `XFS_WANT_CORRUPTED_GOTO` returns its negation. -/
def EFSCORRUPTED : Int := 117

/-! ## Records and the btree cursor -/

/-- In-core rmap record `struct xfs_rmap_irec`: `rm_startblock` and `rm_blockcount` are
32-bit unsigned, `rm_owner` is 64-bit unsigned. -/
structure xfs_rmap_irec where
  rm_startblock : Nat
  rm_blockcount : Nat
  rm_owner : Nat
deriving DecidableEq, Repr

/-- Modelled from the spec: the btree cursor of section 4.2, `struct xfs_btree_cur` of the
generic btree code (xfs_btree.c, not among the sources).  `recs` is the leaf level of the tree
the cursor walks, in tree order; `bc_ptr` is the 1-based leaf slot `bc_ptrs[0]` (0 is "before
the first record", `recs.length + 1` is "after the last"); `bc_rec` is the record the cursor
carries for lookups and inserts. -/
structure xfs_btree_cur where
  recs : List xfs_rmap_irec
  bc_ptr : Nat
  bc_rec : xfs_rmap_irec
deriving DecidableEq, Repr

/-- The cursor `xfs_rmapbt_init_cursor` hands out (xfs_rmap_btree.c): freshly zeroed, attached
to the rmap tree of the AG. -/
def xfs_rmapbt_init_cursor (recs : List xfs_rmap_irec) : xfs_btree_cur :=
  { recs := recs, bc_ptr := 0, bc_rec := ⟨0, 0, 0⟩ }

/-- Modelled from the spec: the slot a `lookup(LE, key)` of section 4.2 lands on (xfs_btree.c is
not among the sources): the 1-based position of the last record in tree order whose startblock
is at most `bno` (the key is the startblock alone, `xfs_rmapbt_key_diff`), 0 when no record
matches. -/
def lookup_le_slot : List xfs_rmap_irec → Nat → Nat
  | [], _ => 0
  | r :: rs, bno =>
    if lookup_le_slot rs bno ≠ 0 then lookup_le_slot rs bno + 1
    else if r.rm_startblock ≤ bno then 1 else 0

/-- Modelled from the spec: `xfs_btree_lookup(cur, XFS_LOOKUP_LE, stat)` of section 4.2
(xfs_btree.c is not among the sources): positions the cursor on the record matching the key held
in `bc_rec` and returns `stat = 1` when such a record exists, `stat = 0` otherwise. -/
def xfs_btree_lookup_le (cur : xfs_btree_cur) : xfs_btree_cur × Nat :=
  ({ cur with bc_ptr := lookup_le_slot cur.recs cur.bc_rec.rm_startblock },
   if lookup_le_slot cur.recs cur.bc_rec.rm_startblock = 0 then 0 else 1)

/-- Modelled from the spec: `xfs_btree_get_rec` / `get_rec()` of section 4.2 (xfs_btree.c is not
among the sources): the record at the cursor, `none` (that is `stat = 0`) when the cursor is not
on a record. -/
def xfs_btree_get_rec (cur : xfs_btree_cur) : Option xfs_rmap_irec :=
  if cur.bc_ptr = 0 then none else cur.recs.get? (cur.bc_ptr - 1)

/-- Modelled from the spec: `xfs_btree_update` / `update(rec)` of section 4.2 (xfs_btree.c is
not among the sources): rewrites the record at the cursor; the list of valid records is
untouched when the cursor is not on one. -/
def xfs_btree_update (cur : xfs_btree_cur) (rec : xfs_rmap_irec) : xfs_btree_cur :=
  if cur.bc_ptr = 0 then cur else { cur with recs := cur.recs.set (cur.bc_ptr - 1) rec }

/-- Modelled from the spec: `xfs_btree_insert` / `insert(rec)` of section 4.2 (xfs_btree.c is
not among the sources): inserts the record held in `bc_rec` at the cursor, in front of the
record the cursor is on; `stat = 0` and no change when the cursor is before the first slot. -/
def xfs_btree_insert (cur : xfs_btree_cur) : xfs_btree_cur × Nat :=
  if cur.bc_ptr = 0 then (cur, 0)
  else ({ cur with recs := cur.recs.take (cur.bc_ptr - 1) ++ cur.bc_rec :: cur.recs.drop (cur.bc_ptr - 1) }, 1)

/-- Modelled from the spec: `xfs_btree_delete` / `delete()` of section 4.2 (xfs_btree.c is not
among the sources): removes the record at the cursor and leaves the cursor on that slot;
`stat = 0` and no change when the cursor is not on a record. -/
def xfs_btree_delete (cur : xfs_btree_cur) : xfs_btree_cur × Nat :=
  if cur.bc_ptr = 0 ∨ cur.recs.length < cur.bc_ptr then (cur, 0)
  else ({ cur with recs := cur.recs.eraseIdx (cur.bc_ptr - 1) }, 1)

/-- Modelled from the spec: `xfs_btree_increment(cur, 0, stat)` / `increment()` of section 4.2
(xfs_btree.c is not among the sources): moves to the next leaf slot; `stat = 0` if there is no
such neighbour, in which case the cursor rests one past the last record. -/
def xfs_btree_increment (cur : xfs_btree_cur) : xfs_btree_cur × Nat :=
  ({ cur with bc_ptr := cur.bc_ptr + 1 }, if cur.bc_ptr + 1 ≤ cur.recs.length then 1 else 0)

/-- Modelled from the spec: `xfs_btree_decrement(cur, 0, stat)` / `decrement()` of section 4.2
(xfs_btree.c is not among the sources): moves to the previous leaf slot; `stat = 0` if there is
no such neighbour. -/
def xfs_btree_decrement (cur : xfs_btree_cur) : xfs_btree_cur × Nat :=
  ({ cur with bc_ptr := cur.bc_ptr - 1 }, if 0 < cur.bc_ptr - 1 then 1 else 0)

/-! ## xfs_rmap.c -/

/-- `xfs_rmap_lookup_le`: store `[bno, len, owner]` in the cursor and look up the first record
less than or equal to it. -/
def xfs_rmap_lookup_le (cur : xfs_btree_cur) (bno len owner : Nat) : xfs_btree_cur × Nat :=
  xfs_btree_lookup_le { cur with bc_rec := ⟨bno, len, owner⟩ }

/-- `xfs_rmap_update`: update the record referred to by the cursor to the value given by
`irec`.  The leaf list holds the field values in CPU order, so the `cpu_to_be32` / `cpu_to_be64`
conversions of a 32-bit / 64-bit field and the matching `be32_to_cpu` / `be64_to_cpu` of
`xfs_rmap_get_rec` cancel. -/
def xfs_rmap_update (cur : xfs_btree_cur) (irec : xfs_rmap_irec) : xfs_btree_cur :=
  xfs_btree_update cur ⟨irec.rm_startblock, irec.rm_blockcount, irec.rm_owner⟩

/-- `xfs_rmap_get_rec`: get the data from the pointed-to record (`none` is `*stat = 0`). -/
def xfs_rmap_get_rec (cur : xfs_btree_cur) : Option xfs_rmap_irec :=
  match xfs_btree_get_rec cur with
  | none => none
  | some rec => some ⟨rec.rm_startblock, rec.rm_blockcount, rec.rm_owner⟩

/-- `xfs_rmap_free`: find the extent in the rmap btree and remove it.  `hasrmapbt` is
`xfs_sb_version_hasrmapbt(&mp->m_sb)`, `recs` the records of the AG's rmap btree; the result is
the returned error (0 or `-EFSCORRUPTED`) and the records after the call.  The list-level cursor
operations do no I/O, so the `if (error) goto out_error` exits after them are never taken; each
`XFS_WANT_CORRUPTED_GOTO` is one `if`. -/
def xfs_rmap_free (hasrmapbt : Bool) (recs : List xfs_rmap_irec) (bno len owner : Nat) :
    Int × List xfs_rmap_irec :=
  if hasrmapbt = false then (0, recs)
  else
    let cur0 := xfs_rmapbt_init_cursor recs
    let cur := (xfs_rmap_lookup_le cur0 bno len owner).1
    let i := (xfs_rmap_lookup_le cur0 bno len owner).2
    if i ≠ 1 then (-EFSCORRUPTED, cur.recs)
    else
      match xfs_rmap_get_rec cur with
      | none => (-EFSCORRUPTED, cur.recs)
      | some ltrec =>
        -- special growfs case - bno is beyond last record
        if owner = XFS_RMAP_OWN_NULL then
          if add32 ltrec.rm_startblock ltrec.rm_blockcount < bno then (0, cur.recs)
          else (-EFSCORRUPTED, cur.recs)
        -- make sure the extent we found covers the entire freeing range
        else if ¬ ltrec.rm_startblock ≤ bno then (-EFSCORRUPTED, cur.recs)
        else if ¬ len ≤ ltrec.rm_blockcount then (-EFSCORRUPTED, cur.recs)
        else if ¬ bno ≤ add32 ltrec.rm_startblock ltrec.rm_blockcount then
          (-EFSCORRUPTED, cur.recs)
        else if ¬ (owner = ltrec.rm_owner ∨
            (owner < XFS_RMAP_OWN_NULL ∧ XFS_RMAP_OWN_MIN ≤ owner)) then
          (-EFSCORRUPTED, cur.recs)
        else if ltrec.rm_startblock = bno ∧ ltrec.rm_blockcount = len then
          -- exact match: remove extent from rmap tree
          if (xfs_btree_delete cur).2 ≠ 1 then (-EFSCORRUPTED, (xfs_btree_delete cur).1.recs)
          else (0, (xfs_btree_delete cur).1.recs)
        else if ltrec.rm_startblock = bno then
          -- overlap left hand side of extent
          (0, (xfs_rmap_update cur
                ⟨add32 ltrec.rm_startblock len, sub32 ltrec.rm_blockcount len,
                 ltrec.rm_owner⟩).recs)
        else if add32 ltrec.rm_startblock ltrec.rm_blockcount = add32 bno len then
          -- overlap right hand side of extent
          (0, (xfs_rmap_update cur
                ⟨ltrec.rm_startblock, sub32 ltrec.rm_blockcount len, ltrec.rm_owner⟩).recs)
        else
          -- overlap middle of extent
          let orig_len := ltrec.rm_blockcount
          let ltrec1 : xfs_rmap_irec :=
            ⟨ltrec.rm_startblock, sub32 bno ltrec.rm_startblock, ltrec.rm_owner⟩
          let cur1 := xfs_rmap_update cur ltrec1
          let cur2 := (xfs_btree_increment cur1).1
          let cur3 : xfs_btree_cur :=
            { cur2 with bc_rec := ⟨add32 bno len,
                                   sub32 (sub32 orig_len len) ltrec1.rm_blockcount,
                                   ltrec1.rm_owner⟩ }
          (0, (xfs_btree_insert cur3).1.recs)

/-- `xfs_rmap_alloc`: add the extent `[bno, len, owner]` to the rmap btree, merging it with a
contiguous neighbour of the same owner.  `hasrmapbt` is `xfs_sb_version_hasrmapbt(&mp->m_sb)`,
`gtrec0` is the indeterminate initial content of the stack variable `gtrec` (when there is no
right neighbour the code assigns only `gtrec.rm_owner`), `recs` the records of the AG's rmap
btree; the result is the returned error (0 or `-EFSCORRUPTED`) and the records after the call.
The list-level cursor operations do no I/O, so the `if (error) goto out_error` exits after them
are never taken; each `XFS_WANT_CORRUPTED_GOTO` is one `if`. -/
def xfs_rmap_alloc (hasrmapbt : Bool) (gtrec0 : xfs_rmap_irec) (recs : List xfs_rmap_irec)
    (bno len owner : Nat) : Int × List xfs_rmap_irec :=
  if hasrmapbt = false then (0, recs)
  else
    let cur0 := xfs_rmapbt_init_cursor recs
    let cur := (xfs_rmap_lookup_le cur0 bno len owner).1
    let i := (xfs_rmap_lookup_le cur0 bno len owner).2
    if i ≠ 1 then (-EFSCORRUPTED, cur.recs)
    else
      match xfs_rmap_get_rec cur with
      | none => (-EFSCORRUPTED, cur.recs)
      | some ltrec =>
        if ¬ add32 ltrec.rm_startblock ltrec.rm_blockcount ≤ bno then (-EFSCORRUPTED, cur.recs)
        else
          let cur1 := (xfs_btree_increment cur).1
          let have_gt := (xfs_btree_increment cur).2
          -- `none` below stands for the failed `i == 1` check after reading gtrec
          let gt : Option xfs_rmap_irec :=
            if have_gt ≠ 0 then xfs_rmap_get_rec cur1
            else some { gtrec0 with rm_owner := XFS_RMAP_OWN_NULL }
          match gt with
          | none => (-EFSCORRUPTED, cur1.recs)
          | some gtrec =>
            if have_gt ≠ 0 ∧ ¬ add32 bno len ≤ gtrec.rm_startblock then
              (-EFSCORRUPTED, cur1.recs)
            -- cursor currently points one record past ltrec
            else if ltrec.rm_owner = owner ∧
                add32 ltrec.rm_startblock ltrec.rm_blockcount = bno then
              -- left edge contiguous
              let ltrec1 : xfs_rmap_irec := { ltrec with rm_blockcount := add32 ltrec.rm_blockcount len }
              if gtrec.rm_owner = owner ∧ add32 bno len = gtrec.rm_startblock then
                -- right edge also contiguous
                let ltrec2 : xfs_rmap_irec :=
                  { ltrec1 with rm_blockcount := add32 ltrec1.rm_blockcount gtrec.rm_blockcount }
                if (xfs_btree_delete cur1).2 ≠ 1 then
                  (-EFSCORRUPTED, (xfs_btree_delete cur1).1.recs)
                else
                  (0, (xfs_rmap_update (xfs_btree_decrement (xfs_btree_delete cur1).1).1
                        ltrec2).recs)
              else
                (0, (xfs_rmap_update (xfs_btree_decrement cur1).1 ltrec1).recs)
            else if gtrec.rm_owner = owner ∧ add32 bno len = gtrec.rm_startblock then
              -- right edge contiguous
              (0, (xfs_rmap_update cur1
                    ⟨bno, add32 gtrec.rm_blockcount len, gtrec.rm_owner⟩).recs)
            else
              -- no contiguous edge with identical owner
              (0, (xfs_btree_insert { cur1 with bc_rec := ⟨bno, len, owner⟩ }).1.recs)


/-! ## The record list as a block map, and the properties the claims speak of -/

/-- The record found by a lookup-LE on `bno` (the `LT` / `ltrec` both calls start from): the
record `xfs_rmap_get_rec` reads after `xfs_rmap_lookup_le`; `none` when the lookup finds
nothing.  The lookup key is the startblock alone, so `len` and `owner` play no part. -/
def lookup_le_rec (recs : List xfs_rmap_irec) (bno : Nat) : Option xfs_rmap_irec :=
  xfs_rmap_get_rec (xfs_rmap_lookup_le (xfs_rmapbt_init_cursor recs) bno 0 0).1

/-- Two records in tree order, `a` before `b`: startblocks strictly increasing and `a` ends at or
before the start of `b` (the `keys_inorder` and `recs_inorder` predicates of
xfs_rmap_btree.c). -/
def rec_inorder (a b : xfs_rmap_irec) : Prop :=
  a.rm_startblock < b.rm_startblock ∧ a.rm_startblock + a.rm_blockcount ≤ b.rm_startblock

instance (a b : xfs_rmap_irec) : Decidable (rec_inorder a b) :=
  inferInstanceAs (Decidable (_ ∧ _))

instance rec_inorder_trans : IsTrans xfs_rmap_irec rec_inorder :=
  ⟨fun a b c h1 h2 => by unfold rec_inorder at *; omega⟩

/-- Every adjacent pair of records of the list is related by `R`. -/
def all_adjacent (R : xfs_rmap_irec → xfs_rmap_irec → Prop) : List xfs_rmap_irec → Prop
  | [] => True
  | [_] => True
  | a :: b :: rest => R a b ∧ all_adjacent R (b :: rest)

instance all_adjacent_dec (R : xfs_rmap_irec → xfs_rmap_irec → Prop) [DecidableRel R] :
    (l : List xfs_rmap_irec) → Decidable (all_adjacent R l)
  | [] => isTrue trivial
  | [_] => isTrue trivial
  | a :: b :: rest =>
    have := all_adjacent_dec R (b :: rest)
    inferInstanceAs (Decidable (R a b ∧ all_adjacent R (b :: rest)))

/-- The ordering invariant: every adjacent pair of records is in order. -/
def rmap_ordered (recs : List xfs_rmap_irec) : Prop := all_adjacent rec_inorder recs

instance (recs : List xfs_rmap_irec) : Decidable (rmap_ordered recs) :=
  inferInstanceAs (Decidable (all_adjacent rec_inorder recs))

/-- Order of two records, `a` before `b`, with or without the strict increase of the
startblocks: `rec_rel true` is `rec_inorder`, `rec_rel false` only asks that `a` ends at or
before the start of `b`. -/
def rec_rel (strict : Bool) (a b : xfs_rmap_irec) : Prop :=
  (strict = true → a.rm_startblock < b.rm_startblock) ∧
    a.rm_startblock + a.rm_blockcount ≤ b.rm_startblock

/-- Block `b` lies in the extent of record `r`. -/
def covers (r : xfs_rmap_irec) (b : Nat) : Prop :=
  r.rm_startblock ≤ b ∧ b < r.rm_startblock + r.rm_blockcount

instance (r : xfs_rmap_irec) (b : Nat) : Decidable (covers r b) :=
  inferInstanceAs (Decidable (_ ∧ _))

/-- Block `b` lies in the range `[bno, bno+len)`. -/
def in_range (bno len b : Nat) : Prop := bno ≤ b ∧ b < bno + len

instance (bno len b : Nat) : Decidable (in_range bno len b) :=
  inferInstanceAs (Decidable (_ ∧ _))

/-- The owners of the records that cover block `b`, in tree order: `[]` when no record covers
`b`, `[o]` when exactly one record covers it and its owner is `o`. -/
def owners_at (recs : List xfs_rmap_irec) (b : Nat) : List Nat :=
  (recs.filter (fun r => decide (covers r b))).map (fun r => r.rm_owner)

/-- The extent of a record fits in 32 bits: `rm_startblock + rm_blockcount` does not wrap. -/
def fits32 (r : xfs_rmap_irec) : Prop := r.rm_startblock + r.rm_blockcount < 4294967296

instance (r : xfs_rmap_irec) : Decidable (fits32 r) :=
  inferInstanceAs (Decidable (_ < _))

/-- The fields of a record are values of their C types (`__uint32_t` startblock and
blockcount). -/
def is_u32_rec (r : xfs_rmap_irec) : Prop :=
  r.rm_startblock < 4294967296 ∧ r.rm_blockcount < 4294967296

instance (r : xfs_rmap_irec) : Decidable (is_u32_rec r) :=
  inferInstanceAs (Decidable (_ ∧ _))

/-- Two adjacent records that a merge would have joined: same owner and the first ends where
the second starts. -/
def mergeable (a b : xfs_rmap_irec) : Prop :=
  a.rm_owner = b.rm_owner ∧ a.rm_startblock + a.rm_blockcount = b.rm_startblock

instance (a b : xfs_rmap_irec) : Decidable (mergeable a b) :=
  inferInstanceAs (Decidable (_ ∧ _))

/-- No two adjacent records are mergeable. -/
def merged_max (recs : List xfs_rmap_irec) : Prop :=
  all_adjacent (fun a b => ¬ mergeable a b) recs

instance (recs : List xfs_rmap_irec) : Decidable (merged_max recs) :=
  inferInstanceAs (Decidable (all_adjacent (fun a b => ¬ mergeable a b) recs))

/-- The sentinel record of the end-to-end scenarios (spec section 8): the AG headers at
`rm_startblock == 0`, one block, owned by a metadata owner of the band. -/
def ag_hdr : xfs_rmap_irec := ⟨0, 1, 18446744073709551611⟩

/-- An owner in the metadata band `[OWN_MIN, OWN_NULL)`, which `xfs_rmap_free` treats as a
wildcard. -/
def wildcard_owner (owner : Nat) : Prop :=
  XFS_RMAP_OWN_MIN ≤ owner ∧ owner < XFS_RMAP_OWN_NULL

instance (owner : Nat) : Decidable (wildcard_owner owner) :=
  inferInstanceAs (Decidable (_ ∧ _))

/-- The block ranges of two records are disjoint. -/
def disjoint_recs (a b : xfs_rmap_irec) : Prop := ∀ blk, ¬ (covers a blk ∧ covers b blk)

/-- One call of the rmap interface. -/
inductive rmap_call where
  | alloc (bno len owner : Nat) (gtrec0 : xfs_rmap_irec)
  | free (bno len owner : Nat)
deriving DecidableEq, Repr

/-- The record list after one call (with the rmapbt feature enabled). -/
def rmap_apply (recs : List xfs_rmap_irec) : rmap_call → List xfs_rmap_irec
  | .alloc bno len owner gtrec0 => (xfs_rmap_alloc true gtrec0 recs bno len owner).2
  | .free bno len owner => (xfs_rmap_free true recs bno len owner).2

/-- The record list after a sequence of calls. -/
def rmap_run (recs : List xfs_rmap_irec) (calls : List rmap_call) : List xfs_rmap_irec :=
  calls.foldl rmap_apply recs

/-- A call stays inside the 32-bit block space and inside the record it frees from: an alloc
has `bno + len < 2^32`; a free with an owner other than `OWN_NULL` has its range end at or
before the end of the record found by the lookup. -/
def call_in_bounds (recs : List xfs_rmap_irec) : rmap_call → Prop
  | .alloc bno len _ _ => bno + len < 4294967296
  | .free bno len owner =>
      owner ≠ XFS_RMAP_OWN_NULL →
        ∀ lt, lookup_le_rec recs bno = some lt → bno + len ≤ lt.rm_startblock + lt.rm_blockcount

/-- Every call of a sequence is in bounds in the state it is applied to. -/
def calls_in_bounds : List xfs_rmap_irec → List rmap_call → Prop
  | _, [] => True
  | recs, c :: cs => call_in_bounds recs c ∧ calls_in_bounds (rmap_apply recs c) cs

/-! ## The calls made on the btree cursor -/

/-- The routines of the cursor layer that `xfs_rmap_alloc` and `xfs_rmap_free` call.  The AGF
buffer `agbp` is only handed to `xfs_rmapbt_init_cursor`; the AGF is read and written by the
btree code behind the cursor and by nothing else in either function. -/
inductive btree_op where
  | init_cursor
  | lookup_le
  | get_rec
  | increment
  | decrement
  | update
  | insert
  | delete
  | del_cursor
deriving DecidableEq, Repr

/-- The cursor-layer calls of `xfs_rmap_free`, in the order the function makes them; the
branches are those of `xfs_rmap_free`.  The feature check returns before
`xfs_rmapbt_init_cursor`; every later exit goes through `xfs_btree_del_cursor`. -/
def xfs_rmap_free_ops (hasrmapbt : Bool) (recs : List xfs_rmap_irec) (bno len owner : Nat) :
    List btree_op :=
  if hasrmapbt = false then []
  else
    let cur0 := xfs_rmapbt_init_cursor recs
    let cur := (xfs_rmap_lookup_le cur0 bno len owner).1
    let i := (xfs_rmap_lookup_le cur0 bno len owner).2
    if i ≠ 1 then [.init_cursor, .lookup_le, .del_cursor]
    else
      match xfs_rmap_get_rec cur with
      | none => [.init_cursor, .lookup_le, .get_rec, .del_cursor]
      | some ltrec =>
        if owner = XFS_RMAP_OWN_NULL then [.init_cursor, .lookup_le, .get_rec, .del_cursor]
        else if ¬ ltrec.rm_startblock ≤ bno then
          [.init_cursor, .lookup_le, .get_rec, .del_cursor]
        else if ¬ len ≤ ltrec.rm_blockcount then
          [.init_cursor, .lookup_le, .get_rec, .del_cursor]
        else if ¬ bno ≤ add32 ltrec.rm_startblock ltrec.rm_blockcount then
          [.init_cursor, .lookup_le, .get_rec, .del_cursor]
        else if ¬ (owner = ltrec.rm_owner ∨
            (owner < XFS_RMAP_OWN_NULL ∧ XFS_RMAP_OWN_MIN ≤ owner)) then
          [.init_cursor, .lookup_le, .get_rec, .del_cursor]
        else if ltrec.rm_startblock = bno ∧ ltrec.rm_blockcount = len then
          [.init_cursor, .lookup_le, .get_rec, .delete, .del_cursor]
        else if ltrec.rm_startblock = bno then
          [.init_cursor, .lookup_le, .get_rec, .update, .del_cursor]
        else if add32 ltrec.rm_startblock ltrec.rm_blockcount = add32 bno len then
          [.init_cursor, .lookup_le, .get_rec, .update, .del_cursor]
        else
          [.init_cursor, .lookup_le, .get_rec, .update, .increment, .insert, .del_cursor]

/-- The cursor-layer calls of `xfs_rmap_alloc`, in the order the function makes them; the
branches are those of `xfs_rmap_alloc`.  The feature check returns before
`xfs_rmapbt_init_cursor`; every later exit goes through `xfs_btree_del_cursor`. -/
def xfs_rmap_alloc_ops (hasrmapbt : Bool) (gtrec0 : xfs_rmap_irec) (recs : List xfs_rmap_irec)
    (bno len owner : Nat) : List btree_op :=
  if hasrmapbt = false then []
  else
    let cur0 := xfs_rmapbt_init_cursor recs
    let cur := (xfs_rmap_lookup_le cur0 bno len owner).1
    let i := (xfs_rmap_lookup_le cur0 bno len owner).2
    if i ≠ 1 then [.init_cursor, .lookup_le, .del_cursor]
    else
      match xfs_rmap_get_rec cur with
      | none => [.init_cursor, .lookup_le, .get_rec, .del_cursor]
      | some ltrec =>
        if ¬ add32 ltrec.rm_startblock ltrec.rm_blockcount ≤ bno then
          [.init_cursor, .lookup_le, .get_rec, .del_cursor]
        else
          let cur1 := (xfs_btree_increment cur).1
          let have_gt := (xfs_btree_increment cur).2
          let gt : Option xfs_rmap_irec :=
            if have_gt ≠ 0 then xfs_rmap_get_rec cur1
            else some { gtrec0 with rm_owner := XFS_RMAP_OWN_NULL }
          -- the calls up to the classification: a second get_rec only with a right neighbour
          let pre : List btree_op :=
            if have_gt ≠ 0 then [.init_cursor, .lookup_le, .get_rec, .increment, .get_rec]
            else [.init_cursor, .lookup_le, .get_rec, .increment]
          match gt with
          | none => pre ++ [.del_cursor]
          | some gtrec =>
            if have_gt ≠ 0 ∧ ¬ add32 bno len ≤ gtrec.rm_startblock then pre ++ [.del_cursor]
            else if ltrec.rm_owner = owner ∧
                add32 ltrec.rm_startblock ltrec.rm_blockcount = bno then
              if gtrec.rm_owner = owner ∧ add32 bno len = gtrec.rm_startblock then
                if (xfs_btree_delete cur1).2 ≠ 1 then pre ++ [.delete, .del_cursor]
                else pre ++ [.delete, .decrement, .update, .del_cursor]
              else pre ++ [.decrement, .update, .del_cursor]
            else if gtrec.rm_owner = owner ∧ add32 bno len = gtrec.rm_startblock then
              pre ++ [.update, .del_cursor]
            else pre ++ [.insert, .del_cursor]

/-! ## xfs_rmap_btree.c: the block verifier -/

/-- Modelled from the spec: `XFS_RMAP_CRC_MAGIC`, the magic `"RMB3"` of section 3 read as a
big-endian 32-bit number (`0x524d4233`); the header xfs_format.h that defines it is not among
the sources. -/
def XFS_RMAP_CRC_MAGIC : Nat := 1380794931

/-- Modelled from the spec: `NULLAGBLOCK`, the `NULL_AGBLOCK` of section 3, the all-ones
32-bit block number; the header that defines it is not among the sources. -/
def NULLAGBLOCK : Nat := 4294967295

/-- Modelled from the spec: the errno behind `BADCRC` (`EFSBADCRC`, which the absent libxfs
headers define as `EBADMSG`, 74). -/
def EFSBADCRC : Int := 74

/-- The short-form CRC btree block header `struct xfs_btree_block`, each field decoded from
its big-endian disk form to its value (`be16_to_cpu`, `be32_to_cpu`, `be64_to_cpu` are
bijections, so a comparison of encoded fields is the comparison of the values). -/
structure xfs_btree_block where
  bb_magic : Nat
  bb_level : Nat
  bb_numrecs : Nat
  bb_leftsib : Nat
  bb_rightsib : Nat
  bb_blkno : Nat
  bb_uuid : Nat
  bb_owner : Nat
deriving DecidableEq, Repr

/-- The fields of `struct xfs_perag` the verifier reads; `pagf_levels_rmap` is
`pagf_levels[XFS_BTNUM_RMAPi]`. -/
structure xfs_perag where
  pag_agno : Nat
  pagf_init : Bool
  pagf_levels_rmap : Nat
deriving DecidableEq, Repr

/-- The fields of `struct xfs_mount` the verifier reads: `sb_hasrmapbt` is
`xfs_sb_version_hasrmapbt(&mp->m_sb)`, `sb_uuid` and `sb_agblocks` are the superblock fields,
`m_rmap_mxr_leaf` and `m_rmap_mxr_node` are `m_rmap_mxr[0]` and `m_rmap_mxr[1]`. -/
structure xfs_mount where
  sb_hasrmapbt : Bool
  sb_uuid : Nat
  sb_agblocks : Nat
  m_ag_maxlevels : Nat
  m_rmap_mxr_leaf : Nat
  m_rmap_mxr_node : Nat
deriving DecidableEq, Repr

/-- The parts of `struct xfs_buf` the verifiers read and write: the mount
(`bp->b_target->bt_mount`), the disk address `b_bn` as a 64-bit value, the perag `b_pag`
(`none` is the NULL pointer), the block (`XFS_BUF_TO_BLOCK(bp)`) and the error `b_error`. -/
structure xfs_buf where
  b_mount : xfs_mount
  b_bn : Nat
  b_pag : Option xfs_perag
  b_block : xfs_btree_block
  b_error : Int
deriving DecidableEq, Repr

/-- The sibling test of `xfs_rmapbt_verify`: the block is refused when
`!sib || (be32_to_cpu(sib) >= sb_agblocks && sib != cpu_to_be32(NULLAGBLOCK))`. -/
def sibling_refused (mp : xfs_mount) (sib : Nat) : Bool :=
  sib = 0 || (decide (mp.sb_agblocks ≤ sib) && sib != NULLAGBLOCK)

/-- `xfs_rmapbt_verify`: the structural checks of an rmap btree block, in the order of the
source; each `return false` is one `if`. -/
def xfs_rmapbt_verify (bp : xfs_buf) : Bool :=
  let mp := bp.b_mount
  let block := bp.b_block
  if block.bb_magic ≠ XFS_RMAP_CRC_MAGIC then false
  else if mp.sb_hasrmapbt = false then false
  else if block.bb_uuid ≠ mp.sb_uuid then false
  else if block.bb_blkno ≠ bp.b_bn then false
  else if (match bp.b_pag with
      | some pag => decide (block.bb_owner ≠ pag.pag_agno)
      | none => false) = true then false
  else
    let level := block.bb_level
    if (match bp.b_pag with
        | some pag =>
          if pag.pagf_init = true then decide (pag.pagf_levels_rmap ≤ level)
          else decide (mp.m_ag_maxlevels ≤ level)
        | none => decide (mp.m_ag_maxlevels ≤ level)) = true then false
    -- numrecs verification
    else if (if level ≠ 0 then mp.m_rmap_mxr_node else mp.m_rmap_mxr_leaf) < block.bb_numrecs then
      false
    -- sibling pointer verification
    else if sibling_refused mp block.bb_leftsib = true then false
    else if sibling_refused mp block.bb_rightsib = true then false
    else true

/-- Modelled from the spec: `xfs_buf_ioerror(bp, err)` sets the buffer error (section 4.4,
"classifies the buffer"); the function is in the buffer cache code, not among the sources. -/
def xfs_buf_ioerror (bp : xfs_buf) (err : Int) : xfs_buf := { bp with b_error := err }

/-- `xfs_rmapbt_read_verify`.  `verify_crc` is `xfs_btree_sblock_verify_crc` of xfs_btree.c
(not among the sources), taken as a parameter: it tells whether the CRC of the buffer
matches.  The closing `if (bp->b_error)` only traces and reports
(`trace_xfs_btree_corrupt`, `xfs_verifier_error`) and changes nothing in the buffer. -/
def xfs_rmapbt_read_verify (verify_crc : xfs_buf → Bool) (bp : xfs_buf) : xfs_buf :=
  if verify_crc bp = false then xfs_buf_ioerror bp (-EFSBADCRC)
  else if xfs_rmapbt_verify bp = false then xfs_buf_ioerror bp (-EFSCORRUPTED)
  else bp

/-- A sibling pointer the verifier lets through: not 0, and either `NULLAGBLOCK` or a block
number below `sb_agblocks`. -/
def sibling_ok (mp : xfs_mount) (sib : Nat) : Prop :=
  sib ≠ 0 ∧ (sib = NULLAGBLOCK ∨ sib < mp.sb_agblocks)

instance (mp : xfs_mount) (sib : Nat) : Decidable (sibling_ok mp sib) :=
  inferInstanceAs (Decidable (_ ∧ _))

/-- The buffer with both sibling pointers of its block set to `NULLAGBLOCK`: the verifier
accepts it exactly when the block passes every check other than the sibling checks. -/
def without_siblings (bp : xfs_buf) : xfs_buf :=
  { bp with b_block := { bp.b_block with bb_leftsib := NULLAGBLOCK, bb_rightsib := NULLAGBLOCK } }

/-- The buffer with the owner field of its block replaced. -/
def with_owner (bp : xfs_buf) (owner : Nat) : xfs_buf :=
  { bp with b_block := { bp.b_block with bb_owner := owner } }

/-- A block of AG 0 that passes every check on a mount with 1000-block AGs: a leaf with 10
records and no siblings, used to try the verifier on. -/
def sample_buf : xfs_buf :=
  { b_mount := ⟨true, 7, 1000, 5, 252, 505⟩, b_bn := 64, b_pag := none,
    b_block := ⟨XFS_RMAP_CRC_MAGIC, 0, 10, NULLAGBLOCK, NULLAGBLOCK, 64, 7, 0⟩, b_error := 0 }

/-- Two allocs in a row, the second on the records the first leaves: the records after both
when both return 0, `none` when either fails. -/
def alloc_then_alloc (g : xfs_rmap_irec) (recs : List xfs_rmap_irec)
    (a la oa b lb ob : Nat) : Option (List xfs_rmap_irec) :=
  if (xfs_rmap_alloc true g recs a la oa).1 = 0 then
    if (xfs_rmap_alloc true g (xfs_rmap_alloc true g recs a la oa).2 b lb ob).1 = 0 then
      some (xfs_rmap_alloc true g (xfs_rmap_alloc true g recs a la oa).2 b lb ob).2
    else none
  else none

/-! ## The on-disk record and the size of a block (xfs_rmap.c, xfs_rmap_btree.c) -/

/-- A `__be32` field: its four bytes in memory order, the most significant first. -/
structure be32 where
  b0 : Nat
  b1 : Nat
  b2 : Nat
  b3 : Nat
deriving DecidableEq, Repr

/-- A `__be64` field: its eight bytes in memory order, the most significant first. -/
structure be64 where
  b0 : Nat
  b1 : Nat
  b2 : Nat
  b3 : Nat
  b4 : Nat
  b5 : Nat
  b6 : Nat
  b7 : Nat
deriving DecidableEq, Repr

/-- Modelled from the spec: `cpu_to_be32` (section 4.1, "all multi-byte fields are big-endian
on disk"; the byte-order macros come from headers that are not among the sources): the four
bytes of a `__uint32_t`, the most significant first. -/
def cpu_to_be32 (x : Nat) : be32 :=
  ⟨x / 16777216 % 256, x / 65536 % 256, x / 256 % 256, x % 256⟩

/-- Modelled from the spec: `be32_to_cpu` (section 4.1; the byte-order macros are not among the
sources): the `__uint32_t` whose big-endian bytes are given. -/
def be32_to_cpu (b : be32) : Nat :=
  b.b0 * 16777216 + b.b1 * 65536 + b.b2 * 256 + b.b3

/-- Modelled from the spec: `cpu_to_be64` (section 4.1; the byte-order macros are not among the
sources): the eight bytes of a `__uint64_t`, the most significant first. -/
def cpu_to_be64 (x : Nat) : be64 :=
  ⟨x / 72057594037927936 % 256, x / 281474976710656 % 256, x / 1099511627776 % 256,
   x / 4294967296 % 256, x / 16777216 % 256, x / 65536 % 256, x / 256 % 256, x % 256⟩

/-- Modelled from the spec: `be64_to_cpu` (section 4.1; the byte-order macros are not among the
sources): the `__uint64_t` whose big-endian bytes are given. -/
def be64_to_cpu (b : be64) : Nat :=
  b.b0 * 72057594037927936 + b.b1 * 281474976710656 + b.b2 * 1099511627776 +
    b.b3 * 4294967296 + b.b4 * 16777216 + b.b5 * 65536 + b.b6 * 256 + b.b7

/-- Modelled from the spec: the on-disk record `struct xfs_rmap_rec` of xfs_format.h (not among
the sources), laid out as section 6 gives it: `{startblock:u32, blockcount:u32, owner:u64}`,
all big-endian; the field names are those the code uses (`rec.rmap.rm_startblock`, ...). -/
structure xfs_rmap_rec where
  rm_startblock : be32
  rm_blockcount : be32
  rm_owner : be64
deriving DecidableEq, Repr

/-- The bytes of an on-disk record, in disk order. -/
def xfs_rmap_rec_bytes (rec : xfs_rmap_rec) : List Nat :=
  [rec.rm_startblock.b0, rec.rm_startblock.b1, rec.rm_startblock.b2, rec.rm_startblock.b3,
   rec.rm_blockcount.b0, rec.rm_blockcount.b1, rec.rm_blockcount.b2, rec.rm_blockcount.b3,
   rec.rm_owner.b0, rec.rm_owner.b1, rec.rm_owner.b2, rec.rm_owner.b3,
   rec.rm_owner.b4, rec.rm_owner.b5, rec.rm_owner.b6, rec.rm_owner.b7]

/-- The on-disk record `rec` that `xfs_rmap_update` builds from `irec` and hands to
`xfs_btree_update`: three conversions, no check. -/
def xfs_rmap_update_rec (irec : xfs_rmap_irec) : xfs_rmap_rec :=
  { rm_startblock := cpu_to_be32 irec.rm_startblock
    rm_blockcount := cpu_to_be32 irec.rm_blockcount
    rm_owner := cpu_to_be64 irec.rm_owner }

/-- `xfs_rmapbt_init_rec_from_cur`: the on-disk record built from the record `bc_rec.r` the
cursor carries, which `xfs_btree_insert` stores: three conversions, no check. -/
def xfs_rmapbt_init_rec_from_cur (cur : xfs_btree_cur) : xfs_rmap_rec :=
  { rm_startblock := cpu_to_be32 cur.bc_rec.rm_startblock
    rm_blockcount := cpu_to_be32 cur.bc_rec.rm_blockcount
    rm_owner := cpu_to_be64 cur.bc_rec.rm_owner }

/-- The in-core record `xfs_rmap_get_rec` fills in from the on-disk record `rec` that
`xfs_btree_get_rec` points it to. -/
def xfs_rmap_get_rec_irec (rec : xfs_rmap_rec) : xfs_rmap_irec :=
  { rm_startblock := be32_to_cpu rec.rm_startblock
    rm_blockcount := be32_to_cpu rec.rm_blockcount
    rm_owner := be64_to_cpu rec.rm_owner }

/-- The fields of an in-core record are values of their C types: `rm_startblock` and
`rm_blockcount` 32-bit unsigned, `rm_owner` 64-bit. -/
def irec_in_range (irec : xfs_rmap_irec) : Prop :=
  irec.rm_startblock < 4294967296 ∧ irec.rm_blockcount < 4294967296 ∧
    irec.rm_owner < 18446744073709551616

instance (irec : xfs_rmap_irec) : Decidable (irec_in_range irec) :=
  inferInstanceAs (Decidable (_ ∧ _))

/-- Modelled from the spec: `XFS_RMAP_BLOCK_LEN`, the length of the short-form CRC block header
(section 6: the last header field, `crc`, is at offset 52 and 4 bytes long); the header that
defines it is not among the sources. -/
def XFS_RMAP_BLOCK_LEN : Int := 56

/-- Modelled from the spec: `sizeof(struct xfs_rmap_rec)`, 16 bytes (section 6). -/
def sizeof_xfs_rmap_rec : Int := 16

/-- Modelled from the spec: `sizeof(struct xfs_rmap_key)`, 4 bytes (section 6). -/
def sizeof_xfs_rmap_key : Int := 4

/-- Modelled from the spec: `sizeof(xfs_rmap_ptr_t)`, a 32-bit pointer (section 6). -/
def sizeof_xfs_rmap_ptr_t : Int := 4

/-- The value an integer has as a C `int` (32-bit, two's complement). -/
def to_int32 (x : Int) : Int := (x + 2147483648) % 4294967296 - 2147483648

/-- The value an integer has as a C `size_t` (taken as 64-bit unsigned). -/
def to_size_t (x : Int) : Int := x % 18446744073709551616

/-- `xfs_rmapbt_maxrecs`: the number of records in an rmap btree block.  `blocklen` and
`leaf` are C `int`s; the division is done in `size_t`, the type of `sizeof`, and the quotient
is returned as an `int`.  The mount `mp` is not used. -/
def xfs_rmapbt_maxrecs (blocklen : Int) (leaf : Int) : Int :=
  let blocklen1 := to_int32 (blocklen - XFS_RMAP_BLOCK_LEN)
  if leaf ≠ 0 then to_int32 (to_size_t blocklen1 / sizeof_xfs_rmap_rec)
  else to_int32 (to_size_t blocklen1 / (sizeof_xfs_rmap_key + sizeof_xfs_rmap_ptr_t))

/-! ## xfs_rmap_btree.c: a new block from the freelist -/

/-- The part of `struct xfs_trans` that `xfs_rmapbt_alloc_block` changes: the count of btree
blocks of the AG the transaction carries. -/
structure xfs_trans where
  t_ag_btree_delta : Int
deriving DecidableEq, Repr

/-- Modelled from the spec: `xfs_trans_agbtree_delta(tp, d)`, a transaction macro of a header
that is not among the sources, taken as adding `d` to the count of btree blocks the transaction
carries. -/
def xfs_trans_agbtree_delta (tp : xfs_trans) (d : Int) : xfs_trans :=
  { tp with t_ag_btree_delta := tp.t_ag_btree_delta + d }

/-- What a call of `xfs_rmapbt_alloc_block` leaves: the returned error, the transaction, and
the two results it writes through pointers, the new block `new->s` and `*stat`. -/
structure alloc_block_result where
  error : Int
  tp : xfs_trans
  new_s : be32
  stat : Int
deriving DecidableEq, Repr

/-- `xfs_rmapbt_alloc_block`.  `fl_error` and `fl_bno` are what `xfs_alloc_get_freelist` (the
freelist allocator, not among the sources) returns and stores in `bno`; `tp`, `new_s` and
`stat` are the transaction, `new->s` and `*stat` before the call.  The cursor traces and
`xfs_extent_busy_reuse` (advisory, section 4.6) change none of these. -/
def xfs_rmapbt_alloc_block (fl_error : Int) (fl_bno : Nat) (tp : xfs_trans) (new_s : be32)
    (stat : Int) : alloc_block_result :=
  -- Allocate the new block from the freelist. If we can't, give up.
  if fl_error ≠ 0 then ⟨fl_error, tp, new_s, stat⟩
  else if fl_bno = NULLAGBLOCK then ⟨0, tp, new_s, 0⟩
  else ⟨0, xfs_trans_agbtree_delta tp 1, cpu_to_be32 fl_bno, 1⟩

/-! ## db/btdump.c: the level walk of the dumper -/

/-- What `dump_btlevel` prints: the line `"%s level %u block %u daddr %llu"` of `dbprintf`, and
the output of the xfs_db commands `print keys`, `print ptrs` and `print recs` on the block at
the I/O cursor. -/
inductive dump_out where
  | header (level : Int) (nr : Nat) (daddr : Nat)
  | keys (daddr : Nat)
  | ptrs (daddr : Nat)
  | recs (daddr : Nat)
deriving DecidableEq, Repr

/-- Modelled from the spec: the state of xfs_db that the dumper works on (sections 4.2, 4.5 and
9; db/io.c is not among the sources): `bb` is `iocur_top->bb`, the disk address of the block
at the top of the I/O cursor stack, `stack` the positions that `push` has saved below it, `out`
what has been printed. -/
structure db_state where
  bb : Nat
  stack : List Nat
  out : List dump_out
deriving DecidableEq, Repr

/-- Modelled from the spec: `eval("push")`, which saves the position of the I/O cursor
(section 4.2: "push() / pop() - save/restore the cursor's stack") and returns 0. -/
def eval_push (s : db_state) : Int × db_state :=
  (0, { s with stack := s.bb :: s.stack })

/-- Modelled from the spec: `eval("pop")`, which restores the position saved last (section
4.2) and returns 0. -/
def eval_pop (s : db_state) : Int × db_state :=
  match s.stack with
  | [] => (0, s)
  | b :: st => (0, { s with bb := b, stack := st })

/-- Modelled from the spec: `eval("addr rightsib")`, which moves the I/O cursor to the block
the right-sibling pointer of the current block names.  `sib b` is `none` when the block at `b`
has no right sibling (`btblock_has_rightsib` is false) and `some d` when the command lands on
disk address `d`. -/
def eval_addr_rightsib (sib : Nat → Option Nat) (s : db_state) : Int × db_state :=
  match sib s.bb with
  | none => (0, s)
  | some d => (0, { s with bb := d })

/-- The lines printed for one block: the header line (`level` is an `int` printed with `%u`),
then `print keys` and `print ptrs` when `level > 0`, `print recs` otherwise. -/
def block_lines (level : Int) (nr : Nat) (daddr : Nat) : List dump_out :=
  dump_out.header (level % 4294967296) nr daddr ::
    (if 0 < level then [dump_out.keys daddr, dump_out.ptrs daddr] else [dump_out.recs daddr])

/-- The `do { ... } while (...)` loop of `dump_btlevel`, run for at most `fuel` rounds: `none`
when the loop has not ended by then.  `nr` is the `unsigned int` block counter.  The xfs_db
commands return 0, so the `if (ret) goto err` exits are not taken. -/
def dump_btlevel_loop (sib : Nat → Option Nat) (level : Int) (orig_daddr : Nat) :
    Nat → Nat → db_state → Option db_state
  | 0, _, _ => none
  | fuel + 1, nr, s =>
    let last_daddr := s.bb
    let s1 : db_state := { s with out := s.out ++ block_lines level nr last_daddr }
    let s2 : db_state :=
      if (sib s1.bb).isSome = true then (eval_addr_rightsib sib s1).2 else s1
    if s2.bb ≠ orig_daddr ∧ s2.bb ≠ last_daddr then
      dump_btlevel_loop sib level orig_daddr fuel ((nr + 1) % 4294967296) s2
    else some s2

/-- `dump_btlevel`: print the blocks of one level, walking the right-sibling pointers.  The
result is the returned `ret` and the state of xfs_db, `none` when the loop does not end within
`fuel` rounds. -/
def dump_btlevel (sib : Nat → Option Nat) (fuel : Nat) (level : Int) (s : db_state) :
    Option (Int × db_state) :=
  let orig_daddr := s.bb
  match dump_btlevel_loop sib level orig_daddr fuel 1 (eval_push s).2 with
  | none => none
  | some s2 => some (eval_pop s2)

/-- The block the walk of a level is on after `k` moves from `b`: a block without right sibling
is not left. -/
def walk_pos (sib : Nat → Option Nat) (b : Nat) : Nat → Nat
  | 0 => b
  | k + 1 => (sib (walk_pos sib b k)).getD (walk_pos sib b k)

/-- The walk from `b` ends after the block it is on after `k` moves: the next move leads back
to `b` or does not advance. -/
def walk_ends (sib : Nat → Option Nat) (b : Nat) (k : Nat) : Prop :=
  walk_pos sib b (k + 1) = b ∨ walk_pos sib b (k + 1) = walk_pos sib b k

instance (sib : Nat → Option Nat) (b k : Nat) : Decidable (walk_ends sib b k) :=
  inferInstanceAs (Decidable (_ ∨ _))

/-- The lines printed for the blocks `bs`, numbered from `nr` on. -/
def level_lines (level : Int) : Nat → List Nat → List dump_out
  | _, [] => []
  | nr, b :: bs => block_lines level nr b ++ level_lines level (nr + 1) bs

/-- A level of three blocks whose right-sibling pointers loop back to the second: 1 points
to 2, 2 to 3 and 3 to 2. -/
def looping_sib (d : Nat) : Option Nat :=
  if d = 1 then some 2 else if d = 2 then some 3 else if d = 3 then some 2 else none

/-- A level of `2^32` blocks at the disk addresses `1 .. 2^32` (long format): each block below
`2^32` has the next address as its right sibling, the block at `2^32` has none. -/
def long_sib (d : Nat) : Option Nat :=
  if d < 4294967296 then some (d + 1) else none

/-! ## The cursor operations on a list split around the cursor -/

theorem lookup_le_slot_eq_zero (l : List xfs_rmap_irec) (bno : Nat) :
    lookup_le_slot l bno = 0 ↔ ∀ r ∈ l, bno < r.rm_startblock := by
  induction l with
  | nil => simp [lookup_le_slot]
  | cons a l ih =>
    simp only [lookup_le_slot, List.mem_cons, forall_eq_or_imp]
    by_cases h : lookup_le_slot l bno = 0
    · simp only [h, ne_eq, not_true_eq_false, if_false]
      have := ih.mp h
      by_cases h2 : a.rm_startblock ≤ bno
      · simp [h2]
      · simp only [h2, if_false, true_iff]
        exact ⟨by omega, this⟩
    · simp only [ne_eq, h, not_false_eq_true, if_true]
      constructor
      · intro h3; omega
      · intro h3; exact absurd (ih.mpr h3.2) h

theorem lookup_le_slot_append (pre : List xfs_rmap_irec) (lt : xfs_rmap_irec)
    (post : List xfs_rmap_irec) (bno : Nat) (h1 : lt.rm_startblock ≤ bno)
    (h2 : ∀ r ∈ post, bno < r.rm_startblock) :
    lookup_le_slot (pre ++ lt :: post) bno = pre.length + 1 := by
  induction pre with
  | nil =>
    have := (lookup_le_slot_eq_zero post bno).mpr h2
    simp [lookup_le_slot, this, h1]
  | cons a pre ih =>
    simp [lookup_le_slot, ih]

theorem lookup_le_slot_decomp (l : List xfs_rmap_irec) (bno : Nat)
    (h : lookup_le_slot l bno ≠ 0) :
    ∃ pre lt post, l = pre ++ lt :: post ∧ lt.rm_startblock ≤ bno ∧
      ∀ r ∈ post, bno < r.rm_startblock := by
  induction l with
  | nil => simp [lookup_le_slot] at h
  | cons a l ih =>
    by_cases h0 : lookup_le_slot l bno = 0
    · simp only [lookup_le_slot, h0, ne_eq, not_true_eq_false, if_false] at h
      have ha : a.rm_startblock ≤ bno := by
        by_contra hc
        simp [hc] at h
      exact ⟨[], a, l, rfl, ha, (lookup_le_slot_eq_zero l bno).mp h0⟩
    · obtain ⟨pre, lt, post, hl, h1, h2⟩ := ih h0
      exact ⟨a :: pre, lt, post, by simp [hl], h1, h2⟩

theorem alloc_not_found (g : xfs_rmap_irec) (l : List xfs_rmap_irec) (bno len owner : Nat)
    (h : ∀ r ∈ l, bno < r.rm_startblock) :
    xfs_rmap_alloc true g l bno len owner = (-EFSCORRUPTED, l) := by
  have h0 := (lookup_le_slot_eq_zero l bno).mpr h
  simp [xfs_rmap_alloc, xfs_rmap_lookup_le, xfs_btree_lookup_le, xfs_rmapbt_init_cursor, h0]

theorem get_rec_at (pre : List xfs_rmap_irec) (lt : xfs_rmap_irec)
    (post : List xfs_rmap_irec) (k : xfs_rmap_irec) :
    xfs_rmap_get_rec ⟨pre ++ lt :: post, pre.length + 1, k⟩ = some lt := by
  have h : (pre ++ lt :: post).get? pre.length = some lt := by
    induction pre with
    | nil => simp
    | cons a pre ih => simpa using ih
  simp only [xfs_rmap_get_rec, xfs_btree_get_rec, Nat.add_sub_cancel, h]
  simp

theorem get_rec_past (l : List xfs_rmap_irec) (k : xfs_rmap_irec) :
    xfs_rmap_get_rec ⟨l, l.length + 1, k⟩ = none := by
  have h : l.get? l.length = none := by simp
  simp only [xfs_rmap_get_rec, xfs_btree_get_rec, Nat.add_sub_cancel, h]
  simp

theorem update_at (pre : List xfs_rmap_irec) (lt : xfs_rmap_irec)
    (post : List xfs_rmap_irec) (k x : xfs_rmap_irec) :
    (xfs_rmap_update ⟨pre ++ lt :: post, pre.length + 1, k⟩ x).recs = pre ++ x :: post := by
  have h : (pre ++ lt :: post).set pre.length x = pre ++ x :: post := by
    induction pre with
    | nil => simp
    | cons a pre ih => simp [ih]
  simp only [xfs_rmap_update, xfs_btree_update, Nat.add_sub_cancel, h]
  simp

theorem update_past (l : List xfs_rmap_irec) (k x : xfs_rmap_irec) :
    (xfs_rmap_update ⟨l, l.length + 1, k⟩ x).recs = l := by
  have h : l.set l.length x = l := by
    induction l with
    | nil => simp
    | cons a l ih => simpa using ih
  simp only [xfs_rmap_update, xfs_btree_update, Nat.add_sub_cancel, h]
  simp

theorem insert_at (pre post : List xfs_rmap_irec) (k : xfs_rmap_irec) :
    (xfs_btree_insert ⟨pre ++ post, pre.length + 1, k⟩).1.recs = pre ++ k :: post := by
  simp [xfs_btree_insert]

theorem delete_at (pre : List xfs_rmap_irec) (lt : xfs_rmap_irec)
    (post : List xfs_rmap_irec) (k : xfs_rmap_irec) :
    xfs_btree_delete ⟨pre ++ lt :: post, pre.length + 1, k⟩ =
      (⟨pre ++ post, pre.length + 1, k⟩, 1) := by
  have h : (pre ++ lt :: post).eraseIdx pre.length = pre ++ post := by
    induction pre with
    | nil => simp
    | cons a pre ih => simpa using ih
  have h2 : ¬ (pre.length + 1 = 0 ∨ (pre ++ lt :: post).length < pre.length + 1) := by
    simp only [List.length_append, List.length_cons]; omega
  simp only [xfs_btree_delete, h2, if_false, Nat.add_sub_cancel, h]

theorem delete_past (l : List xfs_rmap_irec) (k : xfs_rmap_irec) :
    xfs_btree_delete ⟨l, l.length + 1, k⟩ = (⟨l, l.length + 1, k⟩, 0) := by
  simp [xfs_btree_delete]

theorem lookup_at (pre : List xfs_rmap_irec) (lt : xfs_rmap_irec)
    (post : List xfs_rmap_irec) (bno len owner : Nat) (h1 : lt.rm_startblock ≤ bno)
    (h2 : ∀ r ∈ post, bno < r.rm_startblock) :
    xfs_rmap_lookup_le (xfs_rmapbt_init_cursor (pre ++ lt :: post)) bno len owner =
      (⟨pre ++ lt :: post, pre.length + 1, ⟨bno, len, owner⟩⟩, 1) := by
  have h0 := lookup_le_slot_append pre lt post bno h1 h2
  simp [xfs_rmap_lookup_le, xfs_btree_lookup_le, xfs_rmapbt_init_cursor, h0]

theorem alloc_found_last (g : xfs_rmap_irec) (pre : List xfs_rmap_irec) (lt : xfs_rmap_irec)
    (bno len owner : Nat) (h1 : lt.rm_startblock ≤ bno) :
    xfs_rmap_alloc true g (pre ++ [lt]) bno len owner =
      if ¬ add32 lt.rm_startblock lt.rm_blockcount ≤ bno then (-EFSCORRUPTED, pre ++ [lt])
      else if lt.rm_owner = owner ∧ add32 lt.rm_startblock lt.rm_blockcount = bno then
        if XFS_RMAP_OWN_NULL = owner ∧ add32 bno len = g.rm_startblock then
          (-EFSCORRUPTED, pre ++ [lt])
        else (0, pre ++ [⟨lt.rm_startblock, add32 lt.rm_blockcount len, lt.rm_owner⟩])
      else if XFS_RMAP_OWN_NULL = owner ∧ add32 bno len = g.rm_startblock then
        (0, pre ++ [lt])
      else (0, pre ++ [lt, ⟨bno, len, owner⟩]) := by
  have hl := lookup_at pre lt [] bno len owner h1 (by simp)
  have hlen : (pre ++ [lt]).length = pre.length + 1 := by simp
  have hi : xfs_btree_increment ⟨pre ++ [lt], pre.length + 1, ⟨bno, len, owner⟩⟩ =
      (⟨pre ++ [lt], (pre ++ [lt]).length + 1, ⟨bno, len, owner⟩⟩, 0) := by
    simp [xfs_btree_increment]
  have hd : xfs_btree_decrement ⟨pre ++ [lt], (pre ++ [lt]).length + 1, ⟨bno, len, owner⟩⟩ =
      (⟨pre ++ [lt], pre.length + 1, ⟨bno, len, owner⟩⟩,
        if 0 < pre.length + 1 then 1 else 0) := by
    simp [xfs_btree_decrement]
  have hins := insert_at (pre ++ [lt]) [] ⟨bno, len, owner⟩
  simp only [List.append_nil] at hins
  simp only [xfs_rmap_alloc, hl, get_rec_at, hi, delete_past, update_past, hd, update_at, hins]
  simp

theorem alloc_found_mid (g : xfs_rmap_irec) (pre : List xfs_rmap_irec) (lt gt : xfs_rmap_irec)
    (post : List xfs_rmap_irec) (bno len owner : Nat) (h1 : lt.rm_startblock ≤ bno)
    (h2 : ∀ r ∈ gt :: post, bno < r.rm_startblock) :
    xfs_rmap_alloc true g (pre ++ lt :: gt :: post) bno len owner =
      if ¬ add32 lt.rm_startblock lt.rm_blockcount ≤ bno then
        (-EFSCORRUPTED, pre ++ lt :: gt :: post)
      else if ¬ add32 bno len ≤ gt.rm_startblock then (-EFSCORRUPTED, pre ++ lt :: gt :: post)
      else if lt.rm_owner = owner ∧ add32 lt.rm_startblock lt.rm_blockcount = bno then
        if gt.rm_owner = owner ∧ add32 bno len = gt.rm_startblock then
          (0, pre ++ ⟨lt.rm_startblock, add32 (add32 lt.rm_blockcount len) gt.rm_blockcount,
                      lt.rm_owner⟩ :: post)
        else (0, pre ++ ⟨lt.rm_startblock, add32 lt.rm_blockcount len, lt.rm_owner⟩ :: gt :: post)
      else if gt.rm_owner = owner ∧ add32 bno len = gt.rm_startblock then
        (0, pre ++ lt :: ⟨bno, add32 gt.rm_blockcount len, gt.rm_owner⟩ :: post)
      else (0, pre ++ lt :: ⟨bno, len, owner⟩ :: gt :: post) := by
  have hl := lookup_at pre lt (gt :: post) bno len owner h1 h2
  have hi : xfs_btree_increment ⟨pre ++ lt :: gt :: post, pre.length + 1, ⟨bno, len, owner⟩⟩ =
      (⟨(pre ++ [lt]) ++ gt :: post, (pre ++ [lt]).length + 1, ⟨bno, len, owner⟩⟩, 1) := by
    simp [xfs_btree_increment]; omega
  have hd : ∀ l, xfs_btree_decrement ⟨l, (pre ++ [lt]).length + 1, ⟨bno, len, owner⟩⟩ =
      (⟨l, pre.length + 1, ⟨bno, len, owner⟩⟩, 1) := by
    intro l; simp [xfs_btree_decrement]
  have hins := insert_at (pre ++ [lt]) (gt :: post) ⟨bno, len, owner⟩
  have e1 : (pre ++ [lt]) ++ gt :: post = pre ++ lt :: gt :: post := by simp
  have e2 : (pre ++ [lt]) ++ post = pre ++ lt :: post := by simp
  simp only [xfs_rmap_alloc, hl, get_rec_at, hi, delete_at, update_at, hd, hins, e2]
  simp only [e1, e2, update_at]
  simp

theorem free_not_found (l : List xfs_rmap_irec) (bno len owner : Nat)
    (h : ∀ r ∈ l, bno < r.rm_startblock) :
    xfs_rmap_free true l bno len owner = (-EFSCORRUPTED, l) := by
  have h0 := (lookup_le_slot_eq_zero l bno).mpr h
  simp [xfs_rmap_free, xfs_rmap_lookup_le, xfs_btree_lookup_le, xfs_rmapbt_init_cursor, h0]

theorem free_found (pre : List xfs_rmap_irec) (lt : xfs_rmap_irec)
    (post : List xfs_rmap_irec) (bno len owner : Nat) (h1 : lt.rm_startblock ≤ bno)
    (h2 : ∀ r ∈ post, bno < r.rm_startblock) :
    xfs_rmap_free true (pre ++ lt :: post) bno len owner =
      if owner = XFS_RMAP_OWN_NULL then
        if add32 lt.rm_startblock lt.rm_blockcount < bno then (0, pre ++ lt :: post)
        else (-EFSCORRUPTED, pre ++ lt :: post)
      else if ¬ len ≤ lt.rm_blockcount then (-EFSCORRUPTED, pre ++ lt :: post)
      else if ¬ bno ≤ add32 lt.rm_startblock lt.rm_blockcount then
        (-EFSCORRUPTED, pre ++ lt :: post)
      else if ¬ (owner = lt.rm_owner ∨ (owner < XFS_RMAP_OWN_NULL ∧ XFS_RMAP_OWN_MIN ≤ owner)) then
        (-EFSCORRUPTED, pre ++ lt :: post)
      else if lt.rm_startblock = bno ∧ lt.rm_blockcount = len then (0, pre ++ post)
      else if lt.rm_startblock = bno then
        (0, pre ++ ⟨add32 lt.rm_startblock len, sub32 lt.rm_blockcount len, lt.rm_owner⟩ :: post)
      else if add32 lt.rm_startblock lt.rm_blockcount = add32 bno len then
        (0, pre ++ ⟨lt.rm_startblock, sub32 lt.rm_blockcount len, lt.rm_owner⟩ :: post)
      else
        (0, pre ++ ⟨lt.rm_startblock, sub32 bno lt.rm_startblock, lt.rm_owner⟩ ::
              ⟨add32 bno len, sub32 (sub32 lt.rm_blockcount len) (sub32 bno lt.rm_startblock),
               lt.rm_owner⟩ :: post) := by
  have hl := lookup_at pre lt post bno len owner h1 h2
  have hi : ∀ x, (xfs_btree_increment
      (xfs_rmap_update ⟨pre ++ lt :: post, pre.length + 1, ⟨bno, len, owner⟩⟩ x)).1 =
      ⟨(pre ++ [x]) ++ post, (pre ++ [x]).length + 1, ⟨bno, len, owner⟩⟩ := by
    intro x
    have h : (pre ++ lt :: post).set pre.length x = pre ++ x :: post := by
      induction pre with
      | nil => simp
      | cons a pre ih => simp [ih]
    simp [xfs_btree_increment, xfs_rmap_update, xfs_btree_update, h]
  have hins : ∀ x k, (xfs_btree_insert
      ⟨pre ++ x :: post, pre.length + 1 + 1, k⟩).1.recs = pre ++ x :: k :: post := by
    intro x k
    have := insert_at (pre ++ [x]) post k
    simpa using this
  simp only [xfs_rmap_free, hl, get_rec_at, delete_at, update_at, hi]
  simp [h1, hins]

/-! ## Lookup and ordering facts -/

theorem lookup_le_rec_split (pre : List xfs_rmap_irec) (lt : xfs_rmap_irec)
    (post : List xfs_rmap_irec) (bno : Nat) (h1 : lt.rm_startblock ≤ bno)
    (h2 : ∀ r ∈ post, bno < r.rm_startblock) :
    lookup_le_rec (pre ++ lt :: post) bno = some lt := by
  simp only [lookup_le_rec, lookup_at pre lt post bno 0 0 h1 h2, get_rec_at]

theorem lookup_le_rec_none (l : List xfs_rmap_irec) (bno : Nat)
    (h : ∀ r ∈ l, bno < r.rm_startblock) : lookup_le_rec l bno = none := by
  have h0 := (lookup_le_slot_eq_zero l bno).mpr h
  simp [lookup_le_rec, xfs_rmap_lookup_le, xfs_btree_lookup_le, xfs_rmapbt_init_cursor, h0,
    xfs_rmap_get_rec, xfs_btree_get_rec]

theorem lookup_le_cases (l : List xfs_rmap_irec) (bno : Nat) :
    (∀ r ∈ l, bno < r.rm_startblock) ∨
    ∃ pre lt post, l = pre ++ lt :: post ∧ lt.rm_startblock ≤ bno ∧
      ∀ r ∈ post, bno < r.rm_startblock := by
  by_cases h : lookup_le_slot l bno = 0
  · exact Or.inl ((lookup_le_slot_eq_zero l bno).mp h)
  · exact Or.inr (lookup_le_slot_decomp l bno h)

theorem lookup_le_rec_some (l : List xfs_rmap_irec) (bno : Nat) (lt : xfs_rmap_irec)
    (h : lookup_le_rec l bno = some lt) :
    ∃ pre post, l = pre ++ lt :: post ∧ lt.rm_startblock ≤ bno ∧
      ∀ r ∈ post, bno < r.rm_startblock := by
  rcases lookup_le_cases l bno with h0 | ⟨pre, lt2, post, hl, h1, h2⟩
  · rw [lookup_le_rec_none l bno h0] at h; cases h
  · subst hl
    rw [lookup_le_rec_split pre lt2 post bno h1 h2] at h
    cases h
    exact ⟨pre, post, rfl, h1, h2⟩

theorem all_adjacent_iff_chain (R : xfs_rmap_irec → xfs_rmap_irec → Prop)
    (l : List xfs_rmap_irec) : all_adjacent R l ↔ List.Chain' R l := by
  induction l with
  | nil => simp [all_adjacent]
  | cons a l ih =>
    cases l with
    | nil => simp [all_adjacent]
    | cons b rest => simp [all_adjacent, ih, List.chain'_cons]

theorem rmap_ordered_iff (l : List xfs_rmap_irec) :
    rmap_ordered l ↔ List.Pairwise rec_inorder l := by
  unfold rmap_ordered
  rw [all_adjacent_iff_chain]
  exact List.chain'_iff_pairwise

/-! ## The calls in unbounded arithmetic, when nothing wraps -/

theorem alloc_last_nat (g : xfs_rmap_irec) (pre : List xfs_rmap_irec) (lt : xfs_rmap_irec)
    (bno len owner : Nat) (h1 : lt.rm_startblock ≤ bno) (hlt : fits32 lt)
    (hbl : bno + len < 4294967296) (hown : owner ≠ XFS_RMAP_OWN_NULL) :
    xfs_rmap_alloc true g (pre ++ [lt]) bno len owner =
      if bno < lt.rm_startblock + lt.rm_blockcount then (-EFSCORRUPTED, pre ++ [lt])
      else if lt.rm_owner = owner ∧ lt.rm_startblock + lt.rm_blockcount = bno then
        (0, pre ++ [⟨lt.rm_startblock, lt.rm_blockcount + len, lt.rm_owner⟩])
      else (0, pre ++ [lt, ⟨bno, len, owner⟩]) := by
  rw [alloc_found_last g pre lt bno len owner h1]
  unfold fits32 at hlt
  have hne : ¬ (XFS_RMAP_OWN_NULL = owner) := fun h => hown h.symm
  simp only [add32, hne, false_and, if_false]
  split_ifs <;>
    first
    | rfl
    | (exfalso; omega)
    | (simp only [Prod.mk.injEq, List.append_cancel_left_eq, List.cons.injEq,
        xfs_rmap_irec.mk.injEq, true_and, and_true]; omega)

theorem alloc_mid_nat (g : xfs_rmap_irec) (pre : List xfs_rmap_irec) (lt gt : xfs_rmap_irec)
    (post : List xfs_rmap_irec) (bno len owner : Nat) (h1 : lt.rm_startblock ≤ bno)
    (h2 : ∀ r ∈ gt :: post, bno < r.rm_startblock) (hlt : fits32 lt) (hgt : fits32 gt)
    (hbl : bno + len < 4294967296) :
    xfs_rmap_alloc true g (pre ++ lt :: gt :: post) bno len owner =
      if bno < lt.rm_startblock + lt.rm_blockcount then
        (-EFSCORRUPTED, pre ++ lt :: gt :: post)
      else if gt.rm_startblock < bno + len then (-EFSCORRUPTED, pre ++ lt :: gt :: post)
      else if lt.rm_owner = owner ∧ lt.rm_startblock + lt.rm_blockcount = bno then
        if gt.rm_owner = owner ∧ bno + len = gt.rm_startblock then
          (0, pre ++ ⟨lt.rm_startblock, lt.rm_blockcount + len + gt.rm_blockcount,
                      lt.rm_owner⟩ :: post)
        else (0, pre ++ ⟨lt.rm_startblock, lt.rm_blockcount + len, lt.rm_owner⟩ :: gt :: post)
      else if gt.rm_owner = owner ∧ bno + len = gt.rm_startblock then
        (0, pre ++ lt :: ⟨bno, gt.rm_blockcount + len, gt.rm_owner⟩ :: post)
      else (0, pre ++ lt :: ⟨bno, len, owner⟩ :: gt :: post) := by
  rw [alloc_found_mid g pre lt gt post bno len owner h1 h2]
  unfold fits32 at hlt hgt
  simp only [add32]
  split_ifs <;>
    first
    | rfl
    | (exfalso; omega)
    | (simp only [Prod.mk.injEq, List.append_cancel_left_eq, List.cons.injEq,
        xfs_rmap_irec.mk.injEq, true_and, and_true]; omega)

theorem free_in_record (pre : List xfs_rmap_irec) (lt : xfs_rmap_irec)
    (post : List xfs_rmap_irec) (bno len owner : Nat) (h1 : lt.rm_startblock ≤ bno)
    (h2 : ∀ r ∈ post, bno < r.rm_startblock) (hlt : fits32 lt)
    (hin : bno + len ≤ lt.rm_startblock + lt.rm_blockcount)
    (hown : owner ≠ XFS_RMAP_OWN_NULL) :
    xfs_rmap_free true (pre ++ lt :: post) bno len owner =
      if ¬ (owner = lt.rm_owner ∨ (owner < XFS_RMAP_OWN_NULL ∧ XFS_RMAP_OWN_MIN ≤ owner)) then
        (-EFSCORRUPTED, pre ++ lt :: post)
      else if lt.rm_startblock = bno ∧ lt.rm_blockcount = len then (0, pre ++ post)
      else if lt.rm_startblock = bno then
        (0, pre ++ ⟨bno + len, lt.rm_blockcount - len, lt.rm_owner⟩ :: post)
      else if lt.rm_startblock + lt.rm_blockcount = bno + len then
        (0, pre ++ ⟨lt.rm_startblock, lt.rm_blockcount - len, lt.rm_owner⟩ :: post)
      else
        (0, pre ++ ⟨lt.rm_startblock, bno - lt.rm_startblock, lt.rm_owner⟩ ::
              ⟨bno + len, lt.rm_startblock + lt.rm_blockcount - (bno + len), lt.rm_owner⟩ ::
              post) := by
  rw [free_found pre lt post bno len owner h1 h2]
  unfold fits32 at hlt
  simp only [add32, sub32, hown, if_false]
  split_ifs <;>
    first
    | rfl
    | (exfalso; omega)
    | (simp only [Prod.mk.injEq, List.append_cancel_left_eq, List.cons.injEq,
        xfs_rmap_irec.mk.injEq, true_and, and_true]; omega)


/-! ## Owners of a block -/

theorem owners_at_nil (b : Nat) : owners_at [] b = [] := rfl

theorem owners_at_cons (r : xfs_rmap_irec) (l : List xfs_rmap_irec) (b : Nat) :
    owners_at (r :: l) b = if covers r b then r.rm_owner :: owners_at l b else owners_at l b := by
  by_cases h : covers r b <;> simp [owners_at, List.filter_cons, h]

theorem owners_at_append (l1 l2 : List xfs_rmap_irec) (b : Nat) :
    owners_at (l1 ++ l2) b = owners_at l1 b ++ owners_at l2 b := by
  simp [owners_at]

theorem owners_at_eq_nil (l : List xfs_rmap_irec) (b : Nat) (h : ∀ r ∈ l, ¬ covers r b) :
    owners_at l b = [] := by
  simp only [owners_at, List.map_eq_nil_iff, List.filter_eq_nil_iff]
  intro r hr
  simpa using h r hr

/-- What an ordered list split around the looked-up record gives: the records before end at or
before its start, the records after start after its end. -/
theorem ordered_split (pre : List xfs_rmap_irec) (lt : xfs_rmap_irec)
    (post : List xfs_rmap_irec) (h : rmap_ordered (pre ++ lt :: post)) :
    (∀ a ∈ pre, rec_inorder a lt) ∧ (∀ c ∈ post, rec_inorder lt c) ∧
    (∀ a ∈ pre, ∀ c ∈ post, rec_inorder a c) ∧ List.Pairwise rec_inorder pre ∧
    List.Pairwise rec_inorder post := by
  rw [rmap_ordered_iff] at h
  simp only [List.pairwise_append, List.pairwise_cons, List.mem_cons] at h
  obtain ⟨hpre, ⟨hlt, hpost⟩, hx⟩ := h
  exact ⟨fun a ha => hx a ha lt (Or.inl rfl), hlt, fun a ha c hc => hx a ha c (Or.inr hc),
    hpre, hpost⟩


/-! ## C1: what a successful alloc does to the block map -/

/-- An alloc that overlaps no record succeeds and changes the block map on its range only. -/
theorem alloc_covers (g : xfs_rmap_irec) (l : List xfs_rmap_irec) (bno len owner : Nat)
    (hord : rmap_ordered l)
    (hrec : ∀ r ∈ l, 1 ≤ r.rm_blockcount ∧ fits32 r)
    (hex : ∃ r ∈ l, r.rm_startblock ≤ bno)
    (hlen : 1 ≤ len) (hown : owner ≠ XFS_RMAP_OWN_NULL)
    (hno : ∀ r ∈ l, ∀ b, covers r b → ¬ in_range bno len b)
    (hbl : bno + len < 4294967296) :
    (xfs_rmap_alloc true g l bno len owner).1 = 0 ∧
    ∀ b, (in_range bno len b →
            owners_at (xfs_rmap_alloc true g l bno len owner).2 b = [owner]) ∧
         (¬ in_range bno len b →
            owners_at (xfs_rmap_alloc true g l bno len owner).2 b = owners_at l b) := by
  rcases lookup_le_cases l bno with h0 | ⟨pre, lt, post, hl, h1, h2⟩
  · obtain ⟨r, hr, hrb⟩ := hex
    have := h0 r hr
    omega
  subst hl
  obtain ⟨hpre, hpost, -, -, hpp⟩ := ordered_split pre lt post hord
  have hltok := hrec lt (by simp)
  have hltno := hno lt (by simp) bno
  simp only [covers, in_range, fits32, rec_inorder] at *
  have hlte : lt.rm_startblock + lt.rm_blockcount ≤ bno := by
    by_contra hc
    exact hltno ⟨h1, by omega⟩ ⟨le_refl _, by omega⟩
  have hpre0 : ∀ b, bno ≤ b → owners_at pre b = [] := by
    intro b hb
    apply owners_at_eq_nil
    intro r hr hc
    have := hpre r hr
    simp only [covers] at hc
    omega
  cases post with
  | nil =>
    rw [alloc_last_nat g pre lt bno len owner h1 hltok.2 hbl hown]
    split_ifs with hA hB
    · omega
    · refine ⟨rfl, fun b => ⟨fun hb => ?_, fun hb => ?_⟩⟩
      · simp only [owners_at_append, owners_at_cons, owners_at_nil, hpre0 b hb.1, covers]
        rw [if_pos (by omega)]
        simp [hB.1]
      · simp only [owners_at_append, owners_at_cons, owners_at_nil, covers,
          List.append_cancel_left_eq]
        split_ifs <;> first | rfl | (exfalso; omega)
    · refine ⟨rfl, fun b => ⟨fun hb => ?_, fun hb => ?_⟩⟩
      · simp only [owners_at_append, owners_at_cons, owners_at_nil, hpre0 b hb.1, covers]
        rw [if_neg (by omega), if_pos (by omega)]
        simp
      · simp only [owners_at_append, owners_at_cons, owners_at_nil, covers,
          List.append_cancel_left_eq]
        split_ifs <;> rfl
  | cons gt post =>
    have hgtok := hrec gt (by simp)
    have hgtno := hno gt (by simp) gt.rm_startblock
    have hgts := h2 gt (by simp)
    have hgte : bno + len ≤ gt.rm_startblock := by
      by_contra hc
      exact hgtno ⟨le_refl _, by omega⟩ ⟨by omega, by omega⟩
    have hltgt := hpost gt (by simp)
    simp only [List.pairwise_cons] at hpp
    have hpost0 : ∀ b, b < gt.rm_startblock + gt.rm_blockcount → owners_at post b = [] := by
      intro b hb
      apply owners_at_eq_nil
      intro r hr hc
      have hgr := hpp.1 r hr
      simp only [rec_inorder] at hgr
      simp only [covers] at hc
      omega
    rw [alloc_mid_nat g pre lt gt post bno len owner h1 h2 hltok.2 hgtok.2 hbl]
    split_ifs with hA hB hC hD hE
    · omega
    · omega
    · refine ⟨rfl, fun b => ⟨fun hb => ?_, fun hb => ?_⟩⟩
      · simp only [owners_at_append, owners_at_cons, owners_at_nil, hpre0 b hb.1, covers,
          hpost0 b (by omega)]
        rw [if_pos (by omega)]
        simp [hC.1]
      · simp only [owners_at_append, owners_at_cons, owners_at_nil, covers,
          List.append_cancel_left_eq]
        split_ifs <;> first | rfl | (exfalso; omega) | simp [hC.1, hD.1]
    · refine ⟨rfl, fun b => ⟨fun hb => ?_, fun hb => ?_⟩⟩
      · simp only [owners_at_append, owners_at_cons, owners_at_nil, hpre0 b hb.1, covers,
          hpost0 b (by omega)]
        rw [if_pos (by omega), if_neg (by omega)]
        simp [hC.1]
      · simp only [owners_at_append, owners_at_cons, owners_at_nil, covers,
          List.append_cancel_left_eq]
        split_ifs <;> first | rfl | (exfalso; omega)
    · refine ⟨rfl, fun b => ⟨fun hb => ?_, fun hb => ?_⟩⟩
      · simp only [owners_at_append, owners_at_cons, owners_at_nil, hpre0 b hb.1, covers,
          hpost0 b (by omega)]
        rw [if_neg (by omega), if_pos (by omega)]
        simp [hE.1]
      · simp only [owners_at_append, owners_at_cons, owners_at_nil, covers,
          List.append_cancel_left_eq]
        split_ifs <;> first | rfl | (exfalso; omega)
    · refine ⟨rfl, fun b => ⟨fun hb => ?_, fun hb => ?_⟩⟩
      · simp only [owners_at_append, owners_at_cons, owners_at_nil, hpre0 b hb.1, covers,
          hpost0 b (by omega)]
        rw [if_neg (by omega), if_pos (by omega), if_neg (by omega)]
        simp
      · simp only [owners_at_append, owners_at_cons, owners_at_nil, covers,
          List.append_cancel_left_eq]
        split_ifs <;> rfl

/-- C1 (amended), with the rmapbt feature enabled:
on an ordered list of non-empty records whose extents fit in 32 bits and
that has a record starting at or before `bno`, an alloc of `len >= 1` blocks with an owner other
than `OWN_NULL`, `bno + len < 2^32` and a range that overlaps no record succeeds; afterwards
every block of `[bno, bno+len)` is covered by exactly one record, owned by `owner`, and every
other block has the owners it had before. -/
theorem C1_alloc_covers (g : xfs_rmap_irec) (l : List xfs_rmap_irec) (bno len owner : Nat)
    (hord : rmap_ordered l)
    (hrec : ∀ r ∈ l, 1 ≤ r.rm_blockcount ∧ fits32 r)
    (hex : ∃ r ∈ l, r.rm_startblock ≤ bno)
    (hlen : 1 ≤ len) (hown : owner ≠ XFS_RMAP_OWN_NULL)
    (hno : ∀ r ∈ l, ∀ b, covers r b → ¬ in_range bno len b)
    (hbl : bno + len < 4294967296) :
    (xfs_rmap_alloc true g l bno len owner).1 = 0 ∧
    ∀ b, (in_range bno len b →
            owners_at (xfs_rmap_alloc true g l bno len owner).2 b = [owner]) ∧
         (¬ in_range bno len b →
            owners_at (xfs_rmap_alloc true g l bno len owner).2 b = owners_at l b) :=
  alloc_covers g l bno len owner hord hrec hex hlen hown hno hbl

/-- C1 at scenario S3 of the spec: `alloc(110, 10, 42)` between `(100, 10, 42)` and
`(120, 5, 42)`, a both-sides merge. -/
theorem C1_alloc_covers_witness :
    (xfs_rmap_alloc true ⟨0, 0, 0⟩ [ag_hdr, ⟨100, 10, 42⟩, ⟨120, 5, 42⟩] 110 10 42).1 = 0 ∧
    ∀ b, (in_range 110 10 b →
            owners_at (xfs_rmap_alloc true ⟨0, 0, 0⟩
              [ag_hdr, ⟨100, 10, 42⟩, ⟨120, 5, 42⟩] 110 10 42).2 b = [42]) ∧
         (¬ in_range 110 10 b →
            owners_at (xfs_rmap_alloc true ⟨0, 0, 0⟩
              [ag_hdr, ⟨100, 10, 42⟩, ⟨120, 5, 42⟩] 110 10 42).2 b =
            owners_at [ag_hdr, ⟨100, 10, 42⟩, ⟨120, 5, 42⟩] b) :=
  C1_alloc_covers ⟨0, 0, 0⟩ [ag_hdr, ⟨100, 10, 42⟩, ⟨120, 5, 42⟩] 110 10 42
    (by decide) (by decide) (by decide) (by decide) (by decide)
    (by
      intro r hr b hc hin
      simp only [List.mem_cons, List.mem_singleton, List.not_mem_nil, or_false] at hr
      rcases hr with rfl | rfl | rfl <;> simp only [covers, in_range, ag_hdr] at hc hin <;> omega)
    (by decide)

/-- C1 as stated fails at two inputs that meet all its hypotheses.  With an empty record
inside the range (`(105, 0, 7)`), `alloc(100, 10, 42)` overlaps no record but returns
`-EFSCORRUPTED`.  With a last record whose extent does not fit in 32 bits
(`(15, 2^32 - 1, 42)`), `alloc(10, 5, 42)` merges both sides, the 32-bit blockcount wraps to 14
and block 14 of the new range is covered by no record. -/
theorem C1_counterexample :
    (rmap_ordered [ag_hdr, ⟨105, 0, 7⟩] ∧ (∃ r ∈ [ag_hdr, ⟨105, 0, 7⟩], r.rm_startblock ≤ 100) ∧
      1 ≤ 10 ∧ 42 ≠ XFS_RMAP_OWN_NULL ∧
      (∀ r ∈ [ag_hdr, ⟨105, 0, 7⟩], ∀ b, covers r b → ¬ in_range 100 10 b) ∧
      100 + 10 < 4294967296 ∧
      (xfs_rmap_alloc true ⟨0, 0, 0⟩ [ag_hdr, ⟨105, 0, 7⟩] 100 10 42).1 = -EFSCORRUPTED) ∧
    (rmap_ordered [⟨0, 10, 42⟩, ⟨15, 4294967295, 42⟩] ∧
      (∃ r ∈ [⟨0, 10, 42⟩, (⟨15, 4294967295, 42⟩ : xfs_rmap_irec)], r.rm_startblock ≤ 10) ∧
      1 ≤ 5 ∧ 42 ≠ XFS_RMAP_OWN_NULL ∧
      (∀ r ∈ [⟨0, 10, 42⟩, (⟨15, 4294967295, 42⟩ : xfs_rmap_irec)], ∀ b,
        covers r b → ¬ in_range 10 5 b) ∧
      10 + 5 < 4294967296 ∧
      xfs_rmap_alloc true ⟨0, 0, 0⟩ [⟨0, 10, 42⟩, ⟨15, 4294967295, 42⟩] 10 5 42 =
        (0, [⟨0, 14, 42⟩]) ∧
      in_range 10 5 14 ∧
      owners_at (xfs_rmap_alloc true ⟨0, 0, 0⟩ [⟨0, 10, 42⟩, ⟨15, 4294967295, 42⟩] 10 5 42).2 14
        = []) := by
  refine ⟨⟨by decide, by decide, by decide, by decide, ?_, by decide, by decide⟩,
    ⟨by decide, by decide, by decide, by decide, ?_, by decide, by decide, by decide, by decide⟩⟩
  · intro r hr b hc hin
    simp only [List.mem_cons, List.mem_singleton, List.not_mem_nil, or_false] at hr
    rcases hr with rfl | rfl <;> simp only [covers, in_range, ag_hdr] at hc hin <;> omega
  · intro r hr b hc hin
    simp only [List.mem_cons, List.mem_singleton, List.not_mem_nil, or_false] at hr
    rcases hr with rfl | rfl <;> simp only [covers, in_range] at hc hin <;> omega

/-! ## C2: what a successful free does to the block map -/

/-- C2 (amended), with the rmapbt feature enabled:
on an ordered list, when the record `lt` found by the lookup-LE on `bno` fits
in 32 bits and contains the whole range `[bno, bno+len)`, `len >= 1`, and `owner` equals the
owner of `lt` and is not `OWN_NULL`, the free succeeds; afterwards no record covers a block of
the range and every other block has the owners it had before. -/
theorem C2_free_uncovers (l : List xfs_rmap_irec) (bno len owner : Nat) (lt : xfs_rmap_irec)
    (hord : rmap_ordered l) (hlen : 1 ≤ len)
    (hlt : lookup_le_rec l bno = some lt)
    (hin : bno + len ≤ lt.rm_startblock + lt.rm_blockcount)
    (howner : owner = lt.rm_owner)
    (hnull : owner ≠ XFS_RMAP_OWN_NULL) (hfit : fits32 lt) :
    (xfs_rmap_free true l bno len owner).1 = 0 ∧
    ∀ b, (in_range bno len b → owners_at (xfs_rmap_free true l bno len owner).2 b = []) ∧
         (¬ in_range bno len b →
            owners_at (xfs_rmap_free true l bno len owner).2 b = owners_at l b) := by
  obtain ⟨pre, post, hl, h1, h2⟩ := lookup_le_rec_some l bno lt hlt
  subst hl
  obtain ⟨hpre, hpost, -, -, -⟩ := ordered_split pre lt post hord
  rw [free_in_record pre lt post bno len owner h1 h2 hfit hin hnull]
  simp only [in_range, fits32, rec_inorder] at *
  have hpre0 : ∀ b, bno ≤ b → owners_at pre b = [] := by
    intro b hb
    apply owners_at_eq_nil
    intro r hr hc
    have := hpre r hr
    simp only [covers] at hc
    omega
  have hpost0 : ∀ b, b < bno + len → owners_at post b = [] := by
    intro b hb
    apply owners_at_eq_nil
    intro r hr hc
    have := hpost r hr
    simp only [covers] at hc
    omega
  have hok : owner = lt.rm_owner ∨ (owner < XFS_RMAP_OWN_NULL ∧ XFS_RMAP_OWN_MIN ≤ owner) :=
    Or.inl howner
  rw [if_neg (not_not.mpr hok)]
  split_ifs with hA hB hC
  all_goals
    refine ⟨rfl, fun b => ⟨fun hb => ?_, fun hb => ?_⟩⟩
    · simp only [owners_at_append, owners_at_cons, owners_at_nil, hpre0 b hb.1, covers,
        hpost0 b hb.2, List.nil_append, List.append_nil]
      try (split_ifs <;> first | rfl | (exfalso; omega))
    · simp only [owners_at_append, owners_at_cons, owners_at_nil, covers,
        List.append_cancel_left_eq]
      split_ifs <;> first | rfl | (exfalso; omega)

/-- C2 at scenario S4 of the spec: `free(102, 3, 42)` out of `(100, 10, 42)`, a middle split. -/
theorem C2_free_uncovers_witness :
    (xfs_rmap_free true [ag_hdr, ⟨100, 10, 42⟩] 102 3 42).1 = 0 ∧
    ∀ b, (in_range 102 3 b →
            owners_at (xfs_rmap_free true [ag_hdr, ⟨100, 10, 42⟩] 102 3 42).2 b = []) ∧
         (¬ in_range 102 3 b →
            owners_at (xfs_rmap_free true [ag_hdr, ⟨100, 10, 42⟩] 102 3 42).2 b =
              owners_at [ag_hdr, ⟨100, 10, 42⟩] b) :=
  C2_free_uncovers [ag_hdr, ⟨100, 10, 42⟩] 102 3 42 ⟨100, 10, 42⟩
    (by decide) (by decide) (by decide) (by decide) (by decide) (by decide) (by decide)

/-- C2 as stated fails at two inputs that meet all its hypotheses.  When the record found is
owned by `OWN_NULL`, `free(100, 10, OWN_NULL)` takes the growfs branch and returns
`-EFSCORRUPTED`.  When the extent of the record found does not fit in 32 bits
(`(4294967286, 20, 42)`), its 32-bit end wraps to 10 and `free(4294967291, 1, 42)` returns
`-EFSCORRUPTED`. -/
theorem C2_counterexample :
    (rmap_ordered [ag_hdr, ⟨100, 10, XFS_RMAP_OWN_NULL⟩] ∧ 1 ≤ 10 ∧
      lookup_le_rec [ag_hdr, ⟨100, 10, XFS_RMAP_OWN_NULL⟩] 100 =
        some ⟨100, 10, XFS_RMAP_OWN_NULL⟩ ∧
      100 ≤ 100 ∧ 100 + 10 ≤ 100 + 10 ∧
      (xfs_rmap_free true [ag_hdr, ⟨100, 10, XFS_RMAP_OWN_NULL⟩] 100 10 XFS_RMAP_OWN_NULL).1 =
        -EFSCORRUPTED) ∧
    (rmap_ordered [ag_hdr, ⟨4294967286, 20, 42⟩] ∧ 1 ≤ 1 ∧
      lookup_le_rec [ag_hdr, ⟨4294967286, 20, 42⟩] 4294967291 = some ⟨4294967286, 20, 42⟩ ∧
      4294967286 ≤ 4294967291 ∧ 4294967291 + 1 ≤ 4294967286 + 20 ∧
      (xfs_rmap_free true [ag_hdr, ⟨4294967286, 20, 42⟩] 4294967291 1 42).1 =
        -EFSCORRUPTED) := by
  decide

/-! ## C3, C4: the ordering invariant along calls -/

theorem pairwise_splice {R : xfs_rmap_irec → xfs_rmap_irec → Prop}
    (pre mid mid2 post : List xfs_rmap_irec)
    (h : List.Pairwise R (pre ++ (mid ++ post)))
    (hm : List.Pairwise R mid2)
    (hl : ∀ a ∈ pre, (∀ m ∈ mid, R a m) → ∀ m ∈ mid2, R a m)
    (hr : ∀ b ∈ post, (∀ m ∈ mid, R m b) → ∀ m ∈ mid2, R m b) :
    List.Pairwise R (pre ++ (mid2 ++ post)) := by
  simp only [List.pairwise_append, List.mem_append] at h ⊢
  obtain ⟨hpre, ⟨hmid, hpost, hmp⟩, hx⟩ := h
  refine ⟨hpre, ⟨hm, hpost, fun a ha b hb => hr b hb (fun m hm => hmp m hm b hb) a ha⟩, ?_⟩
  rintro a ha b (hb | hb)
  · exact hl a ha (fun m hm => hx a ha m (Or.inl hm)) b hb
  · exact hx a ha b (Or.inr hb)

/-- Replacing a middle segment keeps the list in order with every extent inside 32 bits, when
the new segment is so and stays in order with the records around it. -/
theorem inv_splice (s : Bool) (pre mid mid2 post : List xfs_rmap_irec)
    (h : List.Pairwise (rec_rel s) (pre ++ (mid ++ post)))
    (hf : ∀ r ∈ pre ++ (mid ++ post), fits32 r)
    (hm : List.Pairwise (rec_rel s) mid2) (hmf : ∀ r ∈ mid2, fits32 r)
    (hl : ∀ a ∈ pre, (∀ m ∈ mid, rec_rel s a m) → ∀ m ∈ mid2, rec_rel s a m)
    (hr : ∀ b ∈ post, (∀ m ∈ mid, rec_rel s m b) → ∀ m ∈ mid2, rec_rel s m b) :
    List.Pairwise (rec_rel s) (pre ++ (mid2 ++ post)) ∧
      ∀ r ∈ pre ++ (mid2 ++ post), fits32 r := by
  constructor
  · exact pairwise_splice pre mid mid2 post h hm hl hr
  · intro r hr2
    simp only [List.mem_append] at hr2 hf
    rcases hr2 with h1 | h1 | h1
    · exact hf r (Or.inl h1)
    · exact hmf r h1
    · exact hf r (Or.inr (Or.inr h1))

theorem alloc_keeps (s : Bool) (g : xfs_rmap_irec) (l : List xfs_rmap_irec)
    (bno len owner : Nat) (hord : List.Pairwise (rec_rel s) l) (hfit : ∀ r ∈ l, fits32 r)
    (hne : s = true → ∀ r ∈ l, 1 ≤ r.rm_blockcount) (hbl : bno + len < 4294967296) :
    List.Pairwise (rec_rel s) (xfs_rmap_alloc true g l bno len owner).2 ∧
    ∀ r ∈ (xfs_rmap_alloc true g l bno len owner).2, fits32 r := by
  rcases lookup_le_cases l bno with h0 | ⟨pre, lt, post, hl, h1, h2⟩
  · rw [alloc_not_found g l bno len owner h0]
    exact ⟨hord, hfit⟩
  subst hl
  have hltf := hfit lt (by simp)
  have hlt1 : s = true → 1 ≤ lt.rm_blockcount := fun hs => hne hs lt (by simp)
  cases post with
  | nil =>
    rw [alloc_found_last g pre lt bno len owner h1]
    simp only [add32]
    split_ifs with hA hB hC hD
    all_goals try exact ⟨hord, hfit⟩
    · refine inv_splice s pre [lt] [_] [] hord hfit ?_ ?_ ?_ ?_
      · simp
      · simp only [List.mem_cons, List.mem_singleton, forall_eq_or_imp, forall_eq,
          List.not_mem_nil, false_implies, implies_true, and_true]
        cases s <;> simp only [rec_rel, fits32, true_implies, Bool.false_eq_true, false_implies, true_and] at * <;> omega
      · intro a _ hm m hm2
        have := hm lt (by simp)
        simp only [List.mem_cons, List.mem_singleton, List.not_mem_nil, or_false] at hm2
        rcases hm2 with rfl <;>
          (cases s <;> simp only [rec_rel, fits32, true_implies, Bool.false_eq_true, false_implies, true_and] at * <;> omega)
      · simp
    · refine inv_splice s pre [lt] [lt, _] [] hord hfit ?_ ?_ ?_ ?_
      · simp only [List.pairwise_cons, List.mem_cons, List.mem_singleton, forall_eq_or_imp,
          forall_eq, List.not_mem_nil, false_implies, implies_true, List.Pairwise.nil, and_true]
        cases s <;> simp only [rec_rel, fits32, true_implies, Bool.false_eq_true, false_implies, true_and] at * <;> omega
      · simp only [List.mem_cons, List.mem_singleton, forall_eq_or_imp, forall_eq,
          List.not_mem_nil, false_implies, implies_true, and_true]
        cases s <;> simp only [rec_rel, fits32, true_implies, Bool.false_eq_true, false_implies, true_and] at * <;> omega
      · intro a _ hm m hm2
        have := hm lt (by simp)
        simp only [List.mem_cons, List.mem_singleton, List.not_mem_nil, or_false] at hm2
        rcases hm2 with rfl | rfl <;>
          (cases s <;> simp only [rec_rel, fits32, true_implies, Bool.false_eq_true, false_implies, true_and] at * <;> omega)
      · simp
  | cons gt post =>
    rw [alloc_found_mid g pre lt gt post bno len owner h1 h2]
    have hgtf := hfit gt (by simp)
    have hgts := h2 gt (by simp)
    have hltgt : rec_rel s lt gt := by
      simp only [List.pairwise_append, List.pairwise_cons, List.mem_cons] at hord
      exact hord.2.1.1 gt (Or.inl rfl)
    simp only [add32]
    split_ifs with hA hB hC hD hE
    all_goals try exact ⟨hord, hfit⟩
    · refine inv_splice s pre [lt, gt] [_] post hord hfit ?_ ?_ ?_ ?_
      · simp
      · simp only [List.mem_cons, List.mem_singleton, forall_eq_or_imp, forall_eq,
          List.not_mem_nil, false_implies, implies_true, and_true]
        cases s <;> simp only [rec_rel, fits32, true_implies, Bool.false_eq_true, false_implies, true_and] at * <;> omega
      · intro a _ hm m hm2
        have := hm lt (by simp)
        have := hm gt (by simp)
        simp only [List.mem_cons, List.mem_singleton, List.not_mem_nil, or_false] at hm2
        rcases hm2 with rfl <;>
          (cases s <;> simp only [rec_rel, fits32, true_implies, Bool.false_eq_true, false_implies, true_and] at * <;> omega)
      · intro b _ hm m hm2
        have := hm lt (by simp)
        have := hm gt (by simp)
        simp only [List.mem_cons, List.mem_singleton, List.not_mem_nil, or_false] at hm2
        rcases hm2 with rfl <;>
          (cases s <;> simp only [rec_rel, fits32, true_implies, Bool.false_eq_true, false_implies, true_and] at * <;> omega)
    · refine inv_splice s pre [lt, gt] [_, gt] post hord hfit ?_ ?_ ?_ ?_
      · simp only [List.pairwise_cons, List.mem_cons, List.mem_singleton, forall_eq_or_imp,
          forall_eq, List.not_mem_nil, false_implies, implies_true, List.Pairwise.nil, and_true]
        cases s <;> simp only [rec_rel, fits32, true_implies, Bool.false_eq_true, false_implies, true_and] at * <;> omega
      · simp only [List.mem_cons, List.mem_singleton, forall_eq_or_imp, forall_eq,
          List.not_mem_nil, false_implies, implies_true, and_true]
        cases s <;> simp only [rec_rel, fits32, true_implies, Bool.false_eq_true, false_implies, true_and] at * <;> omega
      · intro a _ hm m hm2
        have := hm lt (by simp)
        have := hm gt (by simp)
        simp only [List.mem_cons, List.mem_singleton, List.not_mem_nil, or_false] at hm2
        rcases hm2 with rfl | rfl <;>
          (cases s <;> simp only [rec_rel, fits32, true_implies, Bool.false_eq_true, false_implies, true_and] at * <;> omega)
      · intro b _ hm m hm2
        have := hm lt (by simp)
        have := hm gt (by simp)
        simp only [List.mem_cons, List.mem_singleton, List.not_mem_nil, or_false] at hm2
        rcases hm2 with rfl | rfl <;>
          (cases s <;> simp only [rec_rel, fits32, true_implies, Bool.false_eq_true, false_implies, true_and] at * <;> omega)
    · refine inv_splice s pre [lt, gt] [lt, _] post hord hfit ?_ ?_ ?_ ?_
      · simp only [List.pairwise_cons, List.mem_cons, List.mem_singleton, forall_eq_or_imp,
          forall_eq, List.not_mem_nil, false_implies, implies_true, List.Pairwise.nil, and_true]
        cases s <;> simp only [rec_rel, fits32, true_implies, Bool.false_eq_true, false_implies, true_and] at * <;> omega
      · simp only [List.mem_cons, List.mem_singleton, forall_eq_or_imp, forall_eq,
          List.not_mem_nil, false_implies, implies_true, and_true]
        cases s <;> simp only [rec_rel, fits32, true_implies, Bool.false_eq_true, false_implies, true_and] at * <;> omega
      · intro a _ hm m hm2
        have := hm lt (by simp)
        have := hm gt (by simp)
        simp only [List.mem_cons, List.mem_singleton, List.not_mem_nil, or_false] at hm2
        rcases hm2 with rfl | rfl <;>
          (cases s <;> simp only [rec_rel, fits32, true_implies, Bool.false_eq_true, false_implies, true_and] at * <;> omega)
      · intro b _ hm m hm2
        have := hm lt (by simp)
        have := hm gt (by simp)
        simp only [List.mem_cons, List.mem_singleton, List.not_mem_nil, or_false] at hm2
        rcases hm2 with rfl | rfl <;>
          (cases s <;> simp only [rec_rel, fits32, true_implies, Bool.false_eq_true, false_implies, true_and] at * <;> omega)
    · refine inv_splice s pre [lt, gt] [lt, _, gt] post hord hfit ?_ ?_ ?_ ?_
      · simp only [List.pairwise_cons, List.mem_cons, List.mem_singleton, forall_eq_or_imp,
          forall_eq, List.not_mem_nil, false_implies, implies_true, List.Pairwise.nil, and_true]
        cases s <;> simp only [rec_rel, fits32, true_implies, Bool.false_eq_true, false_implies, true_and] at * <;> omega
      · simp only [List.mem_cons, List.mem_singleton, forall_eq_or_imp, forall_eq,
          List.not_mem_nil, false_implies, implies_true, and_true]
        cases s <;> simp only [rec_rel, fits32, true_implies, Bool.false_eq_true, false_implies, true_and] at * <;> omega
      · intro a _ hm m hm2
        have := hm lt (by simp)
        have := hm gt (by simp)
        simp only [List.mem_cons, List.mem_singleton, List.not_mem_nil, or_false] at hm2
        rcases hm2 with rfl | rfl | rfl <;>
          (cases s <;> simp only [rec_rel, fits32, true_implies, Bool.false_eq_true, false_implies, true_and] at * <;> omega)
      · intro b _ hm m hm2
        have := hm lt (by simp)
        have := hm gt (by simp)
        simp only [List.mem_cons, List.mem_singleton, List.not_mem_nil, or_false] at hm2
        rcases hm2 with rfl | rfl | rfl <;>
          (cases s <;> simp only [rec_rel, fits32, true_implies, Bool.false_eq_true, false_implies, true_and] at * <;> omega)

theorem free_keeps (s : Bool) (l : List xfs_rmap_irec) (bno len owner : Nat)
    (hord : List.Pairwise (rec_rel s) l) (hfit : ∀ r ∈ l, fits32 r)
    (hin : owner ≠ XFS_RMAP_OWN_NULL → ∀ lt, lookup_le_rec l bno = some lt →
      bno + len ≤ lt.rm_startblock + lt.rm_blockcount) :
    List.Pairwise (rec_rel s) (xfs_rmap_free true l bno len owner).2 ∧
    ∀ r ∈ (xfs_rmap_free true l bno len owner).2, fits32 r := by
  rcases lookup_le_cases l bno with h0 | ⟨pre, lt, post, hl, h1, h2⟩
  · rw [free_not_found l bno len owner h0]
    exact ⟨hord, hfit⟩
  subst hl
  have hltf := hfit lt (by simp)
  by_cases hnull : owner = XFS_RMAP_OWN_NULL
  · rw [free_found pre lt post bno len owner h1 h2]
    simp only [hnull, if_true]
    split_ifs <;> exact ⟨hord, hfit⟩
  · have hin2 := hin hnull lt (lookup_le_rec_split pre lt post bno h1 h2)
    rw [free_in_record pre lt post bno len owner h1 h2 hltf hin2 hnull]
    split_ifs with hA hB hC hD
    all_goals try exact ⟨hord, hfit⟩
    · refine inv_splice s pre [lt] [] post hord hfit ?_ ?_ ?_ ?_
      · simp
      · simp
      · simp
      · simp
    · refine inv_splice s pre [lt] [_] post hord hfit ?_ ?_ ?_ ?_
      · simp
      · simp only [List.mem_cons, List.mem_singleton, forall_eq_or_imp, forall_eq,
          List.not_mem_nil, false_implies, implies_true, and_true]
        cases s <;> simp only [rec_rel, fits32, true_implies, Bool.false_eq_true, false_implies, true_and] at * <;> omega
      · intro a _ hm m hm2
        have := hm lt (by simp)
        simp only [List.mem_cons, List.mem_singleton, List.not_mem_nil, or_false] at hm2
        subst hm2
        cases s <;> simp only [rec_rel, fits32, true_implies, Bool.false_eq_true, false_implies, true_and] at * <;> omega
      · intro b _ hm m hm2
        have := hm lt (by simp)
        simp only [List.mem_cons, List.mem_singleton, List.not_mem_nil, or_false] at hm2
        subst hm2
        cases s <;> simp only [rec_rel, fits32, true_implies, Bool.false_eq_true, false_implies, true_and] at * <;> omega
    · refine inv_splice s pre [lt] [_] post hord hfit ?_ ?_ ?_ ?_
      · simp
      · simp only [List.mem_cons, List.mem_singleton, forall_eq_or_imp, forall_eq,
          List.not_mem_nil, false_implies, implies_true, and_true]
        cases s <;> simp only [rec_rel, fits32, true_implies, Bool.false_eq_true, false_implies, true_and] at * <;> omega
      · intro a _ hm m hm2
        have := hm lt (by simp)
        simp only [List.mem_cons, List.mem_singleton, List.not_mem_nil, or_false] at hm2
        subst hm2
        cases s <;> simp only [rec_rel, fits32, true_implies, Bool.false_eq_true, false_implies, true_and] at * <;> omega
      · intro b _ hm m hm2
        have := hm lt (by simp)
        simp only [List.mem_cons, List.mem_singleton, List.not_mem_nil, or_false] at hm2
        subst hm2
        cases s <;> simp only [rec_rel, fits32, true_implies, Bool.false_eq_true, false_implies, true_and] at * <;> omega
    · refine inv_splice s pre [lt] [_, _] post hord hfit ?_ ?_ ?_ ?_
      · simp only [List.pairwise_cons, List.mem_cons, List.mem_singleton, forall_eq_or_imp,
          forall_eq, List.not_mem_nil, false_implies, implies_true, List.Pairwise.nil, and_true]
        cases s <;> simp only [rec_rel, fits32, true_implies, Bool.false_eq_true, false_implies, true_and] at * <;> omega
      · simp only [List.mem_cons, List.mem_singleton, forall_eq_or_imp, forall_eq,
          List.not_mem_nil, false_implies, implies_true, and_true]
        cases s <;> simp only [rec_rel, fits32, true_implies, Bool.false_eq_true, false_implies, true_and] at * <;> omega
      · intro a _ hm m hm2
        have := hm lt (by simp)
        simp only [List.mem_cons, List.mem_singleton, List.not_mem_nil, or_false] at hm2
        rcases hm2 with rfl | rfl <;>
          (cases s <;> simp only [rec_rel, fits32, true_implies, Bool.false_eq_true, false_implies, true_and] at * <;> omega)
      · intro b _ hm m hm2
        have := hm lt (by simp)
        simp only [List.mem_cons, List.mem_singleton, List.not_mem_nil, or_false] at hm2
        rcases hm2 with rfl | rfl <;>
          (cases s <;> simp only [rec_rel, fits32, true_implies, Bool.false_eq_true, false_implies, true_and] at * <;> omega)

theorem alloc_feature_off (g : xfs_rmap_irec) (l : List xfs_rmap_irec) (bno len owner : Nat) :
    xfs_rmap_alloc false g l bno len owner = (0, l) := by
  simp [xfs_rmap_alloc]

theorem free_feature_off (l : List xfs_rmap_irec) (bno len owner : Nat) :
    xfs_rmap_free false l bno len owner = (0, l) := by
  simp [xfs_rmap_free]

theorem ordered_iff_rel (l : List xfs_rmap_irec) :
    rmap_ordered l ↔ List.Pairwise (rec_rel true) l := by
  rw [rmap_ordered_iff]
  have h : ∀ a b, rec_inorder a b ↔ rec_rel true a b := by
    intro a b
    simp [rec_inorder, rec_rel]
  constructor <;> intro hp <;> exact hp.imp (fun {a b} hab => by first | exact (h a b).mp hab | exact (h a b).mpr hab)

/-- C3 (amended): on an ordered list whose records have extents that fit in 32 bits, an alloc
with `bno + len < 2^32` leaves the list ordered when every record is non-empty, and a free
whose range ends at or before the end of the record found by the lookup (or whose owner is
`OWN_NULL`) leaves the list ordered. -/
theorem C3_ordering_kept (hasrmapbt : Bool) (g : xfs_rmap_irec) (l : List xfs_rmap_irec)
    (bno len owner : Nat) (hord : rmap_ordered l) (hfit : ∀ r ∈ l, fits32 r) :
    ((∀ r ∈ l, 1 ≤ r.rm_blockcount) → bno + len < 4294967296 →
      rmap_ordered (xfs_rmap_alloc hasrmapbt g l bno len owner).2) ∧
    ((owner ≠ XFS_RMAP_OWN_NULL → ∀ lt, lookup_le_rec l bno = some lt →
        bno + len ≤ lt.rm_startblock + lt.rm_blockcount) →
      rmap_ordered (xfs_rmap_free hasrmapbt l bno len owner).2) := by
  cases hasrmapbt with
  | false =>
    rw [alloc_feature_off, free_feature_off]
    exact ⟨fun _ _ => hord, fun _ => hord⟩
  | true =>
    refine ⟨fun hne hbl => ?_, fun hin => ?_⟩
    · rw [ordered_iff_rel] at hord ⊢
      exact (alloc_keeps true g l bno len owner hord hfit (fun _ => hne) hbl).1
    · rw [ordered_iff_rel] at hord ⊢
      exact (free_keeps true l bno len owner hord hfit hin).1

/-- C3 at a both-sides merge (`alloc(110, 10, 42)`) and at a middle split
(`free(102, 3, 42)`). -/
theorem C3_ordering_kept_witness :
    rmap_ordered (xfs_rmap_alloc true ⟨0, 0, 0⟩ [ag_hdr, ⟨100, 10, 42⟩, ⟨120, 5, 42⟩]
      110 10 42).2 ∧
    rmap_ordered (xfs_rmap_free true [ag_hdr, ⟨100, 10, 42⟩, ⟨120, 5, 42⟩] 102 3 42).2 :=
  ⟨(C3_ordering_kept true ⟨0, 0, 0⟩ [ag_hdr, ⟨100, 10, 42⟩, ⟨120, 5, 42⟩] 110 10 42
      (by decide) (by decide)).1 (by decide) (by decide),
   (C3_ordering_kept true ⟨0, 0, 0⟩ [ag_hdr, ⟨100, 10, 42⟩, ⟨120, 5, 42⟩] 102 3 42
      (by decide) (by decide)).2
      (fun _ lt hlt => by
        have h : lookup_le_rec [ag_hdr, ⟨100, 10, 42⟩, ⟨120, 5, 42⟩] 102 =
            some ⟨100, 10, 42⟩ := by decide
        rw [h] at hlt
        cases hlt
        decide)⟩

/-- C3 as stated fails for alloc at three inputs with an ordered list and a successful call:
an alloc whose `bno + len` wraps in 32 bits is inserted in front of a record that starts
inside it; an alloc behind a last record whose extent does not fit in 32 bits is inserted
although that record overlaps it; an alloc at the startblock of an empty record is inserted
behind it with the same startblock. -/
theorem C3_counterexample :
    (rmap_ordered [ag_hdr, ⟨4294967294, 1, 7⟩] ∧
      xfs_rmap_alloc true ⟨0, 0, 0⟩ [ag_hdr, ⟨4294967294, 1, 7⟩] 4294967291 10 42 =
        (0, [ag_hdr, ⟨4294967291, 10, 42⟩, ⟨4294967294, 1, 7⟩]) ∧
      ¬ rmap_ordered [ag_hdr, ⟨4294967291, 10, 42⟩, ⟨4294967294, 1, 7⟩]) ∧
    (rmap_ordered [ag_hdr, ⟨4294967293, 10, 7⟩] ∧
      xfs_rmap_alloc true ⟨0, 0, 0⟩ [ag_hdr, ⟨4294967293, 10, 7⟩] 4294967294 1 42 =
        (0, [ag_hdr, ⟨4294967293, 10, 7⟩, ⟨4294967294, 1, 42⟩]) ∧
      ¬ rmap_ordered [ag_hdr, ⟨4294967293, 10, 7⟩, ⟨4294967294, 1, 42⟩]) ∧
    (rmap_ordered [ag_hdr, ⟨5, 0, 7⟩] ∧
      xfs_rmap_alloc true ⟨0, 0, 0⟩ [ag_hdr, ⟨5, 0, 7⟩] 5 3 42 =
        (0, [ag_hdr, ⟨5, 0, 7⟩, ⟨5, 3, 42⟩]) ∧
      ¬ rmap_ordered [ag_hdr, ⟨5, 0, 7⟩, ⟨5, 3, 42⟩]) := by
  decide

theorem apply_keeps (l : List xfs_rmap_irec) (c : rmap_call)
    (hord : List.Pairwise (rec_rel false) l) (hfit : ∀ r ∈ l, fits32 r)
    (hb : call_in_bounds l c) :
    List.Pairwise (rec_rel false) (rmap_apply l c) ∧ ∀ r ∈ rmap_apply l c, fits32 r := by
  cases c with
  | alloc bno len owner g =>
    exact alloc_keeps false g l bno len owner hord hfit (by simp) hb
  | free bno len owner =>
    exact free_keeps false l bno len owner hord hfit hb

theorem run_keeps (calls : List rmap_call) (l : List xfs_rmap_irec)
    (hord : List.Pairwise (rec_rel false) l) (hfit : ∀ r ∈ l, fits32 r)
    (hb : calls_in_bounds l calls) :
    List.Pairwise (rec_rel false) (rmap_run l calls) ∧ ∀ r ∈ rmap_run l calls, fits32 r := by
  induction calls generalizing l with
  | nil => exact ⟨hord, hfit⟩
  | cons c cs ih =>
    obtain ⟨h1, h2⟩ := apply_keeps l c hord hfit hb.1
    exact ih (rmap_apply l c) h1 h2 hb.2

theorem calls_in_bounds_take (calls : List rmap_call) (l : List xfs_rmap_irec) (k : Nat)
    (hb : calls_in_bounds l calls) : calls_in_bounds l (calls.take k) := by
  induction calls generalizing l k with
  | nil => simpa using hb
  | cons c cs ih =>
    cases k with
    | zero => simp [calls_in_bounds]
    | succ k => exact ⟨hb.1, ih (rmap_apply l c) k hb.2⟩

/-- C4 (amended): start from an rmap that holds only the sentinel record at startblock 0 and
apply any sequence of calls in which every alloc has `bno + len < 2^32` and every free with an
owner other than `OWN_NULL` frees a range that ends at or before the end of the record its
lookup finds.  Then at every intermediate state (after any `k` calls) every two distinct
records (records at two different places of the list) have disjoint block ranges, and so in
particular have every two records with the same non-wildcard owner. -/
theorem C4_disjoint_along_calls (cnt own : Nat) (hc : cnt < 4294967296)
    (calls : List rmap_call) (hb : calls_in_bounds [⟨0, cnt, own⟩] calls) (k : Nat) :
    List.Pairwise disjoint_recs (rmap_run [⟨0, cnt, own⟩] (calls.take k)) ∧
    List.Pairwise
      (fun a b => a.rm_owner = b.rm_owner → ¬ wildcard_owner a.rm_owner → disjoint_recs a b)
      (rmap_run [⟨0, cnt, own⟩] (calls.take k)) := by
  have h := (run_keeps (calls.take k) [⟨0, cnt, own⟩] (by simp)
    (by simp [fits32]; omega) (calls_in_bounds_take calls _ k hb)).1
  have hd : List.Pairwise disjoint_recs (rmap_run [⟨0, cnt, own⟩] (calls.take k)) := by
    refine h.imp ?_
    intro a b hab blk hcov
    simp only [rec_rel, covers, Bool.false_eq_true, false_implies, true_and] at hab hcov
    omega
  exact ⟨hd, hd.imp (fun hab _ _ => hab)⟩

/-- C4 along `alloc(100, 10, 42); alloc(120, 5, 42); free(102, 3, 42)` from the
sentinel-only rmap. -/
theorem C4_disjoint_along_calls_witness :
    List.Pairwise disjoint_recs
      (rmap_run [⟨0, 1, 18446744073709551611⟩]
        ([rmap_call.alloc 100 10 42 ⟨0, 0, 0⟩, rmap_call.alloc 120 5 42 ⟨0, 0, 0⟩,
          rmap_call.free 102 3 42].take 3)) ∧
    List.Pairwise
      (fun a b => a.rm_owner = b.rm_owner → ¬ wildcard_owner a.rm_owner → disjoint_recs a b)
      (rmap_run [⟨0, 1, 18446744073709551611⟩]
        ([rmap_call.alloc 100 10 42 ⟨0, 0, 0⟩, rmap_call.alloc 120 5 42 ⟨0, 0, 0⟩,
          rmap_call.free 102 3 42].take 3)) :=
  C4_disjoint_along_calls 1 18446744073709551611 (by decide)
    [rmap_call.alloc 100 10 42 ⟨0, 0, 0⟩, rmap_call.alloc 120 5 42 ⟨0, 0, 0⟩,
      rmap_call.free 102 3 42]
    (by
      refine ⟨?_, ?_, ?_, trivial⟩
      · show 100 + 10 < 4294967296
        decide
      · show 120 + 5 < 4294967296
        decide
      intro _ lt hlt
      have h : lookup_le_rec (rmap_apply (rmap_apply [⟨0, 1, 18446744073709551611⟩]
          (rmap_call.alloc 100 10 42 ⟨0, 0, 0⟩)) (rmap_call.alloc 120 5 42 ⟨0, 0, 0⟩)) 102 =
          some ⟨100, 10, 42⟩ := by decide
      rw [h] at hlt
      cases hlt
      decide)
    3

/-- C4 as stated fails: from the sentinel-only rmap, `alloc(2^32 - 5, 10, 42)` followed by
`alloc(2^32 - 3, 1, 42)` both succeed (the 32-bit end of the first record wraps to 5) and
leave two records of the non-wildcard owner 42 that both cover block `2^32 - 3`. -/
theorem C4_counterexample :
    rmap_run [ag_hdr] [rmap_call.alloc 4294967291 10 42 ⟨0, 0, 0⟩,
        rmap_call.alloc 4294967293 1 42 ⟨0, 0, 0⟩] =
      [ag_hdr, ⟨4294967291, 10, 42⟩, ⟨4294967293, 1, 42⟩] ∧
    (xfs_rmap_alloc true ⟨0, 0, 0⟩ [ag_hdr] 4294967291 10 42).1 = 0 ∧
    (xfs_rmap_alloc true ⟨0, 0, 0⟩ [ag_hdr, ⟨4294967291, 10, 42⟩] 4294967293 1 42).1 = 0 ∧
    ¬ wildcard_owner 42 ∧
    ¬ disjoint_recs ⟨4294967291, 10, 42⟩ ⟨4294967293, 1, 42⟩ := by
  refine ⟨by decide, by decide, by decide, by decide, fun h => h 4294967293 (by decide)⟩

/-! ## C5: alloc followed by free of the same extent -/

/-- C5 (amended), with the rmapbt feature enabled:
on an ordered list of non-empty records whose extents fit in 32 bits, for an
extent with `len >= 1`, `bno + len < 2^32` and an owner other than `OWN_NULL`, when the alloc
succeeds the free of the same extent succeeds and gives back the list from before the alloc. -/
theorem C5_alloc_free_roundtrip (g : xfs_rmap_irec) (l : List xfs_rmap_irec)
    (bno len owner : Nat) (hord : rmap_ordered l)
    (hrec : ∀ r ∈ l, 1 ≤ r.rm_blockcount ∧ fits32 r)
    (hlen : 1 ≤ len) (hown : owner ≠ XFS_RMAP_OWN_NULL) (hbl : bno + len < 4294967296)
    (hok : (xfs_rmap_alloc true g l bno len owner).1 = 0) :
    xfs_rmap_free true (xfs_rmap_alloc true g l bno len owner).2 bno len owner = (0, l) := by
  have hE : ¬ (-EFSCORRUPTED = (0 : Int)) := by decide
  rcases lookup_le_cases l bno with h0 | ⟨pre, lt, post, hl, h1, h2⟩
  · rw [alloc_not_found g l bno len owner h0] at hok
    exact absurd hok hE
  subst hl
  have hltok := hrec lt (by simp)
  have hltf := hltok.2
  simp only [fits32] at hltf
  cases post with
  | nil =>
    rw [alloc_last_nat g pre lt bno len owner h1 hltok.2 hbl hown] at hok ⊢
    split_ifs at hok ⊢ with hA hB
    · exact absurd hok hE
    · show xfs_rmap_free true
        (pre ++ (⟨lt.rm_startblock, lt.rm_blockcount + len, lt.rm_owner⟩ : xfs_rmap_irec) :: [])
        bno len owner = _
      rw [free_in_record pre ⟨lt.rm_startblock, lt.rm_blockcount + len, lt.rm_owner⟩ []
        bno len owner h1 (by simp) (by simp only [fits32]; omega) (by simp only; omega) hown]
      simp only
      rw [if_neg (by simp [hB.1]), if_neg (by omega), if_neg (by omega), if_pos (by omega)]
      obtain ⟨ls, lc, lo⟩ := lt
      simp only [Prod.mk.injEq, true_and, List.append_cancel_left_eq, List.cons.injEq,
        and_true, xfs_rmap_irec.mk.injEq]
      omega
    · show xfs_rmap_free true (pre ++ [lt, ⟨bno, len, owner⟩]) bno len owner = _
      have e : pre ++ [lt, (⟨bno, len, owner⟩ : xfs_rmap_irec)] =
          (pre ++ [lt]) ++ (⟨bno, len, owner⟩ : xfs_rmap_irec) :: [] := by simp
      rw [e, free_in_record (pre ++ [lt]) ⟨bno, len, owner⟩ [] bno len owner (le_refl _)
        (by simp) (by simp only [fits32]; omega) (le_refl _) hown]
      simp
  | cons gt post =>
    have hgtok := hrec gt (by simp)
    have hgtf := hgtok.2
    simp only [fits32] at hgtf
    have h2p : ∀ r ∈ post, bno < r.rm_startblock := fun r hr => h2 r (by simp [hr])
    have hgts := h2 gt (by simp)
    rw [alloc_mid_nat g pre lt gt post bno len owner h1 h2 hltok.2 hgtok.2 hbl] at hok ⊢
    split_ifs at hok ⊢ with hA hB hC hD hE2
    · exact absurd hok hE
    · exact absurd hok hE
    · show xfs_rmap_free true (pre ++ (⟨lt.rm_startblock,
        lt.rm_blockcount + len + gt.rm_blockcount, lt.rm_owner⟩ : xfs_rmap_irec) :: post)
        bno len owner = _
      rw [free_in_record pre
        ⟨lt.rm_startblock, lt.rm_blockcount + len + gt.rm_blockcount, lt.rm_owner⟩ post
        bno len owner h1 h2p (by simp only [fits32]; omega) (by simp only; omega) hown]
      simp only
      rw [if_neg (by simp [hC.1]), if_neg (by omega), if_neg (by omega), if_neg (by omega)]
      obtain ⟨ls, lc, lo⟩ := lt
      obtain ⟨gs, gc, go⟩ := gt
      simp only [Prod.mk.injEq, true_and, List.append_cancel_left_eq, List.cons.injEq,
        and_true, xfs_rmap_irec.mk.injEq] at *
      omega
    · show xfs_rmap_free true (pre ++ (⟨lt.rm_startblock,
        lt.rm_blockcount + len, lt.rm_owner⟩ : xfs_rmap_irec) :: gt :: post)
        bno len owner = _
      rw [free_in_record pre ⟨lt.rm_startblock, lt.rm_blockcount + len, lt.rm_owner⟩
        (gt :: post) bno len owner h1 h2 (by simp only [fits32]; omega)
        (by simp only; omega) hown]
      simp only
      rw [if_neg (by simp [hC.1]), if_neg (by omega), if_neg (by omega), if_pos (by omega)]
      obtain ⟨ls, lc, lo⟩ := lt
      simp only [Prod.mk.injEq, true_and, List.append_cancel_left_eq, List.cons.injEq,
        and_true, xfs_rmap_irec.mk.injEq]
      omega
    · show xfs_rmap_free true (pre ++ lt ::
        (⟨bno, gt.rm_blockcount + len, gt.rm_owner⟩ : xfs_rmap_irec) :: post)
        bno len owner = _
      have e : pre ++ lt :: (⟨bno, gt.rm_blockcount + len, gt.rm_owner⟩ : xfs_rmap_irec) ::
          post = (pre ++ [lt]) ++
          (⟨bno, gt.rm_blockcount + len, gt.rm_owner⟩ : xfs_rmap_irec) :: post := by simp
      rw [e, free_in_record (pre ++ [lt]) ⟨bno, gt.rm_blockcount + len, gt.rm_owner⟩ post
        bno len owner (le_refl _) h2p (by simp only [fits32]; omega) (by simp only; omega)
        hown]
      simp only
      rw [if_neg (by simp [hE2.1]), if_neg (by omega), if_pos trivial]
      obtain ⟨gs, gc, go⟩ := gt
      simp only [Prod.mk.injEq, true_and, List.append_assoc, List.singleton_append,
        List.append_cancel_left_eq, List.cons.injEq, and_true, xfs_rmap_irec.mk.injEq] at *
      omega
    · show xfs_rmap_free true (pre ++ lt :: (⟨bno, len, owner⟩ : xfs_rmap_irec) :: gt :: post)
        bno len owner = _
      have e : pre ++ lt :: (⟨bno, len, owner⟩ : xfs_rmap_irec) :: gt :: post =
          (pre ++ [lt]) ++ (⟨bno, len, owner⟩ : xfs_rmap_irec) :: (gt :: post) := by simp
      rw [e, free_in_record (pre ++ [lt]) ⟨bno, len, owner⟩ (gt :: post) bno len owner
        (le_refl _) h2 (by simp only [fits32]; omega) (le_refl _) hown]
      simp

/-- C5 at a both-sides merge: `alloc(110, 10, 42)` then `free(110, 10, 42)`. -/
theorem C5_alloc_free_roundtrip_witness :
    xfs_rmap_free true
      (xfs_rmap_alloc true ⟨0, 0, 0⟩ [ag_hdr, ⟨100, 10, 42⟩, ⟨120, 5, 42⟩] 110 10 42).2
      110 10 42 = (0, [ag_hdr, ⟨100, 10, 42⟩, ⟨120, 5, 42⟩]) :=
  C5_alloc_free_roundtrip ⟨0, 0, 0⟩ [ag_hdr, ⟨100, 10, 42⟩, ⟨120, 5, 42⟩] 110 10 42
    (by decide) (by decide) (by decide) (by decide) (by decide) (by decide)

/-- C5 as stated fails at two inputs with an ordered list of non-empty records, `len >= 1`,
an owner other than `OWN_NULL` and a successful alloc.  `alloc(2^32 - 5, 10, 42)` extends the
record `(2^32 - 10, 5, 42)` to 15 blocks, whose 32-bit end wraps to 5, and the free of the same
extent returns `-EFSCORRUPTED`.  `alloc(15, 5, 42)` between `(10, 5, 42)` and
`(20, 2^32 - 8, 42)` merges both sides into a blockcount that wraps to 2, and the free of the
same extent returns `-EFSCORRUPTED`. -/
theorem C5_counterexample :
    (rmap_ordered [ag_hdr, ⟨4294967286, 5, 42⟩] ∧
      (∀ r ∈ [ag_hdr, (⟨4294967286, 5, 42⟩ : xfs_rmap_irec)], 1 ≤ r.rm_blockcount) ∧
      1 ≤ 10 ∧ 42 ≠ XFS_RMAP_OWN_NULL ∧
      xfs_rmap_alloc true ⟨0, 0, 0⟩ [ag_hdr, ⟨4294967286, 5, 42⟩] 4294967291 10 42 =
        (0, [ag_hdr, ⟨4294967286, 15, 42⟩]) ∧
      (xfs_rmap_free true
        (xfs_rmap_alloc true ⟨0, 0, 0⟩ [ag_hdr, ⟨4294967286, 5, 42⟩] 4294967291 10 42).2
        4294967291 10 42).1 = -EFSCORRUPTED) ∧
    (rmap_ordered [ag_hdr, ⟨10, 5, 42⟩, ⟨20, 4294967288, 42⟩] ∧
      (∀ r ∈ [ag_hdr, ⟨10, 5, 42⟩, (⟨20, 4294967288, 42⟩ : xfs_rmap_irec)],
        1 ≤ r.rm_blockcount) ∧
      1 ≤ 5 ∧ 42 ≠ XFS_RMAP_OWN_NULL ∧
      xfs_rmap_alloc true ⟨0, 0, 0⟩ [ag_hdr, ⟨10, 5, 42⟩, ⟨20, 4294967288, 42⟩] 15 5 42 =
        (0, [ag_hdr, ⟨10, 2, 42⟩]) ∧
      (xfs_rmap_free true
        (xfs_rmap_alloc true ⟨0, 0, 0⟩ [ag_hdr, ⟨10, 5, 42⟩, ⟨20, 4294967288, 42⟩]
          15 5 42).2 15 5 42).1 = -EFSCORRUPTED) := by
  decide

/-! ## C6: merging is maximal -/

theorem chain_last_imp {R : xfs_rmap_irec → xfs_rmap_irec → Prop} (pre : List xfs_rmap_irec)
    (x y : xfs_rmap_irec) (h : ∀ a, R a x → R a y) (hc : List.Chain' R (pre ++ [x])) :
    List.Chain' R (pre ++ [y]) := by
  induction pre with
  | nil => simp
  | cons a pre ih =>
    cases pre with
    | nil =>
      simp only [List.cons_append, List.nil_append, List.chain'_pair] at hc ⊢
      exact h a hc
    | cons b pre =>
      simp only [List.cons_append, List.chain'_cons] at hc ih ⊢
      exact ⟨hc.1, ih hc.2⟩

/-- In a wrapped 32-bit sum that equals a value not below the first summand nothing wrapped. -/
theorem add32_eq_of_le (a c b : Nat) (hc : c < 4294967296) (hab : a ≤ b)
    (h : add32 a c = b) : a + c = b := by
  simp only [add32] at h
  omega

/-- C7 (the code at the failing input): the lookup-LE of `free(105, 8, 42)` finds
`(100, 10, 42)`, which ends at 110, before the end 113 of the freed range; the only check on
the end is `bno <= ltrec.rm_startblock + ltrec.rm_blockcount`, so the call returns 0 and
splits the record as if the range were in its middle, inserting a remainder whose blockcount
`10 - 8 - 5` wraps to `2^32 - 3`. -/
theorem C7_free_past_record_end :
    lookup_le_rec [ag_hdr, ⟨100, 10, 42⟩] 105 = some ⟨100, 10, 42⟩ ∧
    100 + 10 < 105 + 8 ∧ 42 ≠ XFS_RMAP_OWN_NULL ∧
    xfs_rmap_free true [ag_hdr, ⟨100, 10, 42⟩] 105 8 42 =
      (0, [ag_hdr, ⟨100, 5, 42⟩, ⟨113, 4294967293, 42⟩]) := by
  decide

/-! ## C8, C9: when alloc returns CORRUPTED -/

theorem alloc_corrupted_of_overlap (g : xfs_rmap_irec) (l : List xfs_rmap_irec)
    (bno len owner : Nat) (hord : rmap_ordered l) (hfit : ∀ r ∈ l, fits32 r)
    (hbl : bno + len < 4294967296)
    (hov : ∃ r ∈ l, ∃ b, covers r b ∧ in_range bno len b) :
    (xfs_rmap_alloc true g l bno len owner).1 = -EFSCORRUPTED := by
  rcases lookup_le_cases l bno with h0 | ⟨pre, lt, post, hl, h1, h2⟩
  · rw [alloc_not_found g l bno len owner h0]
  subst hl
  obtain ⟨hpre, hpost, -, -, hpp⟩ := ordered_split pre lt post hord
  have hltf := hfit lt (by simp)
  obtain ⟨r, hr, b, hcov, hin⟩ := hov
  simp only [covers, in_range, fits32, rec_inorder] at *
  simp only [List.mem_append, List.mem_cons] at hr
  cases post with
  | nil =>
    rw [alloc_found_last g pre lt bno len owner h1]
    simp only [add32]
    rw [if_pos]
    rcases hr with hr | rfl | hr
    · have := hpre r hr
      omega
    · omega
    · simp at hr
  | cons gt post =>
    have hgtf := hfit gt (by simp)
    rw [alloc_mid_nat g pre lt gt post bno len owner h1 h2 hltf hgtf hbl]
    split_ifs with hA hB
    · rfl
    · rfl
    all_goals
      exfalso
      simp only [List.pairwise_cons] at hpp
      rcases hr with hr | rfl | hr
      · have := hpre r hr
        omega
      · omega
      · simp only [List.mem_cons] at hr
        rcases hr with rfl | hr
        · omega
        · have h5 := hpp.1 r hr
          simp only [rec_inorder] at h5
          omega

/-- C8 (amended), with the rmapbt feature enabled:
on an ordered list whose records have extents that fit in 32 bits, an alloc
of `len >= 1` blocks with `bno + len < 2^32` whose range overlaps an existing record returns
`-EFSCORRUPTED`, whatever the owner; and an alloc returns `-EFSCORRUPTED` when no record starts
at or before `bno`. -/
theorem C8_alloc_overlap_corrupted (g : xfs_rmap_irec) (l : List xfs_rmap_irec)
    (bno len owner : Nat) (hord : rmap_ordered l) (hfit : ∀ r ∈ l, fits32 r)
    (hlen : 1 ≤ len) (hbl : bno + len < 4294967296) :
    ((∃ r ∈ l, ∃ b, covers r b ∧ in_range bno len b) →
      (xfs_rmap_alloc true g l bno len owner).1 = -EFSCORRUPTED) ∧
    ((∀ r ∈ l, bno < r.rm_startblock) →
      (xfs_rmap_alloc true g l bno len owner).1 = -EFSCORRUPTED) := by
  refine ⟨fun hov => alloc_corrupted_of_overlap g l bno len owner hord hfit hbl hov, ?_⟩
  intro h0
  rw [alloc_not_found g l bno len owner h0]

/-- C8 at `alloc(105, 10, 7)` over `(100, 10, 42)` and at `alloc(50, 10, 7)` with no record
at or before block 50. -/
theorem C8_alloc_overlap_corrupted_witness :
    (xfs_rmap_alloc true ⟨0, 0, 0⟩ [ag_hdr, ⟨100, 10, 42⟩] 105 10 7).1 = -EFSCORRUPTED ∧
    (xfs_rmap_alloc true ⟨0, 0, 0⟩ [⟨100, 10, 42⟩] 50 10 7).1 = -EFSCORRUPTED :=
  ⟨(C8_alloc_overlap_corrupted ⟨0, 0, 0⟩ [ag_hdr, ⟨100, 10, 42⟩] 105 10 7
      (by decide) (by decide) (by decide) (by decide)).1
      ⟨⟨100, 10, 42⟩, by decide, 105, by decide⟩,
   (C8_alloc_overlap_corrupted ⟨0, 0, 0⟩ [⟨100, 10, 42⟩] 50 10 7
      (by decide) (by decide) (by decide) (by decide)).2 (by decide)⟩

/-- C8 as stated fails when the record found does not fit in 32 bits: `(2^32 - 3, 10, 7)`
covers block `2^32 - 2`, but its 32-bit end wraps to 7, the check
`ltrec.rm_startblock + ltrec.rm_blockcount <= bno` passes and `alloc(2^32 - 2, 1, 42)` returns
0. -/
theorem C8_counterexample :
    rmap_ordered [ag_hdr, ⟨4294967293, 10, 7⟩] ∧ 1 ≤ 1 ∧ 4294967294 + 1 < 4294967296 ∧
    (∃ r ∈ [ag_hdr, (⟨4294967293, 10, 7⟩ : xfs_rmap_irec)], ∃ b,
      covers r b ∧ in_range 4294967294 1 b) ∧
    (xfs_rmap_alloc true ⟨0, 0, 0⟩ [ag_hdr, ⟨4294967293, 10, 7⟩] 4294967294 1 42).1 = 0 := by
  refine ⟨by decide, by decide, by decide, ⟨⟨4294967293, 10, 7⟩, by decide, 4294967294,
    by decide⟩, by decide⟩

/-- C9 (amended), with the rmapbt feature enabled:
`xfs_rmap_alloc` has no length limit.  On an ordered list of non-empty
records whose extents fit in 32 bits, an alloc of more than `MAX_EXTLEN` blocks with
`bno + len < 2^32` and an owner other than `OWN_NULL` returns `-EFSCORRUPTED` exactly when no
record starts at or before `bno` or the range overlaps an existing record, and returns 0
otherwise. -/
theorem C9_alloc_no_length_limit (g : xfs_rmap_irec) (l : List xfs_rmap_irec)
    (bno len owner : Nat) (hord : rmap_ordered l)
    (hrec : ∀ r ∈ l, 1 ≤ r.rm_blockcount ∧ fits32 r)
    (hlen : MAX_EXTLEN < len) (hbl : bno + len < 4294967296)
    (hown : owner ≠ XFS_RMAP_OWN_NULL) :
    ((xfs_rmap_alloc true g l bno len owner).1 = -EFSCORRUPTED ↔
      ((∀ r ∈ l, bno < r.rm_startblock) ∨
        ∃ r ∈ l, ∃ b, covers r b ∧ in_range bno len b)) ∧
    ((xfs_rmap_alloc true g l bno len owner).1 ≠ -EFSCORRUPTED →
      (xfs_rmap_alloc true g l bno len owner).1 = 0) := by
  have hE : ¬ ((0 : Int) = -EFSCORRUPTED) := by decide
  have hlen1 : 1 ≤ len := by
    simp only [MAX_EXTLEN] at hlen
    omega
  have hbad : ((∀ r ∈ l, bno < r.rm_startblock) ∨
      ∃ r ∈ l, ∃ b, covers r b ∧ in_range bno len b) →
      (xfs_rmap_alloc true g l bno len owner).1 = -EFSCORRUPTED := by
    rintro (h0 | hov)
    · rw [alloc_not_found g l bno len owner h0]
    · exact alloc_corrupted_of_overlap g l bno len owner hord (fun r hr => (hrec r hr).2)
        hbl hov
  have hgood : ¬ ((∀ r ∈ l, bno < r.rm_startblock) ∨
      ∃ r ∈ l, ∃ b, covers r b ∧ in_range bno len b) →
      (xfs_rmap_alloc true g l bno len owner).1 = 0 := by
    intro hn
    simp only [not_or, not_forall, not_exists, not_lt, not_and] at hn
    obtain ⟨⟨r, hr, hrb⟩, hno⟩ := hn
    exact (alloc_covers g l bno len owner hord hrec ⟨r, hr, hrb⟩ hlen1 hown
      (fun r hr b hc hin => hno r hr b hc hin) hbl).1
  constructor
  · constructor
    · intro h
      by_contra hn
      rw [hgood hn] at h
      exact hE h
    · exact hbad
  · intro h
    by_contra h2
    exact h2 (hgood (fun hb => h (hbad hb)))

/-- C9 at `alloc(100, MAX_EXTLEN + 1, 42)` on the sentinel-only rmap. -/
theorem C9_alloc_no_length_limit_witness :
    ((xfs_rmap_alloc true ⟨0, 0, 0⟩ [ag_hdr] 100 2097153 42).1 = -EFSCORRUPTED ↔
      ((∀ r ∈ [ag_hdr], 100 < r.rm_startblock) ∨
        ∃ r ∈ [ag_hdr], ∃ b, covers r b ∧ in_range 100 2097153 b)) ∧
    ((xfs_rmap_alloc true ⟨0, 0, 0⟩ [ag_hdr] 100 2097153 42).1 ≠ -EFSCORRUPTED →
      (xfs_rmap_alloc true ⟨0, 0, 0⟩ [ag_hdr] 100 2097153 42).1 = 0) :=
  C9_alloc_no_length_limit ⟨0, 0, 0⟩ [ag_hdr] 100 2097153 42
    (by decide) (by decide) (by decide) (by decide) (by decide)

/-- C9 as stated fails: on the sentinel-only rmap, `alloc(100, MAX_EXTLEN + 1, 42)` returns 0
and inserts the record; the code compares `len` with nothing. -/
theorem C9_counterexample :
    MAX_EXTLEN < 2097153 ∧
    xfs_rmap_alloc true ⟨0, 0, 0⟩ [ag_hdr] 100 2097153 42 =
      (0, [ag_hdr, ⟨100, 2097153, 42⟩]) := by
  decide

/-! ## C10: bounds on the blockcount -/

theorem forall_splice (P : xfs_rmap_irec → Prop) (pre mid mid2 post : List xfs_rmap_irec)
    (h : ∀ r ∈ pre ++ (mid ++ post), P r) (h2 : ∀ r ∈ mid2, P r) :
    ∀ r ∈ pre ++ (mid2 ++ post), P r := by
  intro r hr
  simp only [List.mem_append] at hr h
  rcases hr with h1 | h1 | h1
  · exact h r (Or.inl h1)
  · exact h2 r h1
  · exact h r (Or.inr (Or.inr h1))

theorem alloc_blockcount (g : xfs_rmap_irec) (l : List xfs_rmap_irec) (bno len owner : Nat)
    (hcnt : ∀ r ∈ l, 1 ≤ r.rm_blockcount ∧ r.rm_blockcount ≤ MAX_EXTLEN)
    (hlen : 1 ≤ len ∧ len ≤ MAX_EXTLEN) :
    ∀ r ∈ (xfs_rmap_alloc true g l bno len owner).2,
      1 ≤ r.rm_blockcount ∧ r.rm_blockcount ≤ 3 * MAX_EXTLEN := by
  have hw : ∀ r ∈ l, 1 ≤ r.rm_blockcount ∧ r.rm_blockcount ≤ 3 * MAX_EXTLEN := by
    intro r hr
    have := hcnt r hr
    omega
  rcases lookup_le_cases l bno with h0 | ⟨pre, lt, post, hl, h1, h2⟩
  · rw [alloc_not_found g l bno len owner h0]
    exact hw
  subst hl
  have hltc := hcnt lt (by simp)
  cases post with
  | nil =>
    rw [alloc_found_last g pre lt bno len owner h1]
    split_ifs
    all_goals first | exact hw | skip
    · refine forall_splice _ pre [lt] [_] [] hw ?_
      simp only [List.mem_cons, List.mem_singleton, forall_eq_or_imp, forall_eq,
        List.not_mem_nil, false_implies, implies_true, and_true, MAX_EXTLEN, add32, sub32] at *
      omega
    · refine forall_splice _ pre [lt] [lt, _] [] hw ?_
      simp only [List.mem_cons, List.mem_singleton, forall_eq_or_imp, forall_eq,
        List.not_mem_nil, false_implies, implies_true, and_true, MAX_EXTLEN, add32, sub32] at *
      omega
  | cons gt post =>
    have hgtc := hcnt gt (by simp)
    rw [alloc_found_mid g pre lt gt post bno len owner h1 h2]
    split_ifs
    all_goals first | exact hw | skip
    · refine forall_splice _ pre [lt, gt] [_] post hw ?_
      simp only [List.mem_cons, List.mem_singleton, forall_eq_or_imp, forall_eq,
        List.not_mem_nil, false_implies, implies_true, and_true, MAX_EXTLEN, add32, sub32] at *
      omega
    · refine forall_splice _ pre [lt, gt] [_, gt] post hw ?_
      simp only [List.mem_cons, List.mem_singleton, forall_eq_or_imp, forall_eq,
        List.not_mem_nil, false_implies, implies_true, and_true, MAX_EXTLEN, add32, sub32] at *
      omega
    · refine forall_splice _ pre [lt, gt] [lt, _] post hw ?_
      simp only [List.mem_cons, List.mem_singleton, forall_eq_or_imp, forall_eq,
        List.not_mem_nil, false_implies, implies_true, and_true, MAX_EXTLEN, add32, sub32] at *
      omega
    · refine forall_splice _ pre [lt, gt] [lt, _, gt] post hw ?_
      simp only [List.mem_cons, List.mem_singleton, forall_eq_or_imp, forall_eq,
        List.not_mem_nil, false_implies, implies_true, and_true, MAX_EXTLEN, add32, sub32] at *
      omega

theorem free_blockcount (l : List xfs_rmap_irec) (bno len owner : Nat)
    (htyp : ∀ r ∈ l, r.rm_startblock < 4294967296) (hb : bno < 4294967296)
    (hcnt : ∀ r ∈ l, 1 ≤ r.rm_blockcount ∧ r.rm_blockcount ≤ MAX_EXTLEN)
    (hlen : 1 ≤ len ∧ len ≤ MAX_EXTLEN)
    (hin : owner ≠ XFS_RMAP_OWN_NULL → ∀ lt, lookup_le_rec l bno = some lt →
      bno + len ≤ lt.rm_startblock + lt.rm_blockcount) :
    ∀ r ∈ (xfs_rmap_free true l bno len owner).2,
      1 ≤ r.rm_blockcount ∧ r.rm_blockcount ≤ MAX_EXTLEN := by
  rcases lookup_le_cases l bno with h0 | ⟨pre, lt, post, hl, h1, h2⟩
  · rw [free_not_found l bno len owner h0]
    exact hcnt
  subst hl
  have hltc := hcnt lt (by simp)
  have hltt := htyp lt (by simp)
  rw [free_found pre lt post bno len owner h1 h2]
  by_cases hnull : owner = XFS_RMAP_OWN_NULL
  · simp only [hnull, if_true]
    split_ifs <;> exact hcnt
  · have hin2 := hin hnull lt (lookup_le_rec_split pre lt post bno h1 h2)
    simp only [hnull, if_false]
    split_ifs
    all_goals first | exact hcnt | skip
    · exact forall_splice _ pre [lt] [] post hcnt (by simp)
    · refine forall_splice _ pre [lt] [_] post hcnt ?_
      simp only [List.mem_cons, List.mem_singleton, forall_eq_or_imp, forall_eq,
        List.not_mem_nil, false_implies, implies_true, and_true, MAX_EXTLEN, add32, sub32] at *
      omega
    · refine forall_splice _ pre [lt] [_] post hcnt ?_
      simp only [List.mem_cons, List.mem_singleton, forall_eq_or_imp, forall_eq,
        List.not_mem_nil, false_implies, implies_true, and_true, MAX_EXTLEN, add32, sub32] at *
      omega
    · refine forall_splice _ pre [lt] [_, _] post hcnt ?_
      simp only [List.mem_cons, List.mem_singleton, forall_eq_or_imp, forall_eq,
        List.not_mem_nil, false_implies, implies_true, and_true, MAX_EXTLEN, add32, sub32] at *
      omega

/-- C10 (amended): on a list of records with 32-bit startblocks and `1 <= blockcount <=
MAX_EXTLEN`, for 32-bit `bno` and `1 <= len <= MAX_EXTLEN`: after an alloc every record has
`1 <= blockcount <= 3 * MAX_EXTLEN` (a merge adds up the left record, the new extent and the
right record, and nothing caps the sum); after a free whose range ends at or before the end of
the record found by the lookup (or whose owner is `OWN_NULL`) every record has
`1 <= blockcount <= MAX_EXTLEN`.  Both hold whether or not the call succeeds. -/
theorem C10_blockcount_bounds (hasrmapbt : Bool) (g : xfs_rmap_irec)
    (l : List xfs_rmap_irec) (bno len owner : Nat)
    (htyp : ∀ r ∈ l, r.rm_startblock < 4294967296) (hb : bno < 4294967296)
    (hcnt : ∀ r ∈ l, 1 ≤ r.rm_blockcount ∧ r.rm_blockcount ≤ MAX_EXTLEN)
    (hlen : 1 ≤ len ∧ len ≤ MAX_EXTLEN) :
    (∀ r ∈ (xfs_rmap_alloc hasrmapbt g l bno len owner).2,
      1 ≤ r.rm_blockcount ∧ r.rm_blockcount ≤ 3 * MAX_EXTLEN) ∧
    ((owner ≠ XFS_RMAP_OWN_NULL → ∀ lt, lookup_le_rec l bno = some lt →
        bno + len ≤ lt.rm_startblock + lt.rm_blockcount) →
      ∀ r ∈ (xfs_rmap_free hasrmapbt l bno len owner).2,
        1 ≤ r.rm_blockcount ∧ r.rm_blockcount ≤ MAX_EXTLEN) := by
  cases hasrmapbt with
  | false =>
    rw [alloc_feature_off, free_feature_off]
    refine ⟨fun r hr => ?_, fun _ => hcnt⟩
    have := hcnt r hr
    omega
  | true =>
    exact ⟨alloc_blockcount g l bno len owner hcnt hlen,
      fun hin => free_blockcount l bno len owner htyp hb hcnt hlen hin⟩

/-- C10 at a both-sides merge (`alloc(110, 10, 42)`) and at a middle split
(`free(102, 3, 42)`). -/
theorem C10_blockcount_bounds_witness :
    (∀ r ∈ (xfs_rmap_alloc true ⟨0, 0, 0⟩ [ag_hdr, ⟨100, 10, 42⟩, ⟨120, 5, 42⟩]
        110 10 42).2,
      1 ≤ r.rm_blockcount ∧ r.rm_blockcount ≤ 3 * MAX_EXTLEN) ∧
    (∀ r ∈ (xfs_rmap_free true [ag_hdr, ⟨100, 10, 42⟩, ⟨120, 5, 42⟩] 102 3 42).2,
      1 ≤ r.rm_blockcount ∧ r.rm_blockcount ≤ MAX_EXTLEN) :=
  ⟨(C10_blockcount_bounds true ⟨0, 0, 0⟩ [ag_hdr, ⟨100, 10, 42⟩, ⟨120, 5, 42⟩] 110 10 42
      (by decide) (by decide) (by decide) (by decide)).1,
   (C10_blockcount_bounds true ⟨0, 0, 0⟩ [ag_hdr, ⟨100, 10, 42⟩, ⟨120, 5, 42⟩] 102 3 42
      (by decide) (by decide) (by decide) (by decide)).2
      (fun _ lt hlt => by
        have h : lookup_le_rec [ag_hdr, ⟨100, 10, 42⟩, ⟨120, 5, 42⟩] 102 =
            some ⟨100, 10, 42⟩ := by decide
        rw [h] at hlt
        cases hlt
        decide)⟩

/-- C10 as stated fails: the ordered list `(0, 1), (100, MAX_EXTLEN, 42)` has every
blockcount in `[1, MAX_EXTLEN]`; `alloc(100 + MAX_EXTLEN, 1, 42)` succeeds and extends the
second record to `MAX_EXTLEN + 1` blocks. -/
theorem C10_counterexample :
    rmap_ordered [ag_hdr, ⟨100, 2097152, 42⟩] ∧
    (∀ r ∈ [ag_hdr, (⟨100, 2097152, 42⟩ : xfs_rmap_irec)],
      1 ≤ r.rm_blockcount ∧ r.rm_blockcount ≤ MAX_EXTLEN) ∧
    (1 ≤ 1 ∧ 1 ≤ MAX_EXTLEN) ∧
    xfs_rmap_alloc true ⟨0, 0, 0⟩ [ag_hdr, ⟨100, 2097152, 42⟩] 2097252 1 42 =
      (0, [ag_hdr, ⟨100, 2097153, 42⟩]) ∧
    MAX_EXTLEN < 2097153 := by
  decide

/-! ## C11, C12, C13: the owner checks of free -/

theorem free_wildcard_eq (l : List xfs_rmap_irec) (bno len w : Nat) (lt : xfs_rmap_irec)
    (hw : wildcard_owner w) (hlt : lookup_le_rec l bno = some lt)
    (hnull : lt.rm_owner ≠ XFS_RMAP_OWN_NULL) :
    xfs_rmap_free true l bno len w = xfs_rmap_free true l bno len lt.rm_owner := by
  obtain ⟨pre, post, hl, h1, h2⟩ := lookup_le_rec_some l bno lt hlt
  subst hl
  have hwn : w ≠ XFS_RMAP_OWN_NULL := by
    simp only [wildcard_owner, XFS_RMAP_OWN_MIN, XFS_RMAP_OWN_NULL] at hw ⊢
    omega
  have hwok : w = lt.rm_owner ∨ (w < XFS_RMAP_OWN_NULL ∧ XFS_RMAP_OWN_MIN ≤ w) :=
    Or.inr ⟨hw.2, hw.1⟩
  rw [free_found pre lt post bno len w h1 h2, free_found pre lt post bno len _ h1 h2]
  simp only [hwn, hnull, if_false, hwok, not_true_eq_false, true_or]

theorem free_new_owner (l : List xfs_rmap_irec) (bno len owner : Nat) (lt : xfs_rmap_irec)
    (hlt : lookup_le_rec l bno = some lt) :
    ∀ r ∈ (xfs_rmap_free true l bno len owner).2, r ∈ l ∨ r.rm_owner = lt.rm_owner := by
  obtain ⟨pre, post, hl, h1, h2⟩ := lookup_le_rec_some l bno lt hlt
  subst hl
  rw [free_found pre lt post bno len owner h1 h2]
  split_ifs
  all_goals
    intro r hr
    simp only [List.mem_append, List.mem_cons] at hr ⊢
    rcases hr with hr | hr
    · exact Or.inl (Or.inl hr)
    · first
      | exact Or.inl (Or.inr (Or.inr hr))
      | exact Or.inl (Or.inr hr)
      | (rcases hr with rfl | hr
         · exact Or.inr rfl
         · first
           | exact Or.inl (Or.inr (Or.inr hr))
           | (rcases hr with rfl | hr
              · exact Or.inr rfl
              · exact Or.inl (Or.inr (Or.inr hr))))

/-- C11 (amended): when the record `lt` found by the lookup-LE is not owned by `OWN_NULL`,
a free with any owner `w` of the metadata band `[OWN_MIN, OWN_NULL)` returns the same result
and leaves the same record list as the free with owner `lt.rm_owner`; and every record of the
list it leaves is a record of the list before or carries the owner of `lt` (so does the
remainder of a middle split). -/
theorem C11_wildcard_owner (hasrmapbt : Bool) (l : List xfs_rmap_irec) (bno len w : Nat)
    (lt : xfs_rmap_irec) (hw : wildcard_owner w) (hlt : lookup_le_rec l bno = some lt)
    (hnull : lt.rm_owner ≠ XFS_RMAP_OWN_NULL) :
    xfs_rmap_free hasrmapbt l bno len w = xfs_rmap_free hasrmapbt l bno len lt.rm_owner ∧
    ∀ r ∈ (xfs_rmap_free hasrmapbt l bno len w).2, r ∈ l ∨ r.rm_owner = lt.rm_owner := by
  cases hasrmapbt with
  | false =>
    rw [free_feature_off, free_feature_off]
    exact ⟨rfl, fun r hr => Or.inl hr⟩
  | true =>
    exact ⟨free_wildcard_eq l bno len w lt hw hlt hnull, free_new_owner l bno len w lt hlt⟩

/-- C11 at a middle split with the wildcard `OWN_UNKNOWN`: `free(102, 3, OWN_UNKNOWN)` of
`(100, 10, 42)` leaves `(100, 2, 42)` and `(105, 5, 42)`, as `free(102, 3, 42)` does. -/
theorem C11_wildcard_owner_witness :
    xfs_rmap_free true [ag_hdr, ⟨100, 10, 42⟩] 102 3 XFS_RMAP_OWN_UNKNOWN =
      xfs_rmap_free true [ag_hdr, ⟨100, 10, 42⟩] 102 3 42 ∧
    ∀ r ∈ (xfs_rmap_free true [ag_hdr, ⟨100, 10, 42⟩] 102 3 XFS_RMAP_OWN_UNKNOWN).2,
      r ∈ [ag_hdr, (⟨100, 10, 42⟩ : xfs_rmap_irec)] ∨ r.rm_owner = 42 :=
  C11_wildcard_owner true [ag_hdr, ⟨100, 10, 42⟩] 102 3 XFS_RMAP_OWN_UNKNOWN ⟨100, 10, 42⟩
    (by decide) (by decide) (by decide)

/-- C11 as stated fails when the record found is owned by `OWN_NULL`: the free with the
wildcard `OWN_UNKNOWN` deletes the record and returns 0, the free with the owner of the record
takes the growfs branch and returns `-EFSCORRUPTED`. -/
theorem C11_counterexample :
    wildcard_owner XFS_RMAP_OWN_UNKNOWN ∧
    lookup_le_rec [ag_hdr, ⟨100, 10, XFS_RMAP_OWN_NULL⟩] 100 =
      some ⟨100, 10, XFS_RMAP_OWN_NULL⟩ ∧
    xfs_rmap_free true [ag_hdr, ⟨100, 10, XFS_RMAP_OWN_NULL⟩] 100 10 XFS_RMAP_OWN_UNKNOWN =
      (0, [ag_hdr]) ∧
    xfs_rmap_free true [ag_hdr, ⟨100, 10, XFS_RMAP_OWN_NULL⟩] 100 10 XFS_RMAP_OWN_NULL =
      (-EFSCORRUPTED, [ag_hdr, ⟨100, 10, XFS_RMAP_OWN_NULL⟩]) := by
  decide

/-- C12, with the rmapbt feature enabled: a free whose owner is not `OWN_NULL`, lies outside
the wildcard band `[OWN_MIN, OWN_NULL)` and differs from the owner of the record found by the
lookup-LE (if one is found) returns `-EFSCORRUPTED`. -/
theorem C12_wrong_owner_corrupted (l : List xfs_rmap_irec) (bno len owner : Nat)
    (hnull : owner ≠ XFS_RMAP_OWN_NULL) (hband : ¬ wildcard_owner owner)
    (hdiff : ∀ lt, lookup_le_rec l bno = some lt → owner ≠ lt.rm_owner) :
    (xfs_rmap_free true l bno len owner).1 = -EFSCORRUPTED := by
  rcases lookup_le_cases l bno with h0 | ⟨pre, lt, post, hl, h1, h2⟩
  · rw [free_not_found l bno len owner h0]
  subst hl
  have hd := hdiff lt (lookup_le_rec_split pre lt post bno h1 h2)
  have hno : ¬ (owner = lt.rm_owner ∨ (owner < XFS_RMAP_OWN_NULL ∧ XFS_RMAP_OWN_MIN ≤ owner)) := by
    rintro (h | h)
    · exact hd h
    · exact hband ⟨h.2, h.1⟩
  rw [free_found pre lt post bno len owner h1 h2]
  simp only [hnull, if_false, hno, not_false_eq_true, if_true]
  split_ifs <;> rfl

/-- C12 at `free(100, 10, 43)` of the record `(100, 10, 42)`. -/
theorem C12_wrong_owner_corrupted_witness :
    (xfs_rmap_free true [ag_hdr, ⟨100, 10, 42⟩] 100 10 43).1 = -EFSCORRUPTED :=
  C12_wrong_owner_corrupted [ag_hdr, ⟨100, 10, 42⟩] 100 10 43 (by decide) (by decide)
    (fun lt hlt => by
      have h : lookup_le_rec [ag_hdr, ⟨100, 10, 42⟩] 100 = some ⟨100, 10, 42⟩ := by decide
      rw [h] at hlt
      cases hlt
      decide)

/-- C13 (amended), with the rmapbt feature enabled: when the record found by the lookup-LE
(if any) has an extent that fits in 32 bits, a free with owner `OWN_NULL` returns 0 if and only
if the lookup-LE finds a record `lt` and `bno > lt.rm_startblock + lt.rm_blockcount`, returns
`-EFSCORRUPTED` otherwise, and leaves the record list unchanged in both cases. -/
theorem C13_growfs_wildcard (l : List xfs_rmap_irec) (bno len : Nat)
    (hfit : ∀ lt, lookup_le_rec l bno = some lt → fits32 lt) :
    ((xfs_rmap_free true l bno len XFS_RMAP_OWN_NULL).1 = 0 ↔
      ∃ lt, lookup_le_rec l bno = some lt ∧ lt.rm_startblock + lt.rm_blockcount < bno) ∧
    ((xfs_rmap_free true l bno len XFS_RMAP_OWN_NULL).1 ≠ 0 →
      (xfs_rmap_free true l bno len XFS_RMAP_OWN_NULL).1 = -EFSCORRUPTED) ∧
    (xfs_rmap_free true l bno len XFS_RMAP_OWN_NULL).2 = l := by
  have hE : ¬ (-EFSCORRUPTED = (0 : Int)) := by decide
  rcases lookup_le_cases l bno with h0 | ⟨pre, lt, post, hl, h1, h2⟩
  · rw [free_not_found l bno len _ h0]
    refine ⟨⟨fun h => absurd h hE, ?_⟩, fun _ => rfl, rfl⟩
    rintro ⟨lt, hlt, -⟩
    rw [lookup_le_rec_none l bno h0] at hlt
    cases hlt
  subst hl
  have hs := lookup_le_rec_split pre lt post bno h1 h2
  have hf := hfit lt hs
  simp only [fits32] at hf
  rw [free_found pre lt post bno len _ h1 h2]
  simp only [if_true, add32]
  split_ifs with hA
  · refine ⟨⟨fun _ => ⟨lt, hs, by omega⟩, fun _ => rfl⟩, fun h => absurd rfl h, rfl⟩
  · refine ⟨⟨fun h => absurd h hE, ?_⟩, fun _ => rfl, rfl⟩
    rintro ⟨lt2, hlt2, hlt3⟩
    rw [hs] at hlt2
    cases hlt2
    omega

/-- C13 at a growfs free past the last record, `free(200, 50, OWN_NULL)` behind
`(100, 10, 42)`. -/
theorem C13_growfs_wildcard_witness :
    ((xfs_rmap_free true [ag_hdr, ⟨100, 10, 42⟩] 200 50 XFS_RMAP_OWN_NULL).1 = 0 ↔
      ∃ lt, lookup_le_rec [ag_hdr, ⟨100, 10, 42⟩] 200 = some lt ∧
        lt.rm_startblock + lt.rm_blockcount < 200) ∧
    ((xfs_rmap_free true [ag_hdr, ⟨100, 10, 42⟩] 200 50 XFS_RMAP_OWN_NULL).1 ≠ 0 →
      (xfs_rmap_free true [ag_hdr, ⟨100, 10, 42⟩] 200 50 XFS_RMAP_OWN_NULL).1 =
        -EFSCORRUPTED) ∧
    (xfs_rmap_free true [ag_hdr, ⟨100, 10, 42⟩] 200 50 XFS_RMAP_OWN_NULL).2 =
      [ag_hdr, ⟨100, 10, 42⟩] :=
  C13_growfs_wildcard [ag_hdr, ⟨100, 10, 42⟩] 200 50
    (fun lt hlt => by
      have h : lookup_le_rec [ag_hdr, ⟨100, 10, 42⟩] 200 = some ⟨100, 10, 42⟩ := by decide
      rw [h] at hlt
      cases hlt
      decide)

/-- C13 as stated fails when the extent of the record found does not fit in 32 bits: the only
record `(2^32 - 10, 20, 42)` starts before `bno = 2^32 - 5` and ends past it, so no record
ends before `bno`, but its 32-bit end wraps to 10 and `free(2^32 - 5, 1, OWN_NULL)`
returns 0. -/
theorem C13_counterexample :
    lookup_le_rec [⟨4294967286, 20, 42⟩] 4294967291 = some ⟨4294967286, 20, 42⟩ ∧
    (∀ r ∈ [(⟨4294967286, 20, 42⟩ : xfs_rmap_irec)],
      ¬ (r.rm_startblock + r.rm_blockcount < 4294967291)) ∧
    (xfs_rmap_free true [⟨4294967286, 20, 42⟩] 4294967291 1 XFS_RMAP_OWN_NULL).1 = 0 := by
  decide

/-! ## C14: a call that returns CORRUPTED changes nothing -/

theorem alloc_error_unchanged (g : xfs_rmap_irec) (l : List xfs_rmap_irec)
    (bno len owner : Nat) (h : (xfs_rmap_alloc true g l bno len owner).1 ≠ 0) :
    (xfs_rmap_alloc true g l bno len owner).2 = l := by
  rcases lookup_le_cases l bno with h0 | ⟨pre, lt, post, hl, h1, h2⟩
  · rw [alloc_not_found g l bno len owner h0]
  subst hl
  cases post with
  | nil =>
    rw [alloc_found_last g pre lt bno len owner h1] at h ⊢
    split_ifs at h ⊢ <;> first | rfl | exact absurd rfl h
  | cons gt post =>
    rw [alloc_found_mid g pre lt gt post bno len owner h1 h2] at h ⊢
    split_ifs at h ⊢ <;> first | rfl | exact absurd rfl h

theorem free_error_unchanged (l : List xfs_rmap_irec) (bno len owner : Nat)
    (h : (xfs_rmap_free true l bno len owner).1 ≠ 0) :
    (xfs_rmap_free true l bno len owner).2 = l := by
  rcases lookup_le_cases l bno with h0 | ⟨pre, lt, post, hl, h1, h2⟩
  · rw [free_not_found l bno len owner h0]
  subst hl
  rw [free_found pre lt post bno len owner h1 h2] at h ⊢
  split_ifs at h ⊢ <;> first | rfl | exact absurd rfl h

/-- C14: whenever `xfs_rmap_alloc` or `xfs_rmap_free` returns `-EFSCORRUPTED` (its lookup,
overlap or owner check failed), the record list is the list from before the call. -/
theorem C14_no_partial_mutation (hasrmapbt : Bool) (g : xfs_rmap_irec)
    (l : List xfs_rmap_irec) (bno len owner : Nat) :
    ((xfs_rmap_alloc hasrmapbt g l bno len owner).1 = -EFSCORRUPTED →
      (xfs_rmap_alloc hasrmapbt g l bno len owner).2 = l) ∧
    ((xfs_rmap_free hasrmapbt l bno len owner).1 = -EFSCORRUPTED →
      (xfs_rmap_free hasrmapbt l bno len owner).2 = l) := by
  have hE : ¬ (-EFSCORRUPTED = (0 : Int)) := by decide
  cases hasrmapbt with
  | false =>
    rw [alloc_feature_off, free_feature_off]
    exact ⟨fun _ => rfl, fun _ => rfl⟩
  | true =>
    refine ⟨fun h => alloc_error_unchanged g l bno len owner ?_,
      fun h => free_error_unchanged l bno len owner ?_⟩
    · rw [h]; exact hE
    · rw [h]; exact hE

/-- C14 at an overlapping alloc and at a free with a wrong owner. -/
theorem C14_no_partial_mutation_witness :
    (xfs_rmap_alloc true ⟨0, 0, 0⟩ [ag_hdr, ⟨100, 10, 42⟩] 105 10 7).2 =
      [ag_hdr, ⟨100, 10, 42⟩] ∧
    (xfs_rmap_free true [ag_hdr, ⟨100, 10, 42⟩] 100 10 43).2 = [ag_hdr, ⟨100, 10, 42⟩] :=
  ⟨(C14_no_partial_mutation true ⟨0, 0, 0⟩ [ag_hdr, ⟨100, 10, 42⟩] 105 10 7).1 (by decide),
   (C14_no_partial_mutation true ⟨0, 0, 0⟩ [ag_hdr, ⟨100, 10, 42⟩] 100 10 43).2 (by decide)⟩

/-! ## C15: the feature gate -/

/-- C15: with the `has_rmapbt` bit clear, `xfs_rmap_alloc` and `xfs_rmap_free` return 0 for
every `(bno, len, owner)` and every record list, leave the record list unchanged and make no
call on the cursor layer: no cursor is opened, and the AGF, which only the cursor layer
touches, is left alone. -/
theorem C15_feature_gate (g : xfs_rmap_irec) (l : List xfs_rmap_irec) (bno len owner : Nat) :
    xfs_rmap_alloc false g l bno len owner = (0, l) ∧
    xfs_rmap_alloc_ops false g l bno len owner = [] ∧
    xfs_rmap_free false l bno len owner = (0, l) ∧
    xfs_rmap_free_ops false l bno len owner = [] := by
  refine ⟨alloc_feature_off g l bno len owner, ?_, free_feature_off l bno len owner, ?_⟩
  · simp [xfs_rmap_alloc_ops]
  · simp [xfs_rmap_free_ops]

/-! ## C17 .. C20: the block verifier -/

theorem sibling_refused_iff (mp : xfs_mount) (sib : Nat) :
    sibling_refused mp sib = false ↔ sibling_ok mp sib := by
  simp only [sibling_refused, sibling_ok, Bool.or_eq_false_iff, Bool.and_eq_false_iff,
    decide_eq_false_iff_not, bne_eq_false_iff_eq, beq_iff_eq, not_le, ne_eq]
  constructor
  · rintro ⟨h1, h2 | h2⟩
    · exact ⟨h1, Or.inr h2⟩
    · exact ⟨h1, Or.inl h2⟩
  · rintro ⟨h1, h2 | h2⟩
    · exact ⟨h1, Or.inr h2⟩
    · exact ⟨h1, Or.inl h2⟩

theorem verify_iff (bp : xfs_buf) :
    xfs_rmapbt_verify bp = true ↔
      bp.b_block.bb_magic = XFS_RMAP_CRC_MAGIC ∧
      bp.b_mount.sb_hasrmapbt = true ∧
      bp.b_block.bb_uuid = bp.b_mount.sb_uuid ∧
      bp.b_block.bb_blkno = bp.b_bn ∧
      (∀ pag, bp.b_pag = some pag → bp.b_block.bb_owner = pag.pag_agno) ∧
      (∀ pag, bp.b_pag = some pag → pag.pagf_init = true →
        bp.b_block.bb_level < pag.pagf_levels_rmap) ∧
      (∀ pag, bp.b_pag = some pag → pag.pagf_init = false →
        bp.b_block.bb_level < bp.b_mount.m_ag_maxlevels) ∧
      (bp.b_pag = none → bp.b_block.bb_level < bp.b_mount.m_ag_maxlevels) ∧
      (bp.b_block.bb_level = 0 → bp.b_block.bb_numrecs ≤ bp.b_mount.m_rmap_mxr_leaf) ∧
      (bp.b_block.bb_level ≠ 0 → bp.b_block.bb_numrecs ≤ bp.b_mount.m_rmap_mxr_node) ∧
      sibling_ok bp.b_mount bp.b_block.bb_leftsib ∧
      sibling_ok bp.b_mount bp.b_block.bb_rightsib := by
  rw [← sibling_refused_iff, ← sibling_refused_iff]
  unfold xfs_rmapbt_verify
  cases hp : bp.b_pag with
  | none =>
    by_cases hl : bp.b_block.bb_level = 0 <;>
      simp [hl] <;> intros <;> exact Nat.pos_iff_ne_zero.symm
  | some pag =>
    cases hi : pag.pagf_init <;>
    by_cases hl : bp.b_block.bb_level = 0 <;>
      simp [hi, hl] <;> intros <;> exact Nat.pos_iff_ne_zero.symm

theorem verify_without_siblings (bp : xfs_buf) :
    xfs_rmapbt_verify bp = true ↔
      xfs_rmapbt_verify (without_siblings bp) = true ∧
      sibling_ok bp.b_mount bp.b_block.bb_leftsib ∧
      sibling_ok bp.b_mount bp.b_block.bb_rightsib := by
  have hn : ∀ mp : xfs_mount, sibling_ok mp NULLAGBLOCK := fun mp =>
    ⟨by decide, Or.inl rfl⟩
  rw [verify_iff bp, verify_iff (without_siblings bp)]
  simp only [without_siblings, hn, and_true]
  tauto

theorem verify_with_owner (bp : xfs_buf) (owner : Nat) (hp : bp.b_pag = none) :
    xfs_rmapbt_verify (with_owner bp owner) = xfs_rmapbt_verify bp := by
  rw [Bool.eq_iff_iff, verify_iff bp, verify_iff (with_owner bp owner)]
  simp only [with_owner, hp]
  simp

/-- C17: on every buffer that `xfs_rmapbt_verify` accepts, the magic is the rmap CRC magic,
the `has_rmapbt` bit is set, the block uuid is the superblock uuid, the stored block address is
the disk address of the buffer, the level is below `levels[RMAP]` when a per-AG structure with
initialised AGF data is attached and below `AG_MAX_LEVELS` otherwise, `numrecs` is at most the
leaf limit at level 0 and at most the node limit at every level above, and each sibling
pointer is `NULLAGBLOCK` or below `AG_BLOCKS`. -/
theorem C17_verifier_sound (bp : xfs_buf) (h : xfs_rmapbt_verify bp = true) :
    bp.b_block.bb_magic = XFS_RMAP_CRC_MAGIC ∧
    bp.b_mount.sb_hasrmapbt = true ∧
    bp.b_block.bb_uuid = bp.b_mount.sb_uuid ∧
    bp.b_block.bb_blkno = bp.b_bn ∧
    (∀ pag, bp.b_pag = some pag → pag.pagf_init = true →
      bp.b_block.bb_level < pag.pagf_levels_rmap) ∧
    ((¬ ∃ pag, bp.b_pag = some pag ∧ pag.pagf_init = true) →
      bp.b_block.bb_level < bp.b_mount.m_ag_maxlevels) ∧
    (bp.b_block.bb_level = 0 → bp.b_block.bb_numrecs ≤ bp.b_mount.m_rmap_mxr_leaf) ∧
    (0 < bp.b_block.bb_level → bp.b_block.bb_numrecs ≤ bp.b_mount.m_rmap_mxr_node) ∧
    (bp.b_block.bb_leftsib = NULLAGBLOCK ∨ bp.b_block.bb_leftsib < bp.b_mount.sb_agblocks) ∧
    (bp.b_block.bb_rightsib = NULLAGBLOCK ∨
      bp.b_block.bb_rightsib < bp.b_mount.sb_agblocks) := by
  obtain ⟨h1, h2, h3, h4, -, h6, h7, h8, h9, h10, h11, h12⟩ := (verify_iff bp).1 h
  refine ⟨h1, h2, h3, h4, h6, ?_, h9, fun hl => h10 (Nat.pos_iff_ne_zero.1 hl), h11.2, h12.2⟩
  intro hno
  cases hp : bp.b_pag with
  | none => exact h8 hp
  | some pag =>
    cases hi : pag.pagf_init with
    | false => exact h7 pag hp hi
    | true => exact absurd ⟨pag, hp, hi⟩ hno

/-- C17 at a leaf block with ten records and no siblings, read without a per-AG
structure. -/
theorem C17_verifier_sound_witness :
    sample_buf.b_block.bb_magic = XFS_RMAP_CRC_MAGIC ∧
    sample_buf.b_mount.sb_hasrmapbt = true ∧
    sample_buf.b_block.bb_uuid = sample_buf.b_mount.sb_uuid ∧
    sample_buf.b_block.bb_blkno = sample_buf.b_bn ∧
    (∀ pag, sample_buf.b_pag = some pag → pag.pagf_init = true →
      sample_buf.b_block.bb_level < pag.pagf_levels_rmap) ∧
    ((¬ ∃ pag, sample_buf.b_pag = some pag ∧ pag.pagf_init = true) →
      sample_buf.b_block.bb_level < sample_buf.b_mount.m_ag_maxlevels) ∧
    (sample_buf.b_block.bb_level = 0 →
      sample_buf.b_block.bb_numrecs ≤ sample_buf.b_mount.m_rmap_mxr_leaf) ∧
    (0 < sample_buf.b_block.bb_level →
      sample_buf.b_block.bb_numrecs ≤ sample_buf.b_mount.m_rmap_mxr_node) ∧
    (sample_buf.b_block.bb_leftsib = NULLAGBLOCK ∨
      sample_buf.b_block.bb_leftsib < sample_buf.b_mount.sb_agblocks) ∧
    (sample_buf.b_block.bb_rightsib = NULLAGBLOCK ∨
      sample_buf.b_block.bb_rightsib < sample_buf.b_mount.sb_agblocks) :=
  C17_verifier_sound sample_buf (by decide)

/-- C18 (amended): for every block that passes all the other verifier checks (the block
with both sibling pointers replaced by `NULLAGBLOCK` is accepted), `xfs_rmapbt_verify` accepts
it if and only if each of its left and right sibling pointers is non-zero and is either
`NULLAGBLOCK` or a block number below `AG_BLOCKS`. -/
theorem C18_sibling_validity (bp : xfs_buf)
    (hother : xfs_rmapbt_verify (without_siblings bp) = true) :
    xfs_rmapbt_verify bp = true ↔
      (bp.b_block.bb_leftsib ≠ 0 ∧
        (bp.b_block.bb_leftsib = NULLAGBLOCK ∨
          bp.b_block.bb_leftsib < bp.b_mount.sb_agblocks)) ∧
      (bp.b_block.bb_rightsib ≠ 0 ∧
        (bp.b_block.bb_rightsib = NULLAGBLOCK ∨
          bp.b_block.bb_rightsib < bp.b_mount.sb_agblocks)) := by
  rw [verify_without_siblings bp]
  simp only [hother, true_and, sibling_ok]

/-- C18 at a block whose left sibling is block 12 of an AG of 1000 blocks and whose right
sibling is null. -/
theorem C18_sibling_validity_witness :
    xfs_rmapbt_verify { sample_buf with
        b_block := { sample_buf.b_block with bb_leftsib := 12 } } = true ↔
      ((12 : Nat) ≠ 0 ∧ (12 = NULLAGBLOCK ∨ 12 < 1000)) ∧
      (NULLAGBLOCK ≠ 0 ∧ (NULLAGBLOCK = NULLAGBLOCK ∨ NULLAGBLOCK < 1000)) :=
  C18_sibling_validity
    { sample_buf with b_block := { sample_buf.b_block with bb_leftsib := 12 } } (by decide)

/-- C18 as stated fails for a sibling pointer 0: the block passes all the other checks and
both sibling pointers are `NULLAGBLOCK` or below `AG_BLOCKS = 1000`, but the verifier refuses
the left sibling 0. -/
theorem C18_counterexample :
    xfs_rmapbt_verify (without_siblings
      { sample_buf with b_block := { sample_buf.b_block with bb_leftsib := 0 } }) = true ∧
    ((0 : Nat) = NULLAGBLOCK ∨ 0 < sample_buf.b_mount.sb_agblocks) ∧
    (sample_buf.b_block.bb_rightsib = NULLAGBLOCK ∨
      sample_buf.b_block.bb_rightsib < sample_buf.b_mount.sb_agblocks) ∧
    xfs_rmapbt_verify
      { sample_buf with b_block := { sample_buf.b_block with bb_leftsib := 0 } } = false := by
  decide

/-- C19 (amended): if a per-AG structure is attached to the buffer, every block that
`xfs_rmapbt_verify` accepts has its owner field equal to the AG number, and its level is below
`levels[RMAP]` when the AGF data of that structure is initialised and below `AG_MAX_LEVELS`
when it is not; if no per-AG structure is attached, an accepted block has its level below
`AG_MAX_LEVELS` and the verdict does not depend on the owner field, so a block whose other
fields are valid and whose level is below `AG_MAX_LEVELS` is accepted whatever its owner
field is. -/
theorem C19_level_owner (bp : xfs_buf) :
    (∀ pag, bp.b_pag = some pag → xfs_rmapbt_verify bp = true →
      bp.b_block.bb_owner = pag.pag_agno ∧
      (pag.pagf_init = true → bp.b_block.bb_level < pag.pagf_levels_rmap) ∧
      (pag.pagf_init = false → bp.b_block.bb_level < bp.b_mount.m_ag_maxlevels)) ∧
    (bp.b_pag = none →
      (xfs_rmapbt_verify bp = true → bp.b_block.bb_level < bp.b_mount.m_ag_maxlevels) ∧
      ∀ owner, xfs_rmapbt_verify (with_owner bp owner) = xfs_rmapbt_verify bp) := by
  refine ⟨fun pag hp h => ?_, fun hp => ⟨fun h => ?_, fun owner => verify_with_owner bp owner hp⟩⟩
  · obtain ⟨-, -, -, -, h5, h6, h7, -⟩ := (verify_iff bp).1 h
    exact ⟨h5 pag hp, h6 pag hp, h7 pag hp⟩
  · obtain ⟨-, -, -, -, -, -, -, h8, -⟩ := (verify_iff bp).1 h
    exact h8 hp

/-- C19 at a leaf block of AG 0 read with an initialised per-AG structure of a tree of
height 1, and at the same block read without a per-AG structure and with owner 99. -/
theorem C19_level_owner_witness :
    (sample_buf.b_block.bb_owner = 0 ∧
      (true = true → sample_buf.b_block.bb_level < 1) ∧
      (true = false → sample_buf.b_block.bb_level < sample_buf.b_mount.m_ag_maxlevels)) ∧
    xfs_rmapbt_verify (with_owner sample_buf 99) = xfs_rmapbt_verify sample_buf :=
  ⟨(C19_level_owner { sample_buf with b_pag := some ⟨0, true, 1⟩ }).1 ⟨0, true, 1⟩ rfl
      (by decide),
   ((C19_level_owner sample_buf).2 rfl).2 99⟩

/-- C19 as stated fails when a per-AG structure is attached whose AGF data is not
initialised (log recovery). Read with "initialised" as the AGF data being initialised: the
block has valid other fields (it is accepted with owner 0) and a level below `AG_MAX_LEVELS`,
but with owner 1 in AG 0 it is refused. Read with "initialised" as the structure being
attached: the block of level 0 is accepted although `levels[RMAP] = 0`. -/
theorem C19_counterexample :
    xfs_rmapbt_verify (with_owner { sample_buf with b_pag := some ⟨0, false, 0⟩ } 0) = true ∧
    sample_buf.b_block.bb_level < sample_buf.b_mount.m_ag_maxlevels ∧
    xfs_rmapbt_verify (with_owner { sample_buf with b_pag := some ⟨0, false, 0⟩ } 1) = false ∧
    xfs_rmapbt_verify { sample_buf with b_pag := some ⟨0, false, 0⟩ } = true ∧
    ¬ (sample_buf.b_block.bb_level < 0) := by
  decide

/-- C20: `xfs_rmapbt_read_verify` sets the buffer error to `-EFSBADCRC` whenever the CRC does
not match, to `-EFSCORRUPTED` when the CRC matches but `xfs_rmapbt_verify` fails, and leaves
the buffer as it is when both pass; on a buffer that arrives without error, the buffer is
without error afterwards exactly when the CRC matches and `xfs_rmapbt_verify` passes. -/
theorem C20_read_verify_classifies (verify_crc : xfs_buf → Bool) (bp : xfs_buf) :
    (verify_crc bp = false →
      (xfs_rmapbt_read_verify verify_crc bp).b_error = -EFSBADCRC) ∧
    (verify_crc bp = true → xfs_rmapbt_verify bp = false →
      (xfs_rmapbt_read_verify verify_crc bp).b_error = -EFSCORRUPTED) ∧
    (verify_crc bp = true → xfs_rmapbt_verify bp = true →
      xfs_rmapbt_read_verify verify_crc bp = bp) ∧
    (bp.b_error = 0 →
      ((xfs_rmapbt_read_verify verify_crc bp).b_error = 0 ↔
        verify_crc bp = true ∧ xfs_rmapbt_verify bp = true)) := by
  have hA : ¬ (-EFSBADCRC = (0 : Int)) := by decide
  have hB : ¬ (-EFSCORRUPTED = (0 : Int)) := by decide
  unfold xfs_rmapbt_read_verify xfs_buf_ioerror
  cases hc : verify_crc bp <;> cases hv : xfs_rmapbt_verify bp <;> simp [hA, hB]

/-- C20 at a valid block with a CRC check that fails, and with one that passes. -/
theorem C20_read_verify_classifies_witness :
    (xfs_rmapbt_read_verify (fun _ => false) sample_buf).b_error = -EFSBADCRC ∧
    ((xfs_rmapbt_read_verify (fun _ => true) sample_buf).b_error = 0 ↔
      (fun _ => true) sample_buf = true ∧ xfs_rmapbt_verify sample_buf = true) :=
  ⟨(C20_read_verify_classifies (fun _ => false) sample_buf).1 rfl,
   (C20_read_verify_classifies (fun _ => true) sample_buf).2.2.2 rfl⟩

/-! ## C16: two allocs in either order

The calls on lists whose first records are written out, in unbounded arithmetic. -/

theorem all_gt_nil (bno : Nat) : ∀ r ∈ ([] : List xfs_rmap_irec), bno < r.rm_startblock := by
  intro r hr
  cases hr

theorem all_gt_cons (bno s c o : Nat) (rest : List xfs_rmap_irec) (h1 : bno < s)
    (h2 : ∀ r ∈ rest, bno < r.rm_startblock) :
    ∀ r ∈ (⟨s, c, o⟩ : xfs_rmap_irec) :: rest, bno < r.rm_startblock := by
  intro r hr
  rcases List.mem_cons.1 hr with rfl | hr
  · exact h1
  · exact h2 r hr

theorem alloc_at0 (g : xfs_rmap_irec) (s1 c1 o1 s2 c2 o2 : Nat)
    (rest : List xfs_rmap_irec) (bno len owner : Nat) (h1 : s1 ≤ bno) (h2 : bno < s2)
    (h3 : ∀ r ∈ rest, bno < r.rm_startblock) (hf1 : s1 + c1 < 4294967296)
    (hf2 : s2 + c2 < 4294967296) (hbl : bno + len < 4294967296) :
    xfs_rmap_alloc true g (⟨s1, c1, o1⟩ :: ⟨s2, c2, o2⟩ :: rest) bno len owner =
      if bno < s1 + c1 then (-EFSCORRUPTED, ⟨s1, c1, o1⟩ :: ⟨s2, c2, o2⟩ :: rest)
      else if s2 < bno + len then (-EFSCORRUPTED, ⟨s1, c1, o1⟩ :: ⟨s2, c2, o2⟩ :: rest)
      else if o1 = owner ∧ s1 + c1 = bno then
        if o2 = owner ∧ bno + len = s2 then
          (0, ⟨s1, c1 + len + c2, o1⟩ :: rest)
        else (0, ⟨s1, c1 + len, o1⟩ :: ⟨s2, c2, o2⟩ :: rest)
      else if o2 = owner ∧ bno + len = s2 then
        (0, ⟨s1, c1, o1⟩ :: ⟨bno, c2 + len, o2⟩ :: rest)
      else (0, ⟨s1, c1, o1⟩ :: ⟨bno, len, owner⟩ :: ⟨s2, c2, o2⟩ :: rest) := by
  have h := alloc_mid_nat g [] ⟨s1, c1, o1⟩ ⟨s2, c2, o2⟩ rest bno len owner h1
    (all_gt_cons bno s2 c2 o2 rest h2 h3) hf1 hf2 hbl
  simp only [List.cons_append, List.nil_append] at h
  exact h

theorem alloc_at1 (g : xfs_rmap_irec) (x1 : xfs_rmap_irec) (s1 c1 o1 s2 c2 o2 : Nat)
    (rest : List xfs_rmap_irec) (bno len owner : Nat) (h1 : s1 ≤ bno) (h2 : bno < s2)
    (h3 : ∀ r ∈ rest, bno < r.rm_startblock) (hf1 : s1 + c1 < 4294967296)
    (hf2 : s2 + c2 < 4294967296) (hbl : bno + len < 4294967296) :
    xfs_rmap_alloc true g (x1 :: ⟨s1, c1, o1⟩ :: ⟨s2, c2, o2⟩ :: rest) bno len owner =
      if bno < s1 + c1 then (-EFSCORRUPTED, x1 :: ⟨s1, c1, o1⟩ :: ⟨s2, c2, o2⟩ :: rest)
      else if s2 < bno + len then (-EFSCORRUPTED, x1 :: ⟨s1, c1, o1⟩ :: ⟨s2, c2, o2⟩ :: rest)
      else if o1 = owner ∧ s1 + c1 = bno then
        if o2 = owner ∧ bno + len = s2 then
          (0, x1 :: ⟨s1, c1 + len + c2, o1⟩ :: rest)
        else (0, x1 :: ⟨s1, c1 + len, o1⟩ :: ⟨s2, c2, o2⟩ :: rest)
      else if o2 = owner ∧ bno + len = s2 then
        (0, x1 :: ⟨s1, c1, o1⟩ :: ⟨bno, c2 + len, o2⟩ :: rest)
      else (0, x1 :: ⟨s1, c1, o1⟩ :: ⟨bno, len, owner⟩ :: ⟨s2, c2, o2⟩ :: rest) := by
  have h := alloc_mid_nat g [x1] ⟨s1, c1, o1⟩ ⟨s2, c2, o2⟩ rest bno len owner h1
    (all_gt_cons bno s2 c2 o2 rest h2 h3) hf1 hf2 hbl
  simp only [List.cons_append, List.nil_append] at h
  exact h

theorem alloc_at2 (g : xfs_rmap_irec) (x1 x2 : xfs_rmap_irec) (s1 c1 o1 s2 c2 o2 : Nat)
    (rest : List xfs_rmap_irec) (bno len owner : Nat) (h1 : s1 ≤ bno) (h2 : bno < s2)
    (h3 : ∀ r ∈ rest, bno < r.rm_startblock) (hf1 : s1 + c1 < 4294967296)
    (hf2 : s2 + c2 < 4294967296) (hbl : bno + len < 4294967296) :
    xfs_rmap_alloc true g (x1 :: x2 :: ⟨s1, c1, o1⟩ :: ⟨s2, c2, o2⟩ :: rest) bno len owner =
      if bno < s1 + c1 then (-EFSCORRUPTED, x1 :: x2 :: ⟨s1, c1, o1⟩ :: ⟨s2, c2, o2⟩ :: rest)
      else if s2 < bno + len then (-EFSCORRUPTED, x1 :: x2 :: ⟨s1, c1, o1⟩ :: ⟨s2, c2, o2⟩ :: rest)
      else if o1 = owner ∧ s1 + c1 = bno then
        if o2 = owner ∧ bno + len = s2 then
          (0, x1 :: x2 :: ⟨s1, c1 + len + c2, o1⟩ :: rest)
        else (0, x1 :: x2 :: ⟨s1, c1 + len, o1⟩ :: ⟨s2, c2, o2⟩ :: rest)
      else if o2 = owner ∧ bno + len = s2 then
        (0, x1 :: x2 :: ⟨s1, c1, o1⟩ :: ⟨bno, c2 + len, o2⟩ :: rest)
      else (0, x1 :: x2 :: ⟨s1, c1, o1⟩ :: ⟨bno, len, owner⟩ :: ⟨s2, c2, o2⟩ :: rest) := by
  have h := alloc_mid_nat g [x1, x2] ⟨s1, c1, o1⟩ ⟨s2, c2, o2⟩ rest bno len owner h1
    (all_gt_cons bno s2 c2 o2 rest h2 h3) hf1 hf2 hbl
  simp only [List.cons_append, List.nil_append] at h
  exact h

theorem alloc_end0 (g : xfs_rmap_irec) (s1 c1 o1 : Nat)
    (bno len owner : Nat) (h1 : s1 ≤ bno) (hf1 : s1 + c1 < 4294967296)
    (hbl : bno + len < 4294967296) (hown : owner ≠ XFS_RMAP_OWN_NULL) :
    xfs_rmap_alloc true g [⟨s1, c1, o1⟩] bno len owner =
      if bno < s1 + c1 then (-EFSCORRUPTED, [⟨s1, c1, o1⟩])
      else if o1 = owner ∧ s1 + c1 = bno then (0, [⟨s1, c1 + len, o1⟩])
      else (0, [⟨s1, c1, o1⟩, ⟨bno, len, owner⟩]) := by
  have h := alloc_last_nat g [] ⟨s1, c1, o1⟩ bno len owner h1 hf1 hbl hown
  simp only [List.cons_append, List.nil_append] at h
  exact h

theorem alloc_end1 (g : xfs_rmap_irec) (x1 : xfs_rmap_irec) (s1 c1 o1 : Nat)
    (bno len owner : Nat) (h1 : s1 ≤ bno) (hf1 : s1 + c1 < 4294967296)
    (hbl : bno + len < 4294967296) (hown : owner ≠ XFS_RMAP_OWN_NULL) :
    xfs_rmap_alloc true g [x1, ⟨s1, c1, o1⟩] bno len owner =
      if bno < s1 + c1 then (-EFSCORRUPTED, [x1, ⟨s1, c1, o1⟩])
      else if o1 = owner ∧ s1 + c1 = bno then (0, [x1, ⟨s1, c1 + len, o1⟩])
      else (0, [x1, ⟨s1, c1, o1⟩, ⟨bno, len, owner⟩]) := by
  have h := alloc_last_nat g [x1] ⟨s1, c1, o1⟩ bno len owner h1 hf1 hbl hown
  simp only [List.cons_append, List.nil_append] at h
  exact h

theorem alloc_end2 (g : xfs_rmap_irec) (x1 x2 : xfs_rmap_irec) (s1 c1 o1 : Nat)
    (bno len owner : Nat) (h1 : s1 ≤ bno) (hf1 : s1 + c1 < 4294967296)
    (hbl : bno + len < 4294967296) (hown : owner ≠ XFS_RMAP_OWN_NULL) :
    xfs_rmap_alloc true g [x1, x2, ⟨s1, c1, o1⟩] bno len owner =
      if bno < s1 + c1 then (-EFSCORRUPTED, [x1, x2, ⟨s1, c1, o1⟩])
      else if o1 = owner ∧ s1 + c1 = bno then (0, [x1, x2, ⟨s1, c1 + len, o1⟩])
      else (0, [x1, x2, ⟨s1, c1, o1⟩, ⟨bno, len, owner⟩]) := by
  have h := alloc_last_nat g [x1, x2] ⟨s1, c1, o1⟩ bno len owner h1 hf1 hbl hown
  simp only [List.cons_append, List.nil_append] at h
  exact h

/-! The calls on a list with records in front of or behind the ones they look at. -/

theorem alloc_append_left (g : xfs_rmap_irec) (pre l : List xfs_rmap_irec)
    (bno len owner : Nat) (h : ∃ r ∈ l, r.rm_startblock ≤ bno) :
    xfs_rmap_alloc true g (pre ++ l) bno len owner =
      ((xfs_rmap_alloc true g l bno len owner).1,
        pre ++ (xfs_rmap_alloc true g l bno len owner).2) := by
  rcases lookup_le_cases l bno with h0 | ⟨p, lt, q, hl, h1, h2⟩
  · obtain ⟨r, hr, hrb⟩ := h
    have := h0 r hr
    omega
  subst hl
  cases q with
  | nil =>
    have e1 := alloc_found_last g (pre ++ p) lt bno len owner h1
    rw [List.append_assoc] at e1
    rw [e1, alloc_found_last g p lt bno len owner h1]
    split_ifs <;> simp
  | cons gt q =>
    have e1 := alloc_found_mid g (pre ++ p) lt gt q bno len owner h1 h2
    rw [List.append_assoc] at e1
    rw [e1, alloc_found_mid g p lt gt q bno len owner h1 h2]
    split_ifs <;> simp

theorem alloc_append_right (g : xfs_rmap_irec) (lt gt : xfs_rmap_irec)
    (rest : List xfs_rmap_irec) (bno len owner : Nat) (h1 : lt.rm_startblock ≤ bno)
    (h2 : bno < gt.rm_startblock) (h3 : ∀ r ∈ rest, bno < r.rm_startblock) :
    xfs_rmap_alloc true g (lt :: gt :: rest) bno len owner =
      ((xfs_rmap_alloc true g [lt, gt] bno len owner).1,
        (xfs_rmap_alloc true g [lt, gt] bno len owner).2 ++ rest) := by
  have e1 := alloc_found_mid g [] lt gt rest bno len owner h1 (by
    intro r hr
    rcases List.mem_cons.1 hr with rfl | hr
    · exact h2
    · exact h3 r hr)
  have e2 := alloc_found_mid g [] lt gt [] bno len owner h1 (by
    intro r hr
    rcases List.mem_cons.1 hr with rfl | hr
    · exact h2
    · cases hr)
  simp only [List.nil_append] at e1 e2
  rw [e1, e2]
  split_ifs <;> simp

theorem alloc_all_gt (g : xfs_rmap_irec) (l : List xfs_rmap_irec) (bno len owner x : Nat)
    (h : ∀ r ∈ l, x < r.rm_startblock) (hx : x < bno) :
    ∀ r ∈ (xfs_rmap_alloc true g l bno len owner).2, x < r.rm_startblock := by
  rcases lookup_le_cases l bno with h0 | ⟨pre, lt, post, hl, h1, h2⟩
  · rw [alloc_not_found g l bno len owner h0]
    exact h
  subst hl
  have hlt := h lt (by simp)
  cases post with
  | nil =>
    rw [alloc_found_last g pre lt bno len owner h1]
    split_ifs
    all_goals first | exact h | skip
    · refine forall_splice _ pre [lt] [_] [] h ?_
      simp only [List.mem_cons, List.mem_singleton, forall_eq_or_imp, forall_eq,
        List.not_mem_nil, false_implies, implies_true, and_true]
      omega
    · refine forall_splice _ pre [lt] [lt, _] [] h ?_
      simp only [List.mem_cons, List.mem_singleton, forall_eq_or_imp, forall_eq,
        List.not_mem_nil, false_implies, implies_true, and_true]
      omega
  | cons gt post =>
    have hgt := h gt (by simp)
    rw [alloc_found_mid g pre lt gt post bno len owner h1 h2]
    split_ifs
    all_goals first | exact h | skip
    · refine forall_splice _ pre [lt, gt] [_] post h ?_
      simp only [List.mem_cons, List.mem_singleton, forall_eq_or_imp, forall_eq,
        List.not_mem_nil, false_implies, implies_true, and_true]
      omega
    · refine forall_splice _ pre [lt, gt] [_, gt] post h ?_
      simp only [List.mem_cons, List.mem_singleton, forall_eq_or_imp, forall_eq,
        List.not_mem_nil, false_implies, implies_true, and_true]
      omega
    · refine forall_splice _ pre [lt, gt] [lt, _] post h ?_
      simp only [List.mem_cons, List.mem_singleton, forall_eq_or_imp, forall_eq,
        List.not_mem_nil, false_implies, implies_true, and_true]
      omega
    · refine forall_splice _ pre [lt, gt] [lt, _, gt] post h ?_
      simp only [List.mem_cons, List.mem_singleton, forall_eq_or_imp, forall_eq,
        List.not_mem_nil, false_implies, implies_true, and_true]
      omega

theorem alloc_head_le (g : xfs_rmap_irec) (lt : xfs_rmap_irec) (post : List xfs_rmap_irec)
    (bno len owner : Nat) (h1 : lt.rm_startblock ≤ bno) :
    ∃ r ∈ (xfs_rmap_alloc true g (lt :: post) bno len owner).2,
      r.rm_startblock ≤ lt.rm_startblock := by
  rcases lookup_le_cases (lt :: post) bno with h0 | ⟨pre, m, q, hl, h1m, h2⟩
  · have := h0 lt (by simp)
    omega
  rw [hl]
  cases pre with
  | cons x pre =>
    simp only [List.cons_append, List.cons.injEq] at hl
    obtain ⟨rfl, -⟩ := hl
    have e := alloc_append_left g [lt] (pre ++ m :: q) bno len owner ⟨m, by simp, h1m⟩
    simp only [List.cons_append, List.nil_append] at e ⊢
    rw [e]
    exact ⟨lt, by simp, le_refl _⟩
  | nil =>
    simp only [List.nil_append, List.cons.injEq] at hl
    obtain ⟨rfl, rfl⟩ := hl
    cases post with
    | nil =>
      have e := alloc_found_last g [] lt bno len owner h1
      simp only [List.nil_append] at e ⊢
      rw [e]
      split_ifs <;> exact ⟨_, List.mem_cons_self _ _, le_refl _⟩
    | cons gt post =>
      have e := alloc_found_mid g [] lt gt post bno len owner h1 h2
      simp only [List.nil_append] at e ⊢
      rw [e]
      split_ifs <;> exact ⟨_, List.mem_cons_self _ _, le_refl _⟩

theorem alloc_owner_not_null (g g2 : xfs_rmap_irec) (l : List xfs_rmap_irec)
    (bno len owner : Nat) (hown : owner ≠ XFS_RMAP_OWN_NULL) :
    xfs_rmap_alloc true g l bno len owner = xfs_rmap_alloc true g2 l bno len owner := by
  rcases lookup_le_cases l bno with h0 | ⟨pre, lt, post, hl, h1, h2⟩
  · rw [alloc_not_found g l bno len owner h0, alloc_not_found g2 l bno len owner h0]
  subst hl
  have hne : ¬ (XFS_RMAP_OWN_NULL = owner) := fun h => hown h.symm
  cases post with
  | nil =>
    rw [alloc_found_last g pre lt bno len owner h1, alloc_found_last g2 pre lt bno len owner h1]
    simp only [hne, false_and, if_false]
  | cons gt post =>
    rw [alloc_found_mid g pre lt gt post bno len owner h1 h2,
      alloc_found_mid g2 pre lt gt post bno len owner h1 h2]

theorem twice_append_left (g : xfs_rmap_irec) (pre : List xfs_rmap_irec)
    (lt : xfs_rmap_irec) (post : List xfs_rmap_irec) (a la oa b lb ob : Nat)
    (ha : lt.rm_startblock ≤ a) (hb : lt.rm_startblock ≤ b) :
    alloc_then_alloc g (pre ++ lt :: post) a la oa b lb ob =
      (alloc_then_alloc g (lt :: post) a la oa b lb ob).map (fun l => pre ++ l) := by
  unfold alloc_then_alloc
  rw [alloc_append_left g pre (lt :: post) a la oa ⟨lt, by simp, ha⟩]
  obtain ⟨r, hr, hrb⟩ := alloc_head_le g lt post a la oa ha
  rw [alloc_append_left g pre _ b lb ob ⟨r, hr, by omega⟩]
  split_ifs <;> simp

theorem comm_far (g : xfs_rmap_irec) (lt gt : xfs_rmap_irec) (mid : List xfs_rmap_irec)
    (m : xfs_rmap_irec) (q : List xfs_rmap_irec) (a la oa b lb ob : Nat)
    (h1 : lt.rm_startblock ≤ a) (h2 : a < gt.rm_startblock)
    (hmid : ∀ r ∈ mid, a < r.rm_startblock) (hma : a < m.rm_startblock)
    (hm : m.rm_startblock ≤ b) (hq : ∀ r ∈ q, b < r.rm_startblock) (hab : a < b) :
    alloc_then_alloc g (lt :: gt :: (mid ++ m :: q)) a la oa b lb ob =
      alloc_then_alloc g (lt :: gt :: (mid ++ m :: q)) b lb ob a la oa := by
  have hmq : ∀ r ∈ m :: q, a < r.rm_startblock := by
    intro r hr
    rcases List.mem_cons.1 hr with rfl | hr
    · exact hma
    · have := hq r hr
      omega
  have hR : ∀ r ∈ mid ++ m :: q, a < r.rm_startblock := by
    intro r hr
    rcases List.mem_append.1 hr with hr | hr
    · exact hmid r hr
    · exact hmq r hr
  have hY := alloc_all_gt g (m :: q) b lb ob a hmq hab
  have hR2 : ∀ r ∈ mid ++ (xfs_rmap_alloc true g (m :: q) b lb ob).2,
      a < r.rm_startblock := by
    intro r hr
    rcases List.mem_append.1 hr with hr | hr
    · exact hmid r hr
    · exact hY r hr
  have eA := alloc_append_right g lt gt (mid ++ m :: q) a la oa h1 h2 hR
  have eAB := alloc_append_left g ((xfs_rmap_alloc true g [lt, gt] a la oa).2 ++ mid)
    (m :: q) b lb ob ⟨m, by simp, hm⟩
  have eB := alloc_append_left g (lt :: gt :: mid) (m :: q) b lb ob ⟨m, by simp, hm⟩
  have eBA := alloc_append_right g lt gt (mid ++ (xfs_rmap_alloc true g (m :: q) b lb ob).2)
    a la oa h1 h2 hR2
  simp only [List.cons_append, List.append_assoc] at eA eAB eB eBA
  unfold alloc_then_alloc
  rw [eA, eB]
  simp only [eAB, eBA]
  split_ifs <;> simp

/-! Two allocs on a list whose first records are written out: `a` falls behind the first
record, `b` behind the first (`comm_near`) or the second (`comm_next`). -/

set_option maxHeartbeats 4000000 in
theorem comm_near1 (g : xfs_rmap_irec) (s1 c1 o1 : Nat)
    (a la oa b lb ob : Nat)
    (h1 : s1 ≤ a) (hab : a + la < b) (hf1 : s1 + c1 < 4294967296) (hb : b + lb < 4294967296)
    (hna : oa ≠ XFS_RMAP_OWN_NULL) (hnb : ob ≠ XFS_RMAP_OWN_NULL) :
    alloc_then_alloc g ([⟨s1, c1, o1⟩]) a la oa b lb ob =
      alloc_then_alloc g ([⟨s1, c1, o1⟩]) b lb ob a la oa := by
  have hE : ¬ (-EFSCORRUPTED = (0 : Int)) := by decide
  have hA := alloc_end0 g s1 c1 o1 a la oa h1 hf1 (by omega) hna
  have hB := alloc_end0 g s1 c1 o1 b lb ob (by omega) hf1 hb hnb
  obtain ⟨rAB, hAB⟩ : ∃ r, xfs_rmap_alloc true g
      (xfs_rmap_alloc true g ([⟨s1, c1, o1⟩]) a la oa).2 b lb ob = r := ⟨_, rfl⟩
  obtain ⟨rBA, hBA⟩ : ∃ r, xfs_rmap_alloc true g
      (xfs_rmap_alloc true g ([⟨s1, c1, o1⟩]) b lb ob).2 a la oa = r := ⟨_, rfl⟩
  unfold alloc_then_alloc
  rw [hAB, hBA]
  split_ifs at hA <;> (try (exfalso; omega)) <;>
    simp only [hA, hE, if_true, if_false] at hAB ⊢ <;>
    (try clear hAB rAB) <;>
    (try (simp (disch := first | omega | assumption | exact all_gt_nil _ |
          (apply all_gt_cons <;> first | omega | assumption | exact all_gt_nil _))
        only [alloc_end0, alloc_end1, alloc_end2, alloc_at0, alloc_at1, alloc_at2] at hAB
          split_ifs at hAB <;> subst hAB <;> try (exfalso; omega))) <;>
    (split_ifs at hB <;> try (exfalso; omega)) <;>
    simp only [hB, hE, if_true, if_false] at hBA ⊢ <;>
    (try clear hBA rBA) <;>
    (try (simp (disch := first | omega | assumption | exact all_gt_nil _ |
          (apply all_gt_cons <;> first | omega | assumption | exact all_gt_nil _))
        only [alloc_end0, alloc_end1, alloc_end2, alloc_at0, alloc_at1, alloc_at2] at hBA
          split_ifs at hBA <;> subst hBA <;> try (exfalso; omega))) <;>
    simp only [hE, if_true, if_false]

set_option maxHeartbeats 4000000 in
theorem comm_near2 (g : xfs_rmap_irec) (s1 c1 o1 s2 c2 o2 : Nat)
    (a la oa b lb ob : Nat)
    (h1 : s1 ≤ a) (hab : a + la < b) (h2 : b < s2) (hf1 : s1 + c1 < 4294967296)
    (hf2 : s2 + c2 < 4294967296) (hb : b + lb < 4294967296) (hna : oa ≠ XFS_RMAP_OWN_NULL)
    (hnb : ob ≠ XFS_RMAP_OWN_NULL) :
    alloc_then_alloc g ([⟨s1, c1, o1⟩, ⟨s2, c2, o2⟩]) a la oa b lb ob =
      alloc_then_alloc g ([⟨s1, c1, o1⟩, ⟨s2, c2, o2⟩]) b lb ob a la oa := by
  have hE : ¬ (-EFSCORRUPTED = (0 : Int)) := by decide
  have hA := alloc_at0 g s1 c1 o1 s2 c2 o2 [] a la oa h1 (by omega)
    (all_gt_nil a) hf1 hf2 (by omega)
  have hB := alloc_at0 g s1 c1 o1 s2 c2 o2 [] b lb ob (by omega) h2
    (all_gt_nil b) hf1 hf2 hb
  obtain ⟨rAB, hAB⟩ : ∃ r, xfs_rmap_alloc true g
      (xfs_rmap_alloc true g ([⟨s1, c1, o1⟩, ⟨s2, c2, o2⟩]) a la oa).2 b lb ob = r := ⟨_, rfl⟩
  obtain ⟨rBA, hBA⟩ : ∃ r, xfs_rmap_alloc true g
      (xfs_rmap_alloc true g ([⟨s1, c1, o1⟩, ⟨s2, c2, o2⟩]) b lb ob).2 a la oa = r := ⟨_, rfl⟩
  unfold alloc_then_alloc
  rw [hAB, hBA]
  split_ifs at hA <;> (try (exfalso; omega)) <;>
    simp only [hA, hE, if_true, if_false] at hAB ⊢ <;>
    (try clear hAB rAB) <;>
    (try (simp (disch := first | omega | assumption | exact all_gt_nil _ |
          (apply all_gt_cons <;> first | omega | assumption | exact all_gt_nil _ |
            (apply all_gt_cons <;> first | omega | assumption | exact all_gt_nil _)))
        only [alloc_end0, alloc_end1, alloc_end2, alloc_at0, alloc_at1, alloc_at2] at hAB
          split_ifs at hAB <;> subst hAB <;> try (exfalso; omega))) <;>
    (split_ifs at hB <;> try (exfalso; omega)) <;>
    simp only [hB, hE, if_true, if_false] at hBA ⊢ <;>
    (try clear hBA rBA) <;>
    (try (simp (disch := first | omega | assumption | exact all_gt_nil _ |
          (apply all_gt_cons <;> first | omega | assumption | exact all_gt_nil _ |
            (apply all_gt_cons <;> first | omega | assumption | exact all_gt_nil _)))
        only [alloc_end0, alloc_end1, alloc_end2, alloc_at0, alloc_at1, alloc_at2] at hBA
          split_ifs at hBA <;> subst hBA <;> try (exfalso; omega))) <;>
    simp only [hE, if_true, if_false]

set_option maxHeartbeats 4000000 in
theorem comm_near3 (g : xfs_rmap_irec) (s1 c1 o1 s2 c2 o2 s3 c3 o3 : Nat) (rest : List xfs_rmap_irec)
    (a la oa b lb ob : Nat)
    (h1 : s1 ≤ a) (hab : a + la < b) (h2 : b < s2) (h3 : b < s3) (hf1 : s1 + c1 < 4294967296)
    (hf2 : s2 + c2 < 4294967296) (hf3 : s3 + c3 < 4294967296)
    (hrb : ∀ r ∈ rest, b < r.rm_startblock) (hb : b + lb < 4294967296) :
    alloc_then_alloc g (⟨s1, c1, o1⟩ :: ⟨s2, c2, o2⟩ :: ⟨s3, c3, o3⟩ :: rest) a la oa b lb ob =
      alloc_then_alloc g (⟨s1, c1, o1⟩ :: ⟨s2, c2, o2⟩ :: ⟨s3, c3, o3⟩ :: rest) b lb ob a la oa := by
  have hE : ¬ (-EFSCORRUPTED = (0 : Int)) := by decide
  have hra : ∀ r ∈ rest, a < r.rm_startblock := fun r hr => by
    have := hrb r hr
    omega
  have hA := alloc_at0 g s1 c1 o1 s2 c2 o2 (⟨s3, c3, o3⟩ :: rest) a la oa h1 (by omega)
    (all_gt_cons a s3 c3 o3 rest (by omega) hra) hf1 hf2 (by omega)
  have hB := alloc_at0 g s1 c1 o1 s2 c2 o2 (⟨s3, c3, o3⟩ :: rest) b lb ob (by omega) h2
    (all_gt_cons b s3 c3 o3 rest (by omega) hrb) hf1 hf2 hb
  obtain ⟨rAB, hAB⟩ : ∃ r, xfs_rmap_alloc true g
      (xfs_rmap_alloc true g (⟨s1, c1, o1⟩ :: ⟨s2, c2, o2⟩ :: ⟨s3, c3, o3⟩ :: rest) a la oa).2 b lb ob = r := ⟨_, rfl⟩
  obtain ⟨rBA, hBA⟩ : ∃ r, xfs_rmap_alloc true g
      (xfs_rmap_alloc true g (⟨s1, c1, o1⟩ :: ⟨s2, c2, o2⟩ :: ⟨s3, c3, o3⟩ :: rest) b lb ob).2 a la oa = r := ⟨_, rfl⟩
  unfold alloc_then_alloc
  rw [hAB, hBA]
  split_ifs at hA <;> (try (exfalso; omega)) <;>
    simp only [hA, hE, if_true, if_false] at hAB ⊢ <;>
    (try clear hAB rAB) <;>
    (try (simp (disch := first | omega | assumption | exact all_gt_nil _ |
          (apply all_gt_cons <;> first | omega | assumption | exact all_gt_nil _ |
            (apply all_gt_cons <;> first | omega | assumption | exact all_gt_nil _ |
              (apply all_gt_cons <;> first | omega | assumption | exact all_gt_nil _))))
        only [alloc_end0, alloc_end1, alloc_end2, alloc_at0, alloc_at1, alloc_at2] at hAB
          split_ifs at hAB <;> subst hAB <;> try (exfalso; omega))) <;>
    (split_ifs at hB <;> try (exfalso; omega)) <;>
    simp only [hB, hE, if_true, if_false] at hBA ⊢ <;>
    (try clear hBA rBA) <;>
    (try (simp (disch := first | omega | assumption | exact all_gt_nil _ |
          (apply all_gt_cons <;> first | omega | assumption | exact all_gt_nil _ |
            (apply all_gt_cons <;> first | omega | assumption | exact all_gt_nil _ |
              (apply all_gt_cons <;> first | omega | assumption | exact all_gt_nil _))))
        only [alloc_end0, alloc_end1, alloc_end2, alloc_at0, alloc_at1, alloc_at2] at hBA
          split_ifs at hBA <;> subst hBA <;> try (exfalso; omega))) <;>
    simp only [hE, if_true, if_false]

set_option maxHeartbeats 4000000 in
theorem comm_next2 (g : xfs_rmap_irec) (s1 c1 o1 s2 c2 o2 : Nat)
    (a la oa b lb ob : Nat)
    (h1 : s1 ≤ a) (hab : a + la < b) (h2 : s2 ≤ b) (h2a : a < s2) (hf1 : s1 + c1 < 4294967296)
    (hf2 : s2 + c2 < 4294967296) (hb : b + lb < 4294967296) (hoo : oa ≠ ob)
    (hna : oa ≠ XFS_RMAP_OWN_NULL) (hnb : ob ≠ XFS_RMAP_OWN_NULL) :
    alloc_then_alloc g ([⟨s1, c1, o1⟩, ⟨s2, c2, o2⟩]) a la oa b lb ob =
      alloc_then_alloc g ([⟨s1, c1, o1⟩, ⟨s2, c2, o2⟩]) b lb ob a la oa := by
  have hE : ¬ (-EFSCORRUPTED = (0 : Int)) := by decide
  have hA := alloc_at0 g s1 c1 o1 s2 c2 o2 [] a la oa h1 (by omega)
    (all_gt_nil a) hf1 hf2 (by omega)
  have hB := alloc_end1 g ⟨s1, c1, o1⟩ s2 c2 o2 b lb ob h2 hf2 hb hnb
  obtain ⟨rAB, hAB⟩ : ∃ r, xfs_rmap_alloc true g
      (xfs_rmap_alloc true g ([⟨s1, c1, o1⟩, ⟨s2, c2, o2⟩]) a la oa).2 b lb ob = r := ⟨_, rfl⟩
  obtain ⟨rBA, hBA⟩ : ∃ r, xfs_rmap_alloc true g
      (xfs_rmap_alloc true g ([⟨s1, c1, o1⟩, ⟨s2, c2, o2⟩]) b lb ob).2 a la oa = r := ⟨_, rfl⟩
  unfold alloc_then_alloc
  rw [hAB, hBA]
  split_ifs at hA <;> (try (exfalso; omega)) <;>
    simp only [hA, hE, if_true, if_false] at hAB ⊢ <;>
    (try clear hAB rAB) <;>
    (try (simp (disch := first | omega | assumption | exact all_gt_nil _ |
          (apply all_gt_cons <;> first | omega | assumption | exact all_gt_nil _ |
            (apply all_gt_cons <;> first | omega | assumption | exact all_gt_nil _)))
        only [alloc_end0, alloc_end1, alloc_end2, alloc_at0, alloc_at1, alloc_at2] at hAB
          split_ifs at hAB <;> subst hAB <;> try (exfalso; omega))) <;>
    (split_ifs at hB <;> try (exfalso; omega)) <;>
    simp only [hB, hE, if_true, if_false] at hBA ⊢ <;>
    (try clear hBA rBA) <;>
    (try (simp (disch := first | omega | assumption | exact all_gt_nil _ |
          (apply all_gt_cons <;> first | omega | assumption | exact all_gt_nil _ |
            (apply all_gt_cons <;> first | omega | assumption | exact all_gt_nil _)))
        only [alloc_end0, alloc_end1, alloc_end2, alloc_at0, alloc_at1, alloc_at2] at hBA
          split_ifs at hBA <;> subst hBA <;> try (exfalso; omega))) <;>
    simp only [hE, if_true, if_false]

set_option maxHeartbeats 4000000 in
theorem comm_next3 (g : xfs_rmap_irec) (s1 c1 o1 s2 c2 o2 s3 c3 o3 : Nat)
    (a la oa b lb ob : Nat)
    (h1 : s1 ≤ a) (hab : a + la < b) (h2 : s2 ≤ b) (h2a : a < s2) (h3 : b < s3)
    (hf1 : s1 + c1 < 4294967296) (hf2 : s2 + c2 < 4294967296) (hf3 : s3 + c3 < 4294967296)
    (hb : b + lb < 4294967296) (hoo : oa ≠ ob) (hna : oa ≠ XFS_RMAP_OWN_NULL)
    (hnb : ob ≠ XFS_RMAP_OWN_NULL) :
    alloc_then_alloc g ([⟨s1, c1, o1⟩, ⟨s2, c2, o2⟩, ⟨s3, c3, o3⟩]) a la oa b lb ob =
      alloc_then_alloc g ([⟨s1, c1, o1⟩, ⟨s2, c2, o2⟩, ⟨s3, c3, o3⟩]) b lb ob a la oa := by
  have hE : ¬ (-EFSCORRUPTED = (0 : Int)) := by decide
  have hA := alloc_at0 g s1 c1 o1 s2 c2 o2 (⟨s3, c3, o3⟩ :: []) a la oa h1 (by omega)
    (all_gt_cons a s3 c3 o3 [] (by omega) (all_gt_nil a)) hf1 hf2 (by omega)
  have hB := alloc_at1 g ⟨s1, c1, o1⟩ s2 c2 o2 s3 c3 o3 [] b lb ob h2 h3
    (all_gt_nil b) hf2 hf3 hb
  obtain ⟨rAB, hAB⟩ : ∃ r, xfs_rmap_alloc true g
      (xfs_rmap_alloc true g ([⟨s1, c1, o1⟩, ⟨s2, c2, o2⟩, ⟨s3, c3, o3⟩]) a la oa).2 b lb ob = r := ⟨_, rfl⟩
  obtain ⟨rBA, hBA⟩ : ∃ r, xfs_rmap_alloc true g
      (xfs_rmap_alloc true g ([⟨s1, c1, o1⟩, ⟨s2, c2, o2⟩, ⟨s3, c3, o3⟩]) b lb ob).2 a la oa = r := ⟨_, rfl⟩
  unfold alloc_then_alloc
  rw [hAB, hBA]
  split_ifs at hA <;> (try (exfalso; omega)) <;>
    simp only [hA, hE, if_true, if_false] at hAB ⊢ <;>
    (try clear hAB rAB) <;>
    (try (simp (disch := first | omega | assumption | exact all_gt_nil _ |
          (apply all_gt_cons <;> first | omega | assumption | exact all_gt_nil _ |
            (apply all_gt_cons <;> first | omega | assumption | exact all_gt_nil _ |
              (apply all_gt_cons <;> first | omega | assumption | exact all_gt_nil _))))
        only [alloc_end0, alloc_end1, alloc_end2, alloc_at0, alloc_at1, alloc_at2] at hAB
          split_ifs at hAB <;> subst hAB <;> try (exfalso; omega))) <;>
    (split_ifs at hB <;> try (exfalso; omega)) <;>
    simp only [hB, hE, if_true, if_false] at hBA ⊢ <;>
    (try clear hBA rBA) <;>
    (try (simp (disch := first | omega | assumption | exact all_gt_nil _ |
          (apply all_gt_cons <;> first | omega | assumption | exact all_gt_nil _ |
            (apply all_gt_cons <;> first | omega | assumption | exact all_gt_nil _ |
              (apply all_gt_cons <;> first | omega | assumption | exact all_gt_nil _))))
        only [alloc_end0, alloc_end1, alloc_end2, alloc_at0, alloc_at1, alloc_at2] at hBA
          split_ifs at hBA <;> subst hBA <;> try (exfalso; omega))) <;>
    simp only [hE, if_true, if_false]

set_option maxHeartbeats 4000000 in
theorem comm_next4 (g : xfs_rmap_irec) (s1 c1 o1 s2 c2 o2 s3 c3 o3 s4 c4 o4 : Nat) (rest : List xfs_rmap_irec)
    (a la oa b lb ob : Nat)
    (h1 : s1 ≤ a) (hab : a + la < b) (h2 : s2 ≤ b) (h2a : a < s2) (h3 : b < s3) (h4 : b < s4)
    (hf1 : s1 + c1 < 4294967296) (hf2 : s2 + c2 < 4294967296) (hf3 : s3 + c3 < 4294967296)
    (hf4 : s4 + c4 < 4294967296) (hrb : ∀ r ∈ rest, b < r.rm_startblock)
    (hb : b + lb < 4294967296) (hoo : oa ≠ ob) (hna : oa ≠ XFS_RMAP_OWN_NULL)
    (hnb : ob ≠ XFS_RMAP_OWN_NULL) :
    alloc_then_alloc g (⟨s1, c1, o1⟩ :: ⟨s2, c2, o2⟩ :: ⟨s3, c3, o3⟩ :: ⟨s4, c4, o4⟩ :: rest) a la oa b lb ob =
      alloc_then_alloc g (⟨s1, c1, o1⟩ :: ⟨s2, c2, o2⟩ :: ⟨s3, c3, o3⟩ :: ⟨s4, c4, o4⟩ :: rest) b lb ob a la oa := by
  have hE : ¬ (-EFSCORRUPTED = (0 : Int)) := by decide
  have hra : ∀ r ∈ rest, a < r.rm_startblock := fun r hr => by
    have := hrb r hr
    omega
  have hA := alloc_at0 g s1 c1 o1 s2 c2 o2 (⟨s3, c3, o3⟩ :: ⟨s4, c4, o4⟩ :: rest) a la oa h1 (by omega)
    (all_gt_cons a s3 c3 o3 (⟨s4, c4, o4⟩ :: rest) (by omega) (all_gt_cons a s4 c4 o4 rest (by omega) hra)) hf1 hf2 (by omega)
  have hB := alloc_at1 g ⟨s1, c1, o1⟩ s2 c2 o2 s3 c3 o3 (⟨s4, c4, o4⟩ :: rest) b lb ob h2 h3
    (all_gt_cons b s4 c4 o4 rest (by omega) hrb) hf2 hf3 hb
  obtain ⟨rAB, hAB⟩ : ∃ r, xfs_rmap_alloc true g
      (xfs_rmap_alloc true g (⟨s1, c1, o1⟩ :: ⟨s2, c2, o2⟩ :: ⟨s3, c3, o3⟩ :: ⟨s4, c4, o4⟩ :: rest) a la oa).2 b lb ob = r := ⟨_, rfl⟩
  obtain ⟨rBA, hBA⟩ : ∃ r, xfs_rmap_alloc true g
      (xfs_rmap_alloc true g (⟨s1, c1, o1⟩ :: ⟨s2, c2, o2⟩ :: ⟨s3, c3, o3⟩ :: ⟨s4, c4, o4⟩ :: rest) b lb ob).2 a la oa = r := ⟨_, rfl⟩
  unfold alloc_then_alloc
  rw [hAB, hBA]
  split_ifs at hA <;> (try (exfalso; omega)) <;>
    simp only [hA, hE, if_true, if_false] at hAB ⊢ <;>
    (try clear hAB rAB) <;>
    (try (simp (disch := first | omega | assumption | exact all_gt_nil _ |
          (apply all_gt_cons <;> first | omega | assumption | exact all_gt_nil _ |
            (apply all_gt_cons <;> first | omega | assumption | exact all_gt_nil _ |
              (apply all_gt_cons <;> first | omega | assumption | exact all_gt_nil _ |
                (apply all_gt_cons <;> first | omega | assumption | exact all_gt_nil _)))))
        only [alloc_end0, alloc_end1, alloc_end2, alloc_at0, alloc_at1, alloc_at2] at hAB
          split_ifs at hAB <;> subst hAB <;> try (exfalso; omega))) <;>
    (split_ifs at hB <;> try (exfalso; omega)) <;>
    simp only [hB, hE, if_true, if_false] at hBA ⊢ <;>
    (try clear hBA rBA) <;>
    (try (simp (disch := first | omega | assumption | exact all_gt_nil _ |
          (apply all_gt_cons <;> first | omega | assumption | exact all_gt_nil _ |
            (apply all_gt_cons <;> first | omega | assumption | exact all_gt_nil _ |
              (apply all_gt_cons <;> first | omega | assumption | exact all_gt_nil _ |
                (apply all_gt_cons <;> first | omega | assumption | exact all_gt_nil _)))))
        only [alloc_end0, alloc_end1, alloc_end2, alloc_at0, alloc_at1, alloc_at2] at hBA
          split_ifs at hBA <;> subst hBA <;> try (exfalso; omega))) <;>
    simp only [hE, if_true, if_false]

/-! An extent without blocks that lies inside the other one: the second alloc fails. -/

theorem alloc_success_covers (g : xfs_rmap_irec) (l : List xfs_rmap_irec)
    (a la oa : Nat) (hfit : ∀ r ∈ l, fits32 r) (ha : a + la < 4294967296)
    (hna : oa ≠ XFS_RMAP_OWN_NULL) (h : (xfs_rmap_alloc true g l a la oa).1 = 0) :
    ∃ r ∈ (xfs_rmap_alloc true g l a la oa).2,
      r.rm_startblock ≤ a ∧ a + la ≤ r.rm_startblock + r.rm_blockcount := by
  have hE : ¬ (-EFSCORRUPTED = (0 : Int)) := by decide
  rcases lookup_le_cases l a with h0 | ⟨pre, lt, post, hl, h1, h2⟩
  · rw [alloc_not_found g l a la oa h0] at h
    exact absurd h hE
  subst hl
  have hltf := hfit lt (by simp)
  cases post with
  | nil =>
    rw [alloc_last_nat g pre lt a la oa h1 hltf ha hna] at h ⊢
    split_ifs at h ⊢ with hc1 hc2
    · exact absurd h hE
    · exact ⟨_, List.mem_append_right _ (List.mem_cons_self _ _), h1, by
        simp only []
        omega⟩
    · exact ⟨⟨a, la, oa⟩, by simp, le_refl _, le_refl _⟩
  | cons gt post =>
    have hgtf := hfit gt (by simp)
    rw [alloc_mid_nat g pre lt gt post a la oa h1 h2 hltf hgtf ha] at h ⊢
    split_ifs at h ⊢ with hc1 hc2 hc3 hc4 hc5
    · exact absurd h hE
    · exact absurd h hE
    · exact ⟨_, List.mem_append_right _ (List.mem_cons_self _ _), h1, by
        simp only []
        omega⟩
    · exact ⟨_, List.mem_append_right _ (List.mem_cons_self _ _), h1, by
        simp only []
        omega⟩
    · exact ⟨⟨a, gt.rm_blockcount + la, gt.rm_owner⟩, by simp, le_refl _, by
        simp only []
        omega⟩
    · exact ⟨⟨a, la, oa⟩, by simp, le_refl _, le_refl _⟩

theorem alloc_fails_inside (g : xfs_rmap_irec) (l : List xfs_rmap_irec) (b lb ob : Nat)
    (hord : List.Pairwise (rec_rel false) l) (hfit : ∀ r ∈ l, fits32 r)
    (hb : b + lb < 4294967296) (hnb : ob ≠ XFS_RMAP_OWN_NULL)
    (hr : ∃ r ∈ l, (r.rm_startblock ≤ b ∧ b < r.rm_startblock + r.rm_blockcount) ∨
      (b < r.rm_startblock ∧ r.rm_startblock < b + lb)) :
    (xfs_rmap_alloc true g l b lb ob).1 = -EFSCORRUPTED := by
  rcases lookup_le_cases l b with h0 | ⟨pre, lt, post, hl, h1, h2⟩
  · rw [alloc_not_found g l b lb ob h0]
  subst hl
  have hltf := hfit lt (by simp)
  obtain ⟨r, hr, hin⟩ := hr
  simp only [List.pairwise_append, List.pairwise_cons, List.mem_cons] at hord
  obtain ⟨-, ⟨hlt, hpost⟩, hx⟩ := hord
  have hpre : ∀ x ∈ pre, x.rm_startblock + x.rm_blockcount ≤ lt.rm_startblock := fun x hx2 =>
    (hx x hx2 lt (Or.inl rfl)).2
  simp only [fits32] at hltf
  simp only [List.mem_append, List.mem_cons] at hr
  cases post with
  | nil =>
    rw [alloc_last_nat g pre lt b lb ob h1 hltf hb hnb]
    rw [if_pos]
    rcases hr with hr | rfl | hr
    · have := hpre r hr
      omega
    · omega
    · simp at hr
  | cons gt post =>
    have hgtf := hfit gt (by simp)
    have hgt2 := h2 gt (by simp)
    rw [alloc_mid_nat g pre lt gt post b lb ob h1 h2 hltf hgtf hb]
    split_ifs with hA hB
    · rfl
    · rfl
    all_goals
      exfalso
      simp only [List.pairwise_cons] at hpost
      rcases hr with hr | rfl | hr
      · have := hpre r hr
        omega
      · omega
      · simp only [List.mem_cons] at hr
        rcases hr with rfl | hr
        · omega
        · have h5 := (hpost.1 r hr).2
          have h6 := h2 r (by simp [hr])
          omega

theorem alloc_twice_fails (g g2 : xfs_rmap_irec) (l : List xfs_rmap_irec)
    (a la oa b lb ob : Nat) (hord : rmap_ordered l) (hfit : ∀ r ∈ l, fits32 r)
    (ha : a + la < 4294967296) (hb : b + lb < 4294967296)
    (hna : oa ≠ XFS_RMAP_OWN_NULL) (hnb : ob ≠ XFS_RMAP_OWN_NULL)
    (hin : (a < b ∧ b < a + la) ∨ (b < a ∧ a < b + lb))
    (hA : (xfs_rmap_alloc true g l a la oa).1 = 0) :
    (xfs_rmap_alloc true g2 (xfs_rmap_alloc true g l a la oa).2 b lb ob).1 = -EFSCORRUPTED := by
  obtain ⟨r, hr, hr1, hr2⟩ := alloc_success_covers g l a la oa hfit ha hna hA
  have hw : List.Pairwise (rec_rel false) l := by
    have := (ordered_iff_rel l).1 hord
    refine this.imp ?_
    intro x y hxy
    exact ⟨fun h => absurd h (by decide), hxy.2⟩
  obtain ⟨hord2, hfit2⟩ := alloc_keeps false g l a la oa hw hfit (fun h => absurd h (by decide)) ha
  refine alloc_fails_inside g2 _ b lb ob hord2 hfit2 hb hnb ⟨r, hr, ?_⟩
  omega

/-! Two allocs on any list whose records fit in 32 bits. -/

theorem alloc_comm_of_lt (g : xfs_rmap_irec) (l : List xfs_rmap_irec)
    (a la oa b lb ob : Nat) (hfit : ∀ r ∈ l, fits32 r) (hab : a + la < b)
    (hb : b + lb < 4294967296) (hoo : oa ≠ ob) (hna : oa ≠ XFS_RMAP_OWN_NULL)
    (hnb : ob ≠ XFS_RMAP_OWN_NULL) :
    alloc_then_alloc g l a la oa b lb ob = alloc_then_alloc g l b lb ob a la oa := by
  rcases lookup_le_cases l a with h0 | ⟨pre, lt, post, hl, h1, h2⟩
  · have hE : ¬ (-EFSCORRUPTED = (0 : Int)) := by decide
    have hA := alloc_not_found g l a la oa h0
    have hBA := alloc_not_found g _ a la oa (alloc_all_gt g l b lb ob a h0 (by omega))
    unfold alloc_then_alloc
    rw [hA, hBA]
    simp only [hE, if_false, ite_self]
  subst hl
  rw [twice_append_left g pre lt post a la oa b lb ob h1 (by omega),
    twice_append_left g pre lt post b lb ob a la oa (by omega) h1]
  congr 1
  have hfit2 : ∀ r ∈ lt :: post, fits32 r := fun r hr =>
    hfit r (List.mem_append_right _ hr)
  clear hfit
  rcases lookup_le_cases (lt :: post) b with h0 | ⟨p, m, q, hl, hm, hq⟩
  · have := h0 lt (by simp)
    omega
  cases p with
  | nil =>
    simp only [List.nil_append, List.cons.injEq] at hl
    obtain ⟨rfl, rfl⟩ := hl
    obtain ⟨s1, c1, o1⟩ := lt
    have hf1 : s1 + c1 < 4294967296 := hfit2 ⟨s1, c1, o1⟩ (by simp)
    cases post with
    | nil => exact comm_near1 g s1 c1 o1 a la oa b lb ob h1 hab hf1 hb hna hnb
    | cons gt post =>
      obtain ⟨s2, c2, o2⟩ := gt
      have hf2 : s2 + c2 < 4294967296 := hfit2 ⟨s2, c2, o2⟩ (by simp)
      have hg : b < s2 := hq ⟨s2, c2, o2⟩ (by simp)
      cases post with
      | nil => exact comm_near2 g s1 c1 o1 s2 c2 o2 a la oa b lb ob h1 hab hg hf1 hf2 hb hna hnb
      | cons s rest =>
        obtain ⟨s3, c3, o3⟩ := s
        have hf3 : s3 + c3 < 4294967296 := hfit2 ⟨s3, c3, o3⟩ (by simp)
        have hs : b < s3 := hq ⟨s3, c3, o3⟩ (by simp)
        exact comm_near3 g s1 c1 o1 s2 c2 o2 s3 c3 o3 rest a la oa b lb ob h1 hab hg hs
          hf1 hf2 hf3 (fun r hr => hq r (by simp [hr])) hb
  | cons x p =>
    simp only [List.cons_append, List.cons.injEq] at hl
    obtain ⟨rfl, rfl⟩ := hl
    cases p with
    | nil =>
      simp only [List.nil_append] at h2 hfit2 ⊢
      obtain ⟨s1, c1, o1⟩ := lt
      obtain ⟨s2, c2, o2⟩ := m
      have hf1 : s1 + c1 < 4294967296 := hfit2 ⟨s1, c1, o1⟩ (by simp)
      have hf2 : s2 + c2 < 4294967296 := hfit2 ⟨s2, c2, o2⟩ (by simp)
      have hma : a < s2 := h2 ⟨s2, c2, o2⟩ (by simp)
      cases q with
      | nil =>
        exact comm_next2 g s1 c1 o1 s2 c2 o2 a la oa b lb ob h1 hab hm hma hf1 hf2 hb hoo
          hna hnb
      | cons n q =>
        obtain ⟨s3, c3, o3⟩ := n
        have hf3 : s3 + c3 < 4294967296 := hfit2 ⟨s3, c3, o3⟩ (by simp)
        have hn : b < s3 := hq ⟨s3, c3, o3⟩ (by simp)
        cases q with
        | nil =>
          exact comm_next3 g s1 c1 o1 s2 c2 o2 s3 c3 o3 a la oa b lb ob h1 hab hm hma hn
            hf1 hf2 hf3 hb hoo hna hnb
        | cons s rest =>
          obtain ⟨s4, c4, o4⟩ := s
          have hf4 : s4 + c4 < 4294967296 := hfit2 ⟨s4, c4, o4⟩ (by simp)
          have hs : b < s4 := hq ⟨s4, c4, o4⟩ (by simp)
          exact comm_next4 g s1 c1 o1 s2 c2 o2 s3 c3 o3 s4 c4 o4 rest a la oa b lb ob h1 hab
            hm hma hn hs hf1 hf2 hf3 hf4 (fun r hr => hq r (by simp [hr])) hb hoo hna hnb
    | cons gt mid =>
      simp only [List.cons_append] at h2 ⊢
      exact comm_far g lt gt mid m q a la oa b lb ob h1 (h2 gt (by simp))
        (fun r hr => h2 r (by simp [hr])) (h2 m (by simp)) hm hq (by omega)

theorem alloc_comm (g : xfs_rmap_irec) (l : List xfs_rmap_irec)
    (a la oa b lb ob : Nat) (hfit : ∀ r ∈ l, fits32 r)
    (ha : a + la < 4294967296) (hb : b + lb < 4294967296)
    (hsep : a + la < b ∨ b + lb < a) (hoo : oa ≠ ob) (hna : oa ≠ XFS_RMAP_OWN_NULL)
    (hnb : ob ≠ XFS_RMAP_OWN_NULL) :
    alloc_then_alloc g l a la oa b lb ob = alloc_then_alloc g l b lb ob a la oa := by
  rcases hsep with h | h
  · exact alloc_comm_of_lt g l a la oa b lb ob hfit h hb hoo hna hnb
  · exact (alloc_comm_of_lt g l b lb ob a la oa hfit h ha (fun e => hoo e.symm) hnb hna).symm

/-- C16 (amended): for every record list satisfying the ordering invariant whose records
end below block 2^32, and every two extents A and B that end below block 2^32, do not overlap
(have no block in common), are not adjacent to each other and have different owners, neither
of them `OWN_NULL`: if `xfs_rmap_alloc(A)` followed by `xfs_rmap_alloc(B)` both return 0, then
`xfs_rmap_alloc(B)` followed by `xfs_rmap_alloc(A)` both return 0 and the two final record
lists are equal.  `g1 .. g4` are the contents of the uninitialised `gtrec` of the four
calls. -/
theorem C16_alloc_commutes (hasrmapbt : Bool) (g1 g2 g3 g4 : xfs_rmap_irec)
    (l : List xfs_rmap_irec) (a la oa b lb ob : Nat)
    (hord : rmap_ordered l) (hfit : ∀ r ∈ l, fits32 r)
    (ha : a + la < 4294967296) (hb : b + lb < 4294967296)
    (hov : ∀ x, ¬ (in_range a la x ∧ in_range b lb x))
    (hadj : a + la ≠ b ∧ b + lb ≠ a) (hoo : oa ≠ ob)
    (hna : oa ≠ XFS_RMAP_OWN_NULL) (hnb : ob ≠ XFS_RMAP_OWN_NULL)
    (hA : (xfs_rmap_alloc hasrmapbt g1 l a la oa).1 = 0)
    (hAB : (xfs_rmap_alloc hasrmapbt g2 (xfs_rmap_alloc hasrmapbt g1 l a la oa).2
      b lb ob).1 = 0) :
    (xfs_rmap_alloc hasrmapbt g3 l b lb ob).1 = 0 ∧
    (xfs_rmap_alloc hasrmapbt g4 (xfs_rmap_alloc hasrmapbt g3 l b lb ob).2 a la oa).1 = 0 ∧
    (xfs_rmap_alloc hasrmapbt g4 (xfs_rmap_alloc hasrmapbt g3 l b lb ob).2 a la oa).2 =
      (xfs_rmap_alloc hasrmapbt g2 (xfs_rmap_alloc hasrmapbt g1 l a la oa).2 b lb ob).2 := by
  cases hasrmapbt with
  | false => simp only [alloc_feature_off, and_self]
  | true =>
    by_cases hsep : a + la < b ∨ b + lb < a
    · have e := alloc_comm g1 l a la oa b lb ob hfit ha hb hsep hoo hna hnb
      rw [alloc_owner_not_null g2 g1 _ b lb ob hnb] at hAB ⊢
      rw [alloc_owner_not_null g3 g1 l b lb ob hnb]
      rw [alloc_owner_not_null g4 g1 _ a la oa hna]
      unfold alloc_then_alloc at e
      rw [if_pos hA, if_pos hAB] at e
      split_ifs at e with hB hBA
      exact ⟨hB, hBA, (Option.some.inj e).symm⟩
    · exfalso
      have hin : (a < b ∧ b < a + la) ∨ (b < a ∧ a < b + lb) := by
        have h1 := hov a
        have h2 := hov b
        simp only [in_range] at h1 h2
        omega
      have hf := alloc_twice_fails g1 g2 l a la oa b lb ob hord hfit ha hb hna hnb hin hA
      rw [hf] at hAB
      exact absurd hAB (by decide)

/-- C16 at two inserts behind the record `(100, 10, 42)`: `alloc(200, 10, 7)` and
`alloc(300, 10, 8)` in either order leave `(100, 10, 42), (200, 10, 7), (300, 10, 8)` behind
the AG header. -/
theorem C16_alloc_commutes_witness :
    (xfs_rmap_alloc true ⟨0, 0, 0⟩ [ag_hdr, ⟨100, 10, 42⟩] 300 10 8).1 = 0 ∧
    (xfs_rmap_alloc true ⟨0, 0, 0⟩
      (xfs_rmap_alloc true ⟨0, 0, 0⟩ [ag_hdr, ⟨100, 10, 42⟩] 300 10 8).2 200 10 7).1 = 0 ∧
    (xfs_rmap_alloc true ⟨0, 0, 0⟩
      (xfs_rmap_alloc true ⟨0, 0, 0⟩ [ag_hdr, ⟨100, 10, 42⟩] 300 10 8).2 200 10 7).2 =
      (xfs_rmap_alloc true ⟨0, 0, 0⟩
        (xfs_rmap_alloc true ⟨0, 0, 0⟩ [ag_hdr, ⟨100, 10, 42⟩] 200 10 7).2 300 10 8).2 :=
  C16_alloc_commutes true ⟨0, 0, 0⟩ ⟨0, 0, 0⟩ ⟨0, 0, 0⟩ ⟨0, 0, 0⟩ [ag_hdr, ⟨100, 10, 42⟩]
    200 10 7 300 10 8 (by decide) (by decide) (by decide) (by decide)
    (fun x h => by
      simp only [in_range] at h
      omega)
    (by decide) (by decide) (by decide) (by decide) (by decide) (by decide)

/-- C16 as stated fails in three ways.  An extent that ends at block 2^32: after
`alloc(2^32 - 1, 1, 42)` has grown `(2^32 - 7, 6, 42)` to a record whose 32-bit end is 0,
`alloc(2^32 - 7, 4, 7)` returns 0 on blocks of that record, while as the first call it returns
`-EFSCORRUPTED`.  A record that ends at block 2^32: `alloc(3, 2^32 - 4, 42)` joins
`(0, 3, 42)` and `(2^32 - 1, 1, 42)` to a record of 32-bit length 0, after which
`alloc(1, 1, 7)` returns 0, while as the first call it returns `-EFSCORRUPTED`.  The owner
`OWN_NULL`: with 210 left in the uninitialised `gtrec`, `alloc(200, 10, OWN_NULL)` as the first
call returns 0 and adds nothing, as the second call it inserts its record, and the two final
lists differ. -/
theorem C16_counterexample :
    (rmap_ordered [ag_hdr, ⟨4294967289, 6, 42⟩] ∧
      (∀ r ∈ [ag_hdr, (⟨4294967289, 6, 42⟩ : xfs_rmap_irec)], fits32 r) ∧
      4294967289 + 4 < 4294967295 ∧
      (xfs_rmap_alloc true ⟨0, 0, 0⟩ [ag_hdr, ⟨4294967289, 6, 42⟩] 4294967295 1 42).1 = 0 ∧
      (xfs_rmap_alloc true ⟨0, 0, 0⟩
        (xfs_rmap_alloc true ⟨0, 0, 0⟩ [ag_hdr, ⟨4294967289, 6, 42⟩] 4294967295 1 42).2
        4294967289 4 7).1 = 0 ∧
      (xfs_rmap_alloc true ⟨0, 0, 0⟩ [ag_hdr, ⟨4294967289, 6, 42⟩] 4294967289 4 7).1 =
        -EFSCORRUPTED) ∧
    (rmap_ordered [⟨0, 3, 42⟩, ⟨4294967295, 1, 42⟩] ∧
      1 + 1 < 3 ∧ 3 + 4294967292 < 4294967296 ∧
      (xfs_rmap_alloc true ⟨0, 0, 0⟩ [⟨0, 3, 42⟩, ⟨4294967295, 1, 42⟩] 3 4294967292 42).1 = 0 ∧
      (xfs_rmap_alloc true ⟨0, 0, 0⟩
        (xfs_rmap_alloc true ⟨0, 0, 0⟩ [⟨0, 3, 42⟩, ⟨4294967295, 1, 42⟩] 3 4294967292 42).2
        1 1 7).1 = 0 ∧
      (xfs_rmap_alloc true ⟨0, 0, 0⟩ [⟨0, 3, 42⟩, ⟨4294967295, 1, 42⟩] 1 1 7).1 =
        -EFSCORRUPTED) ∧
    (200 + 10 < 300 ∧ XFS_RMAP_OWN_NULL ≠ 7 ∧
      xfs_rmap_alloc true ⟨210, 0, 0⟩
        (xfs_rmap_alloc true ⟨210, 0, 0⟩ [ag_hdr, ⟨100, 10, 42⟩] 200 10 XFS_RMAP_OWN_NULL).2
        300 10 7 = (0, [ag_hdr, ⟨100, 10, 42⟩, ⟨300, 10, 7⟩]) ∧
      xfs_rmap_alloc true ⟨210, 0, 0⟩
        (xfs_rmap_alloc true ⟨210, 0, 0⟩ [ag_hdr, ⟨100, 10, 42⟩] 300 10 7).2
        200 10 XFS_RMAP_OWN_NULL =
        (0, [ag_hdr, ⟨100, 10, 42⟩, ⟨200, 10, XFS_RMAP_OWN_NULL⟩, ⟨300, 10, 7⟩])) := by
  decide

/-! ## C21, C22: the record codec -/

theorem be32_roundtrip (x : Nat) (h : x < 4294967296) : be32_to_cpu (cpu_to_be32 x) = x := by
  simp only [be32_to_cpu, cpu_to_be32]
  omega

theorem be64_roundtrip (x : Nat) (h : x < 18446744073709551616) :
    be64_to_cpu (cpu_to_be64 x) = x := by
  simp only [be64_to_cpu, cpu_to_be64]
  omega

theorem irec_roundtrip (irec : xfs_rmap_irec) (h : irec_in_range irec) :
    xfs_rmap_get_rec_irec (xfs_rmap_update_rec irec) = irec := by
  obtain ⟨s, c, o⟩ := irec
  obtain ⟨h1, h2, h3⟩ := h
  simp only [xfs_rmap_get_rec_irec, xfs_rmap_update_rec, be32_roundtrip s h1,
    be32_roundtrip c h2, be64_roundtrip o h3]

/-- C21: for every record whose `rm_startblock` and `rm_blockcount` are 32-bit unsigned
values and whose `rm_owner` is a 64-bit value, decoding as `xfs_rmap_get_rec` does the on-disk
record built by `xfs_rmap_update`, or the one built by `xfs_rmapbt_init_rec_from_cur` from the
record the cursor carries, yields the same three field values; the on-disk record is 16 bytes,
each field with its most significant byte first. -/
theorem C21_record_codec_roundtrip (irec : xfs_rmap_irec) (h : irec_in_range irec) :
    xfs_rmap_get_rec_irec (xfs_rmap_update_rec irec) = irec ∧
    (∀ cur : xfs_btree_cur, cur.bc_rec = irec →
      xfs_rmap_get_rec_irec (xfs_rmapbt_init_rec_from_cur cur) = irec) ∧
    (xfs_rmap_rec_bytes (xfs_rmap_update_rec irec)).length = 16 ∧
    (∀ x ∈ xfs_rmap_rec_bytes (xfs_rmap_update_rec irec), x < 256) ∧
    irec.rm_startblock / 16777216 =
      (xfs_rmap_rec_bytes (xfs_rmap_update_rec irec)).headD 0 := by
  refine ⟨irec_roundtrip irec h, ?_, rfl, ?_, ?_⟩
  · intro cur hc
    have e : xfs_rmapbt_init_rec_from_cur cur = xfs_rmap_update_rec cur.bc_rec := rfl
    rw [e, hc]
    exact irec_roundtrip irec h
  · intro x hx
    simp only [xfs_rmap_rec_bytes, xfs_rmap_update_rec, cpu_to_be32, cpu_to_be64,
      List.mem_cons, List.mem_singleton, List.not_mem_nil, or_false] at hx
    omega
  · obtain ⟨h1, -, -⟩ := h
    simp only [xfs_rmap_rec_bytes, xfs_rmap_update_rec, cpu_to_be32, List.headD_cons]
    omega

/-- C21 at the record `(0x01020304, 10, OWN_UNKNOWN)`: its 16 bytes on disk, and the
decoding. -/
theorem C21_record_codec_roundtrip_witness :
    xfs_rmap_rec_bytes (xfs_rmap_update_rec ⟨16909060, 10, XFS_RMAP_OWN_UNKNOWN⟩) =
      [1, 2, 3, 4, 0, 0, 0, 10, 255, 255, 255, 255, 255, 255, 255, 254] ∧
    xfs_rmap_get_rec_irec (xfs_rmap_update_rec ⟨16909060, 10, XFS_RMAP_OWN_UNKNOWN⟩) =
      ⟨16909060, 10, XFS_RMAP_OWN_UNKNOWN⟩ :=
  ⟨by decide, (C21_record_codec_roundtrip ⟨16909060, 10, XFS_RMAP_OWN_UNKNOWN⟩ (by decide)).1⟩

/-- C22 (amended): encoding rejects no record.  `xfs_rmap_update` stores at the cursor the
record it is given and `xfs_btree_insert` stores the record the cursor carries, whatever their
fields, and the on-disk records built by `xfs_rmap_update` and `xfs_rmapbt_init_rec_from_cur`
decode to the fields they were given; so behind a last record `lt` that ends at or before `bno`
and has another owner, `xfs_rmap_alloc(bno, len, owner)` with an owner other than `OWN_NULL`
returns 0 and stores `(bno, len, owner)` for every `len`, also for `len = 0` and for
`bno + len` beyond every AG. -/
theorem C22_encoding_rejects_nothing (g : xfs_rmap_irec) (pre : List xfs_rmap_irec)
    (lt irec : xfs_rmap_irec) (post : List xfs_rmap_irec) (bno len owner : Nat)
    (hrange : irec_in_range irec) (h1 : lt.rm_startblock ≤ bno)
    (h2 : add32 lt.rm_startblock lt.rm_blockcount ≤ bno) (hown : lt.rm_owner ≠ owner)
    (hnull : owner ≠ XFS_RMAP_OWN_NULL) :
    (xfs_rmap_update ⟨pre ++ lt :: post, pre.length + 1, ⟨bno, len, owner⟩⟩ irec).recs =
      pre ++ irec :: post ∧
    (xfs_btree_insert ⟨pre ++ post, pre.length + 1, irec⟩).1.recs = pre ++ irec :: post ∧
    xfs_rmap_get_rec_irec (xfs_rmap_update_rec irec) = irec ∧
    xfs_rmap_get_rec_irec (xfs_rmapbt_init_rec_from_cur ⟨pre ++ post, pre.length + 1, irec⟩) =
      irec ∧
    xfs_rmap_alloc true g (pre ++ [lt]) bno len owner =
      (0, pre ++ [lt, ⟨bno, len, owner⟩]) := by
  refine ⟨?_, ?_, irec_roundtrip irec hrange, irec_roundtrip irec hrange, ?_⟩
  · rw [update_at]
  · rw [insert_at]
  · rw [alloc_found_last g pre lt bno len owner h1]
    have hne : ¬ (XFS_RMAP_OWN_NULL = owner) := fun h => hnull h.symm
    simp only [h2, not_true_eq_false, if_false, hown, false_and, hne]

/-- C22 at `alloc(100, 0, 42)` behind the AG header record: the record `(100, 0, 42)` is
encoded, decoded and stored. -/
theorem C22_encoding_rejects_nothing_witness :
    (xfs_rmap_update ⟨[] ++ ag_hdr :: [], ([] : List xfs_rmap_irec).length + 1,
      ⟨100, 0, 42⟩⟩ ⟨100, 0, 42⟩).recs = [] ++ (⟨100, 0, 42⟩ : xfs_rmap_irec) :: [] ∧
    (xfs_btree_insert ⟨[] ++ [], ([] : List xfs_rmap_irec).length + 1, ⟨100, 0, 42⟩⟩).1.recs =
      [] ++ (⟨100, 0, 42⟩ : xfs_rmap_irec) :: [] ∧
    xfs_rmap_get_rec_irec (xfs_rmap_update_rec ⟨100, 0, 42⟩) = ⟨100, 0, 42⟩ ∧
    xfs_rmap_get_rec_irec (xfs_rmapbt_init_rec_from_cur
      ⟨[] ++ [], ([] : List xfs_rmap_irec).length + 1, ⟨100, 0, 42⟩⟩) = ⟨100, 0, 42⟩ ∧
    xfs_rmap_alloc true ⟨0, 0, 0⟩ ([] ++ [ag_hdr]) 100 0 42 =
      (0, [] ++ [ag_hdr, ⟨100, 0, 42⟩]) :=
  C22_encoding_rejects_nothing ⟨0, 0, 0⟩ [] ag_hdr ⟨100, 0, 42⟩ [] 100 0 42
    (by decide) (by decide) (by decide) (by decide) (by decide)

/-- C22 as stated fails: nothing rejects a record.  `alloc(100, 0, 42)` returns 0 and stores
a record with `blockcount = 0`; `alloc(2^32 - 6, 10, 42)` returns 0 and stores a record whose
`startblock + blockcount` is beyond block `2^32`, past the end of every AG; both records are
encoded by `xfs_rmapbt_init_rec_from_cur` and the second decodes to the same fields. -/
theorem C22_counterexample :
    xfs_rmap_alloc true ⟨0, 0, 0⟩ [ag_hdr] 100 0 42 = (0, [ag_hdr, ⟨100, 0, 42⟩]) ∧
    xfs_rmap_alloc true ⟨0, 0, 0⟩ [ag_hdr] 4294967290 10 42 =
      (0, [ag_hdr, ⟨4294967290, 10, 42⟩]) ∧
    4294967296 ≤ 4294967290 + 10 ∧
    xfs_rmap_get_rec_irec (xfs_rmapbt_init_rec_from_cur ⟨[ag_hdr], 2, ⟨100, 0, 42⟩⟩) =
      ⟨100, 0, 42⟩ ∧
    xfs_rmap_get_rec_irec (xfs_rmapbt_init_rec_from_cur ⟨[ag_hdr], 2, ⟨4294967290, 10, 42⟩⟩) =
      ⟨4294967290, 10, 42⟩ := by
  decide

/-! ## C23: the capacity of a block -/

/-- C23: for every block length `blocklen >= 56` (an `int`), `xfs_rmapbt_maxrecs` returns
`(blocklen - 56) / 16` rounded down for a leaf and `(blocklen - 56) / 8` rounded down for a
node; the header plus that many entries fit in the block and one more entry does not; for
4096-byte blocks this is 252 records per leaf and 505 key/pointer pairs per node. -/
theorem C23_block_capacity (blocklen leaf : Int) (h56 : 56 ≤ blocklen)
    (hint : blocklen < 2147483648) (hleaf : leaf ≠ 0) :
    xfs_rmapbt_maxrecs blocklen leaf = (blocklen - 56) / 16 ∧
    xfs_rmapbt_maxrecs blocklen 0 = (blocklen - 56) / 8 ∧
    56 + 16 * xfs_rmapbt_maxrecs blocklen leaf ≤ blocklen ∧
    blocklen < 56 + 16 * (xfs_rmapbt_maxrecs blocklen leaf + 1) ∧
    56 + 8 * xfs_rmapbt_maxrecs blocklen 0 ≤ blocklen ∧
    blocklen < 56 + 8 * (xfs_rmapbt_maxrecs blocklen 0 + 1) ∧
    xfs_rmapbt_maxrecs 4096 leaf = 252 ∧ xfs_rmapbt_maxrecs 4096 0 = 505 := by
  simp only [xfs_rmapbt_maxrecs, to_int32, to_size_t, XFS_RMAP_BLOCK_LEN, sizeof_xfs_rmap_rec,
    sizeof_xfs_rmap_key, sizeof_xfs_rmap_ptr_t, hleaf, ne_eq, not_false_eq_true, if_true,
    not_true_eq_false, if_false]
  refine ⟨?_, ?_, ?_, ?_, ?_, ?_, ?_, ?_⟩ <;> omega

/-- C23 at 512-byte blocks: 28 records per leaf, 57 key/pointer pairs per node. -/
theorem C23_block_capacity_witness :
    xfs_rmapbt_maxrecs 512 1 = (512 - 56) / 16 ∧
    xfs_rmapbt_maxrecs 512 0 = (512 - 56) / 8 ∧
    56 + 16 * xfs_rmapbt_maxrecs 512 1 ≤ 512 ∧
    512 < 56 + 16 * (xfs_rmapbt_maxrecs 512 1 + 1) ∧
    56 + 8 * xfs_rmapbt_maxrecs 512 0 ≤ 512 ∧
    512 < 56 + 8 * (xfs_rmapbt_maxrecs 512 0 + 1) ∧
    xfs_rmapbt_maxrecs 4096 1 = 252 ∧ xfs_rmapbt_maxrecs 4096 0 = 505 :=
  C23_block_capacity 512 1 (by decide) (by decide) (by decide)

/-! ## C24: a new block from the freelist -/

/-- C26 (the code at the failing inputs): with no right neighbour of the record found the
code sets only `gtrec.rm_owner` and then compares `bno + len` with `gtrec.rm_startblock`, which
was never written.  For `alloc(200, 10, OWN_NULL)` behind `(100, 10, 42)` the outcome depends
on what the stack holds there: with 210 the right-contiguous branch is taken, the call returns
0 and stores nothing; with 0 the record is inserted.  For `alloc(110, 10, OWN_NULL)` behind
`(100, 10, OWN_NULL)`: with 120 the both-sides merge is taken and the call returns
`-EFSCORRUPTED`; with 0 the record found is extended. -/
theorem C26_gtrec_uninitialised :
    lookup_le_rec [ag_hdr, ⟨100, 10, 42⟩] 200 = some ⟨100, 10, 42⟩ ∧
    xfs_rmap_alloc true ⟨210, 0, 0⟩ [ag_hdr, ⟨100, 10, 42⟩] 200 10 XFS_RMAP_OWN_NULL =
      (0, [ag_hdr, ⟨100, 10, 42⟩]) ∧
    xfs_rmap_alloc true ⟨0, 0, 0⟩ [ag_hdr, ⟨100, 10, 42⟩] 200 10 XFS_RMAP_OWN_NULL =
      (0, [ag_hdr, ⟨100, 10, 42⟩, ⟨200, 10, XFS_RMAP_OWN_NULL⟩]) ∧
    xfs_rmap_alloc_ops true ⟨210, 0, 0⟩ [ag_hdr, ⟨100, 10, 42⟩] 200 10 XFS_RMAP_OWN_NULL =
      [.init_cursor, .lookup_le, .get_rec, .increment, .update, .del_cursor] ∧
    xfs_rmap_alloc true ⟨120, 0, 0⟩ [ag_hdr, ⟨100, 10, XFS_RMAP_OWN_NULL⟩] 110 10
      XFS_RMAP_OWN_NULL = (-EFSCORRUPTED, [ag_hdr, ⟨100, 10, XFS_RMAP_OWN_NULL⟩]) ∧
    xfs_rmap_alloc true ⟨0, 0, 0⟩ [ag_hdr, ⟨100, 10, XFS_RMAP_OWN_NULL⟩] 110 10
      XFS_RMAP_OWN_NULL = (0, [ag_hdr, ⟨100, 20, XFS_RMAP_OWN_NULL⟩]) := by
  decide

/-! ## C25, C27: the level walk of the dumper -/

theorem loop_step (sib : Nat → Option Nat) (level : Int) (orig fuel nr : Nat) (s : db_state) :
    dump_btlevel_loop sib level orig (fuel + 1) nr s =
      if (sib s.bb).getD s.bb ≠ orig ∧ (sib s.bb).getD s.bb ≠ s.bb then
        dump_btlevel_loop sib level orig fuel ((nr + 1) % 4294967296)
          ⟨(sib s.bb).getD s.bb, s.stack, s.out ++ block_lines level nr s.bb⟩
      else some ⟨(sib s.bb).getD s.bb, s.stack, s.out ++ block_lines level nr s.bb⟩ := by
  rw [dump_btlevel_loop]
  cases h : sib s.bb <;> simp [eval_addr_rightsib, h]

theorem loop_chain (sib : Nat → Option Nat) (level : Int) (orig : Nat) :
    ∀ (rest : List Nat) (b fuel nr : Nat) (s : db_state), s.bb = b →
      List.Chain' (fun x y => sib x = some y) (b :: rest) →
      (∀ x ∈ rest, x ≠ orig) → (b :: rest).Nodup →
      (∀ bn, (b :: rest).getLast? = some bn →
        sib bn = none ∨ sib bn = some orig ∨ sib bn = some bn) →
      rest.length < fuel → nr + rest.length < 4294967296 →
      ∃ fb, dump_btlevel_loop sib level orig fuel nr s =
        some ⟨fb, s.stack, s.out ++ level_lines level nr (b :: rest)⟩ := by
  intro rest
  induction rest with
  | nil =>
    intro b fuel nr s hs _ _ _ hend hfuel _
    obtain ⟨f, rfl⟩ : ∃ f, fuel = f + 1 := ⟨fuel - 1, by simp at hfuel; omega⟩
    rw [loop_step, hs]
    have hno : ¬ ((sib b).getD b ≠ orig ∧ (sib b).getD b ≠ b) := by
      rcases hend b rfl with h | h | h <;> simp [h]
    rw [if_neg hno]
    exact ⟨(sib b).getD b, by simp [level_lines]⟩
  | cons c rest ih =>
    intro b fuel nr s hs hlink hne hnd hend hfuel hnr
    obtain ⟨f, rfl⟩ : ∃ f, fuel = f + 1 := ⟨fuel - 1, by omega⟩
    simp only [List.length_cons] at hfuel hnr
    have hbc : sib b = some c := (List.chain'_cons.1 hlink).1
    have hc1 : c ≠ orig := hne c (by simp)
    have hc2 : c ≠ b := by
      intro e
      have := (List.nodup_cons.1 hnd).1
      exact this (by simp [e])
    rw [loop_step, hs, hbc]
    simp only [Option.getD_some, ne_eq, hc1, not_false_eq_true, hc2, and_self, if_true]
    have hmod : (nr + 1) % 4294967296 = nr + 1 := Nat.mod_eq_of_lt (by omega)
    rw [hmod]
    obtain ⟨fb, hfb⟩ := ih c f (nr + 1) ⟨c, s.stack, s.out ++ block_lines level nr b⟩ rfl
      (List.chain'_cons.1 hlink).2 (fun x hx => hne x (by simp [hx]))
      (List.nodup_cons.1 hnd).2
      (fun bn hbn => hend bn (by rw [List.getLast?_cons_cons]; exact hbn))
      (by omega) (by omega)
    exact ⟨fb, by rw [hfb]; simp [level_lines, List.append_assoc]⟩

theorem loop_prefix (sib : Nat → Option Nat) (level : Int) (orig : Nat) :
    ∀ (bs : List Nat) (b next fuel nr : Nat) (s : db_state), s.bb = b →
      List.Chain (fun x y => sib x = some y ∧ y ≠ orig ∧ y ≠ x) b (bs ++ [next]) →
      nr + bs.length < 4294967296 →
      dump_btlevel_loop sib level orig (fuel + (bs.length + 1)) nr s =
        dump_btlevel_loop sib level orig fuel ((nr + bs.length + 1) % 4294967296)
          ⟨next, s.stack, s.out ++ level_lines level nr (b :: bs)⟩ := by
  intro bs
  induction bs with
  | nil =>
    intro b next fuel nr s hs hch _
    simp only [List.nil_append, List.chain_cons, List.Chain.nil, and_true] at hch
    obtain ⟨h1, h2, h3⟩ := hch
    simp only [List.length_nil, Nat.zero_add, Nat.add_zero]
    rw [loop_step, hs, h1]
    simp [h2, h3, level_lines]
  | cons c bs ih =>
    intro b next fuel nr s hs hch hnr
    simp only [List.cons_append, List.chain_cons] at hch
    obtain ⟨⟨h1, h2, h3⟩, hch2⟩ := hch
    simp only [List.length_cons] at hnr ⊢
    have e : fuel + (bs.length + 1 + 1) = (fuel + (bs.length + 1)) + 1 := by omega
    rw [e, loop_step, hs, h1]
    simp only [Option.getD_some, ne_eq, h2, not_false_eq_true, h3, and_self, if_true]
    have hmod : (nr + 1) % 4294967296 = nr + 1 := Nat.mod_eq_of_lt (by omega)
    rw [hmod, ih c next fuel (nr + 1) ⟨c, s.stack, s.out ++ block_lines level nr b⟩ rfl hch2
      (by omega)]
    have e2 : nr + 1 + bs.length + 1 = nr + (bs.length + 1) + 1 := by omega
    rw [e2]
    simp [level_lines, List.append_assoc]

theorem loop_isSome_iff (sib : Nat → Option Nat) (level : Int) (orig : Nat) :
    ∀ (fuel j nr : Nat) (s : db_state), s.bb = walk_pos sib orig j →
      ((dump_btlevel_loop sib level orig fuel nr s).isSome = true ↔
        ∃ k, j ≤ k ∧ k < j + fuel ∧ walk_ends sib orig k) := by
  intro fuel
  induction fuel with
  | zero =>
    intro j nr s _
    simp only [dump_btlevel_loop, Option.isSome_none, Bool.false_eq_true, Nat.add_zero,
      false_iff, not_exists, not_and]
    intro k h1 h2
    omega
  | succ f ih =>
    intro j nr s hs
    rw [loop_step, hs]
    have hnext : (sib (walk_pos sib orig j)).getD (walk_pos sib orig j) =
        walk_pos sib orig (j + 1) := rfl
    rw [hnext]
    by_cases hend : walk_ends sib orig j
    · have hno : ¬ (walk_pos sib orig (j + 1) ≠ orig ∧
          walk_pos sib orig (j + 1) ≠ walk_pos sib orig j) := by
        rcases hend with h | h <;> simp [h]
      rw [if_neg hno]
      simp only [Option.isSome_some, true_iff]
      exact ⟨j, le_refl _, by omega, hend⟩
    · have hyes : walk_pos sib orig (j + 1) ≠ orig ∧
          walk_pos sib orig (j + 1) ≠ walk_pos sib orig j := by
        simp only [walk_ends, not_or] at hend
        exact hend
      rw [if_pos hyes, ih (j + 1) _ _ rfl]
      constructor
      · rintro ⟨k, h1, h2, h3⟩
        exact ⟨k, by omega, by omega, h3⟩
      · rintro ⟨k, h1, h2, h3⟩
        have hk : k ≠ j := fun e => hend (e ▸ h3)
        exact ⟨k, by omega, by omega, h3⟩

theorem dump_terminates_iff (sib : Nat → Option Nat) (level : Int) (s : db_state) :
    (∃ fuel, dump_btlevel sib fuel level s ≠ none) ↔ ∃ k, walk_ends sib s.bb k := by
  have key : ∀ fuel, dump_btlevel sib fuel level s ≠ none ↔
      (dump_btlevel_loop sib level s.bb fuel 1 (eval_push s).2).isSome = true := by
    intro fuel
    unfold dump_btlevel
    cases h : dump_btlevel_loop sib level s.bb fuel 1 (eval_push s).2 <;> simp [h]
  constructor
  · rintro ⟨fuel, hf⟩
    obtain ⟨k, -, -, hk⟩ := (loop_isSome_iff sib level s.bb fuel 0 1 (eval_push s).2 rfl).1
      ((key fuel).1 hf)
    exact ⟨k, hk⟩
  · rintro ⟨k, hk⟩
    exact ⟨k + 1, (key (k + 1)).2
      ((loop_isSome_iff sib level s.bb (k + 1) 0 1 (eval_push s).2 rfl).2
        ⟨k, Nat.zero_le _, by omega, hk⟩)⟩

theorem long_chain : ∀ (n a : Nat), 1 ≤ a → a + n ≤ 4294967296 →
    List.Chain (fun x y => long_sib x = some y ∧ y ≠ 1 ∧ y ≠ x) a (List.range' (a + 1) n) := by
  intro n
  induction n with
  | zero =>
    intro a _ _
    exact List.Chain.nil
  | succ n ih =>
    intro a h1 h2
    rw [List.range'_succ]
    refine List.Chain.cons ⟨?_, by omega, by omega⟩ (ih (a + 1) (by omega) (by omega))
    simp only [long_sib]
    rw [if_pos (by omega)]

theorem long_walk (level : Int) (n m k : Nat) (hm : m = n + 2) (hk : k = m % 4294967296)
    (hn : m ≤ 4294967296) (s : db_state) (hs : s.bb = 1) :
    dump_btlevel_loop long_sib level 1 m 1 s =
      dump_btlevel_loop long_sib level 1 1 k
        ⟨m, s.stack, s.out ++ level_lines level 1 (1 :: List.range' 2 n)⟩ := by
  subst hm hk
  have hch : List.Chain (fun x y => long_sib x = some y ∧ y ≠ 1 ∧ y ≠ x) 1
      (List.range' 2 n ++ [n + 2]) := by
    have h := long_chain (n + 1) 1 (le_refl _) (by omega)
    rw [List.range'_concat] at h
    have e : 1 + 1 + 1 * n = n + 2 := by omega
    rw [e] at h
    exact h
  have h := loop_prefix long_sib level 1 (List.range' 2 n) 1 (n + 2) 1 1 s hs hch
    (by rw [List.length_range']; omega)
  rw [List.length_range'] at h
  have e1 : 1 + (n + 1) = n + 2 := by omega
  have e2 : 1 + n + 1 = n + 2 := by omega
  rw [e1, e2] at h
  exact h

theorem long_level (level : Int) (m : Nat) (hm : m = 4294967296) (s : db_state)
    (hs : s.bb = 1) :
    dump_btlevel_loop long_sib level 1 m 1 s =
      some ⟨m, s.stack,
        s.out ++ level_lines level 1 (1 :: List.range' 2 4294967294) ++
          block_lines level 0 m⟩ := by
  rw [long_walk level 4294967294 m 0 (by rw [hm]) (by rw [hm]) (by rw [hm]) s hs, loop_step]
  have e : long_sib m = none := by
    simp only [long_sib]
    rw [if_neg (by omega)]
  simp only [e, Option.getD_none, ne_eq, not_true_eq_false, and_false, if_false]

theorem long_dump (level : Int) (m : Nat) (hm : m = 4294967296) (st : List Nat)
    (o : List dump_out) :
    dump_btlevel long_sib m level ⟨1, st, o⟩ =
      some (0, ⟨1, st, o ++ level_lines level 1 (1 :: List.range' 2 4294967294) ++
        block_lines level 0 m⟩) := by
  have h := long_level level m hm (eval_push ⟨1, st, o⟩).2 rfl
  unfold dump_btlevel
  dsimp only
  rw [h]
  rfl

/-- C25 (amended): for every level whose right-sibling chain from the current block visits
distinct blocks `b1 .. bn`, `n < 2^32`, and then either ends (`bn` has no right sibling),
returns to the starting block `b1`, or does not advance, `dump_btlevel` (given at least `n`
rounds) prints exactly the blocks `b1 .. bn`, each once, in chain order, numbered `1 .. n`,
printing keys then pointers when `level > 0` and records otherwise, then returns 0 with the
I/O cursor restored to `b1`. -/
theorem C25_level_walk (sib : Nat → Option Nat) (fuel : Nat) (level : Int) (s : db_state)
    (b1 : Nat) (rest : List Nat) (hs : s.bb = b1)
    (hlink : List.Chain' (fun x y => sib x = some y) (b1 :: rest))
    (hnd : (b1 :: rest).Nodup)
    (hend : ∀ bn, (b1 :: rest).getLast? = some bn →
      sib bn = none ∨ sib bn = some b1 ∨ sib bn = some bn)
    (hlen : (b1 :: rest).length < 4294967296) (hfuel : (b1 :: rest).length ≤ fuel) :
    dump_btlevel sib fuel level s =
      some (0, { s with out := s.out ++ level_lines level 1 (b1 :: rest) }) ∧
    (∀ nr d, 0 < level → block_lines level nr d =
      [dump_out.header (level % 4294967296) nr d, dump_out.keys d, dump_out.ptrs d]) ∧
    (∀ nr d, level ≤ 0 → block_lines level nr d =
      [dump_out.header (level % 4294967296) nr d, dump_out.recs d]) := by
  simp only [List.length_cons] at hlen hfuel
  refine ⟨?_, ?_, ?_⟩
  · obtain ⟨fb, hfb⟩ := loop_chain sib level b1 rest b1 fuel 1 (eval_push s).2 hs hlink
      (fun x hx e => (List.nodup_cons.1 hnd).1 (e ▸ hx)) hnd hend (by omega) (by omega)
    unfold dump_btlevel
    dsimp only
    rw [hs, hfb]
    simp only [eval_push, eval_pop, hs]
  · intro nr d h
    simp only [block_lines, h, if_true]
  · intro nr d h
    have h2 : ¬ (0 < level) := by omega
    simp only [block_lines, h2, if_false]

/-- C25 at a node level of three blocks at 10, 20 and 30 whose last block points back to the
first. -/
theorem C25_level_walk_witness :
    dump_btlevel (fun d => if d = 10 then some 20 else if d = 20 then some 30
        else if d = 30 then some 10 else none) 3 1 ⟨10, [7], []⟩ =
      some (0, ⟨10, [7],
        [dump_out.header 1 1 10, dump_out.keys 10, dump_out.ptrs 10,
         dump_out.header 1 2 20, dump_out.keys 20, dump_out.ptrs 20,
         dump_out.header 1 3 30, dump_out.keys 30, dump_out.ptrs 30]⟩) :=
  (C25_level_walk (fun d => if d = 10 then some 20 else if d = 20 then some 30
      else if d = 30 then some 10 else none) 3 1 ⟨10, [7], []⟩ 10 [20, 30] rfl
    (by simp) (by simp)
    (by
      intro bn h
      simp at h
      subst h
      simp)
    (by decide) (by decide)).1

/-- C25 as stated fails on a level of `2^32` blocks, because the block counter `nr` is an
`unsigned int`: on the chain of the blocks at `1 .. 2^32` (each pointing to the next, the last
without right sibling) the blocks at `1 .. 2^32 - 1` are numbered from 1 on and the last
block, the `2^32`-th, is printed as block 0. -/
theorem C25_counterexample :
    long_sib 4294967296 = none ∧
    (∀ d, d < 4294967296 → long_sib d = some (d + 1)) ∧
    dump_btlevel long_sib 4294967296 0 ⟨1, [], []⟩ =
      some (0, ⟨1, [], [] ++ level_lines 0 1 (1 :: List.range' 2 4294967294) ++
        block_lines 0 0 4294967296⟩) ∧
    block_lines 0 0 4294967296 =
      [dump_out.header 0 0 4294967296, dump_out.recs 4294967296] := by
  refine ⟨by decide, ?_, long_dump 0 4294967296 rfl [] [], by decide⟩
  intro d hd
  simp only [long_sib]
  rw [if_pos hd]

theorem walk_looping : ∀ k, walk_pos looping_sib 1 (2 * k + 1) = 2 ∧
    walk_pos looping_sib 1 (2 * k + 2) = 3 := by
  intro k
  induction k with
  | zero => exact ⟨by decide, by decide⟩
  | succ k ih =>
    have e1 : 2 * (k + 1) + 1 = (2 * k + 2) + 1 := by omega
    have e2 : 2 * (k + 1) + 2 = ((2 * k + 2) + 1) + 1 := by omega
    have h3 : walk_pos looping_sib 1 ((2 * k + 2) + 1) = 2 := by
      rw [walk_pos, ih.2]
      decide
    have h4 : walk_pos looping_sib 1 (((2 * k + 2) + 1) + 1) = 3 := by
      rw [walk_pos, h3]
      decide
    rw [e1, e2]
    exact ⟨h3, h4⟩

theorem looping_never_ends (k : Nat) : ¬ walk_ends looping_sib 1 k := by
  have h0 : walk_pos looping_sib 1 0 = 1 := rfl
  rcases Nat.even_or_odd' k with ⟨m, rfl | rfl⟩
  · cases m with
    | zero =>
      have h := (walk_looping 0).1
      simp only [walk_ends, Nat.mul_zero, Nat.zero_add] at h ⊢
      rw [h, h0]
      decide
    | succ m =>
      have h1 := (walk_looping m).2
      have h2 := (walk_looping (m + 1)).1
      have e : 2 * (m + 1) = 2 * m + 2 := by omega
      simp only [walk_ends]
      rw [h2, e, h1]
      decide
  · have h1 := (walk_looping m).1
    have h2 := (walk_looping m).2
    simp only [walk_ends]
    rw [h2, h1]
    decide

/-- C27 (amended): `dump_btlevel` terminates (returns within some number of rounds of its
loop) if and only if the right-sibling chain from the current block reaches a block whose
right sibling is the starting block or which the walk does not leave (it has no right sibling
or is its own right sibling); on a chain that loops back to a block other than the starting
one without reaching such a block it does not terminate. -/
theorem C27_dump_terminates (sib : Nat → Option Nat) (level : Int) (s : db_state) :
    (∃ fuel, dump_btlevel sib fuel level s ≠ none) ↔ ∃ k, walk_ends sib s.bb k :=
  dump_terminates_iff sib level s

/-- C27 at a level of three blocks at 10, 20 and 30 whose last block points back to the
first: the walk ends after the third block. -/
theorem C27_dump_terminates_witness :
    ∃ fuel, dump_btlevel (fun d => if d = 10 then some 20 else if d = 20 then some 30
        else if d = 30 then some 10 else none) fuel 0 ⟨10, [], []⟩ ≠ none :=
  (C27_dump_terminates (fun d => if d = 10 then some 20 else if d = 20 then some 30
      else if d = 30 then some 10 else none) 0 ⟨10, [], []⟩).2 ⟨2, by decide⟩

/-- C27 as stated fails on a corrupted chain that loops back to a block other than the
starting one: with three blocks where 1 points to 2, 2 to 3 and 3 back to 2, the loop of
`dump_btlevel` started at block 1 never ends, whatever number of rounds it is given. -/
theorem C27_counterexample :
    looping_sib 1 = some 2 ∧ looping_sib 2 = some 3 ∧ looping_sib 3 = some 2 ∧
    ∀ fuel, dump_btlevel looping_sib fuel 0 ⟨1, [], []⟩ = none := by
  refine ⟨by decide, by decide, by decide, ?_⟩
  intro fuel
  by_contra h
  obtain ⟨k, hk⟩ := (dump_terminates_iff looping_sib 0 ⟨1, [], []⟩).1 ⟨fuel, h⟩
  exact looping_never_ends k hk

end XfsRmap
